import Mathlib

/-!
# Spherical-harmonics Monte-Carlo path tracer: verification development

Shallow embedding of `PathTracingRenderer.cpp` and `ForwardRenderer.cpp`.

Conventions of the embedding

* `float` values are elements of an arbitrary linearly ordered field `F`
  (instantiated with `ℚ` for evaluation and with `ℝ` where a transcendental
  library function is needed).  Rounding, NaN and signed zero are not modelled.
* The `+infinity` distance sentinel of a hit payload is `⊤ : WithTop F`.
* Library and engine functions whose source is not part of the translated files
  (`glm::pow`, `glm::inversesqrt`, the BVH query, ...) are parameters.
* The shared `std::mt19937` generator is a stream of draws with a read position.
* A dereference of a null pointer, an out-of-range vector access and an
  exhausted rejection-loop budget make an operation return `none`.
-/

namespace PathTracer

/-! ## Vectors -/

/-- The type `glm::vec3`. -/
structure Vec3 (F : Type) where
  x : F
  y : F
  z : F
deriving DecidableEq

/-- The type `glm::vec4`. -/
structure Vec4 (F : Type) where
  x : F
  y : F
  z : F
  w : F
deriving DecidableEq

/-- The type `glm::mat4`, stored by columns. -/
structure Mat4 (F : Type) where
  c0 : Vec4 F
  c1 : Vec4 F
  c2 : Vec4 F
  c3 : Vec4 F

/-- The type `glm::quat`. -/
structure Quat (F : Type) where
  w : F
  x : F
  y : F
  z : F

/-! ## Ray-tracing primitives -/

/-- The struct `PathTracingRay`: origin and direction. -/
structure PathTracingRay (F : Type) where
  Origin : Vec3 F
  Direction : Vec3 F
deriving DecidableEq

/-- The struct `PathTraceTriangle`: three vertices and the normalised world-space normal. -/
structure PathTraceTriangle (F : Type) where
  V0 : Vec3 F
  V1 : Vec3 F
  V2 : Vec3 F
  WSNormalNormalized : Vec3 F
deriving DecidableEq

/-- The struct `PathTracePayload`: hit distance and pointer to the hit triangle
(`none` is the null pointer). -/
structure PathTracePayload (F : Type) where
  Distance : WithTop F
  Triangle : Option (PathTraceTriangle F)

/-- Modelled from the spec: the default-constructed `PathTracePayload` (its header is
not among the translated files): the distance is the `+infinity` sentinel and no
triangle is referenced. -/
def PathTracePayload.default (F : Type) : PathTracePayload F :=
  { Distance := ⊤, Triangle := none }

/-- The member `AccStructure` of a render command.  `Valid` is the answer of `IsValid()`;
`Trace` is the nearest-hit query `AccStructure.Trace(inRay, currMeshPayload)` on a
freshly default-constructed payload: the returned flag and the payload it leaves. -/
structure AccelerationStructure (F : Type) where
  Valid : Bool
  Trace : PathTracingRay F → Bool × PathTracePayload F

/-- An `eastl::vector` that is written through an index: its `size()` and the content
of its slots.  Slots at or beyond `size` do not exist; `data` there is immaterial. -/
structure Buffer (V : Type) where
  size : Nat
  data : Nat → V

/-- The empty vector. -/
def Buffer.empty {V : Type} (z : V) : Buffer V := ⟨0, fun _ => z⟩

/-- The call `resize(n)`: the first `n` old elements are kept and new elements are
value-initialised to `z`. -/
def Buffer.resize {V : Type} (b : Buffer V) (n : Nat) (z : V) : Buffer V :=
  ⟨n, fun k => if k < b.size then b.data k else z⟩

/-- The compound assignment `b[idx] = f(b[idx])` (such as `+=` and `*=`); `none` when
`idx` is out of range. -/
def Buffer.modifyAt {V : Type} (b : Buffer V) (idx : Nat) (f : V → V) : Option (Buffer V) :=
  if idx < b.size then some ⟨b.size, Function.update b.data idx (f (b.data idx))⟩
  else none

/-- The struct `Vertex`, restricted to the members read by the renderers. -/
structure Vertex (F : Type) where
  Position : Vec3 F
  Normal : Vec3 F
deriving DecidableEq

/-- The class `DrawableObject`, restricted to what the renderers read from the owner
of a command: the result of `GetModelMatrix()` and of `IsVisible()`. -/
structure DrawableObject (F : Type) where
  ModelMatrix : Mat4 F
  Visible : Bool

/-- The struct `RenderCommand`, restricted to the members read or written by the
translated functions.  `Parent` is what `Parent.lock()` yields: `none` when the weak
reference has expired. -/
structure RenderCommand (F : Type) where
  Parent : Option (DrawableObject F)
  Triangles : List (PathTraceTriangle F)
  AccStructure : AccelerationStructure F
  OverrideColor : Vec3 F
  Vertices : List (Vertex F)
  TransferCoeffs : Buffer (Vec3 F)

/-! ## Scene ray tracer -/

section Scene

variable {F : Type} [LinearOrderedField F]

/-- One iteration of the loop of `TriangleTrace` over `MainCommands`, acting on the
triple `(bHit, outPayload, outColor)`. -/
def TriangleTraceStep (inRay : PathTracingRay F)
    (st : Bool × PathTracePayload F × Vec3 F) (command : RenderCommand F) :
    Bool × PathTracePayload F × Vec3 F :=
  if command.Triangles.length = 0 then st
  else
    let r := command.AccStructure.Trace inRay
    if r.1 then
      if r.2.Distance < st.2.1.Distance then (true, r.2, command.OverrideColor)
      else (true, st.2.1, st.2.2)
    else st

/-- The function `TriangleTrace` (identical in `PathTracingRenderer` and
`ForwardRenderer`): returns `bHit` and the final contents of the two out-parameters. -/
def TriangleTrace (MainCommands : List (RenderCommand F)) (inRay : PathTracingRay F)
    (outPayload : PathTracePayload F) (outColor : Vec3 F) :
    Bool × PathTracePayload F × Vec3 F :=
  MainCommands.foldl (TriangleTraceStep inRay) (false, outPayload, outColor)

/-- A command is queried and answers with a hit. -/
def ReportsHit (inRay : PathTracingRay F) (command : RenderCommand F) : Prop :=
  command.Triangles ≠ [] ∧ (command.AccStructure.Trace inRay).1 = true

/-- The distance a command's acceleration structure reports for a ray. -/
def ReportedDistance (inRay : PathTracingRay F) (command : RenderCommand F) : WithTop F :=
  (command.AccStructure.Trace inRay).2.Distance

end Scene

/-! ## Vector arithmetic (the `glm` operations used by the renderers) -/

section VectorOps

variable {F : Type} [LinearOrderedField F]

/-- Component-wise sum of two `glm::vec3`. -/
def Vec3.add (a b : Vec3 F) : Vec3 F := ⟨a.x + b.x, a.y + b.y, a.z + b.z⟩

/-- Unary minus on `glm::vec3`. -/
def Vec3.neg (a : Vec3 F) : Vec3 F := ⟨-a.x, -a.y, -a.z⟩

/-- Product of a `glm::vec3` with a scalar. -/
def Vec3.scale (a : Vec3 F) (s : F) : Vec3 F := ⟨a.x * s, a.y * s, a.z * s⟩

/-- The function `glm::dot` on `glm::vec3`. -/
def Vec3.dot (a b : Vec3 F) : F := a.x * b.x + a.y * b.y + a.z * b.z

/-- The function `glm::lengthSquared`. -/
def Vec3.lengthSquared (a : Vec3 F) : F := Vec3.dot a a

/-- The function `glm::normalize`, which multiplies by `inversesqrt(dot(v, v))`. -/
def Vec3.normalize (inversesqrt : F → F) (a : Vec3 F) : Vec3 F :=
  Vec3.scale a (inversesqrt (Vec3.dot a a))

/-- Component-wise sum of two `glm::vec4`. -/
def Vec4.add (a b : Vec4 F) : Vec4 F := ⟨a.x + b.x, a.y + b.y, a.z + b.z, a.w + b.w⟩

/-- Product of a `glm::vec4` with a scalar. -/
def Vec4.scale (a : Vec4 F) (s : F) : Vec4 F := ⟨a.x * s, a.y * s, a.z * s, a.w * s⟩

/-- Component-wise quotient of two `glm::vec4`. -/
def Vec4.div (a b : Vec4 F) : Vec4 F := ⟨a.x / b.x, a.y / b.y, a.z / b.z, a.w / b.w⟩

/-- The constructor `glm::vec4(s)`: all four components equal to `s`. -/
def Vec4.splat (s : F) : Vec4 F := ⟨s, s, s, s⟩

/-- The function `glm::pow` on `glm::vec4`, component-wise, from the scalar power. -/
def Vec4.pow (pow : F → F → F) (a e : Vec4 F) : Vec4 F :=
  ⟨pow a.x e.x, pow a.y e.y, pow a.z e.z, pow a.w e.w⟩

/-- Product of a `glm::mat4` with a `glm::vec4`. -/
def Mat4.mulVec (m : Mat4 F) (v : Vec4 F) : Vec4 F :=
  Vec4.add (Vec4.add (Vec4.add (Vec4.scale m.c0 v.x) (Vec4.scale m.c1 v.y))
    (Vec4.scale m.c2 v.z)) (Vec4.scale m.c3 v.w)

/-- The function `glm::clamp` on scalars: `min(max(x, lo), hi)`. -/
def clamp (x lo hi : F) : F := min (max x lo) hi

end VectorOps

/-! ## Random source -/

/-- The static generator behind `random_float()`: the sequence of values the
distribution will return, and how many of them have been consumed. -/
structure Rng (F : Type) where
  stream : Nat → F
  pos : Nat

/-- The library functions from outside the translated files that the path integrator
calls: scalar `glm::pow` and `glm::inversesqrt`. -/
structure MathLib (F : Type) where
  pow : F → F → F
  inversesqrt : F → F

section Sampling

variable {F : Type} [LinearOrderedField F]

/-- The function `random_float()`: the next value of the generator. -/
def random_float (g : Rng F) : F × Rng F :=
  (g.stream g.pos, { g with pos := g.pos + 1 })

/-- The function `random_float(min, max)`. -/
def random_float_range (lo hi : F) (g : Rng F) : F × Rng F :=
  let r := random_float g
  (lo + (hi - lo) * r.1, r.2)

/-- The function `randomVec3(min, max)`; the three draws are taken for `x`, `y`, `z`
in that order. -/
def randomVec3 (lo hi : F) (g : Rng F) : Vec3 F × Rng F :=
  let a := random_float_range lo hi g
  let b := random_float_range lo hi a.2
  let c := random_float_range lo hi b.2
  (⟨a.1, b.1, c.1⟩, c.2)

/-- The function `random_in_unit_sphere`: the rejection loop `while (true)`, run for at
most `fuel` rounds; `none` when the budget is exhausted without an accepted point. -/
def random_in_unit_sphere : Nat → Rng F → Option (Vec3 F × Rng F)
  | 0, _ => none
  | fuel + 1, g =>
    let p := randomVec3 (-1) 1 g
    if Vec3.lengthSquared p.1 < 1 then some p
    else random_in_unit_sphere fuel p.2

/-- The function `random_unit_vector`. -/
def random_unit_vector (lib : MathLib F) (fuel : Nat) (g : Rng F) :
    Option (Vec3 F × Rng F) :=
  match random_in_unit_sphere fuel g with
  | none => none
  | some p => some (Vec3.normalize lib.inversesqrt p.1, p.2)

/-- The function `near_zero`, with threshold `1e-8`. -/
def near_zero (inVec : Vec3 F) : Bool :=
  decide (|inVec.x| < 1 / 100000000) && decide (|inVec.y| < 1 / 100000000)
    && decide (|inVec.z| < 1 / 100000000)

end Sampling

/-! ## Path integrator -/

/-- Outcome of one `PerPixel` call: the number of `TriangleTrace` calls it made, and
the returned colour together with the generator state it leaves (`none` when the call
does not return: null triangle pointer or endless rejection loop). -/
structure PerPixelRun (F : Type) where
  traces : Nat
  result : Option (Vec4 F × Rng F)

section PathIntegrator

variable {F : Type} [LinearOrderedField F]

/-- The term `clamp(dot(SourceSurfaceNormal, -NormalizedDirLightDir), 0.1f, 1.f)`. -/
def cosNLightDir (SourceSurfaceNormal NormalizedDirLightDir : Vec3 F) : F :=
  clamp (Vec3.dot SourceSurfaceNormal (Vec3.neg NormalizedDirLightDir)) (1 / 10) 1

/-- The `else` branch of the bounce loop (a hit): the next ray and the generator state
after sampling the scatter direction.  `none` when the rejection loop does not end
within `fuel` rounds. -/
def scatter (lib : MathLib F) (fuel : Nat) (traceRay : PathTracingRay F)
    (SourceSurfaceNormal : Vec3 F) (Distance : F) (g : Rng F) :
    Option (PathTracingRay F × Rng F) :=
  match random_unit_vector lib fuel g with
  | none => none
  | some u =>
    let newRayDir := Vec3.add SourceSurfaceNormal u.1
    let newRayDir := if near_zero newRayDir then SourceSurfaceNormal else newRayDir
    let hitPos := Vec3.add traceRay.Origin (Vec3.scale traceRay.Direction Distance)
    some ({ Origin := Vec3.add hitPos (Vec3.scale SourceSurfaceNormal (1 / 10000)),
            Direction := newRayDir }, u.2)

/-- The bounce loop `for (i = 0; i < nrSamples; ++i)` of `PerPixel` (`DRAW_SPHERES` is
`0`), with `n` iterations left, loop index `i`, and `traces` calls of `TriangleTrace`
made so far.  `hitColor0` is the indeterminate initial content of the local
`hitColor`.  When no iteration is left the function returns opaque black.  The locals
that are written but never read (`firstHitPayload`, and `cosNLightDir` of the miss
branch) are left out.  The result is `none` when the null triangle pointer of an
untouched payload is dereferenced, when the rejection loop does not end, and for a
stored distance of `+infinity`, which `TriangleTrace` never stores. -/
def PerPixelLoop (lib : MathLib F) (fuel : Nat) (MainCommands : List (RenderCommand F))
    (NormalizedDirLightDir : Vec3 F) (hitColor0 : Vec3 F) :
    Nat → Nat → Vec4 F → PathTracingRay F → Rng F → Nat → PerPixelRun F
  | 0, _, _, _, g, traces => ⟨traces, some (⟨0, 0, 0, 1⟩, g)⟩
  | n + 1, i, color, traceRay, g, traces =>
    let r := TriangleTrace MainCommands traceRay (PathTracePayload.default F) hitColor0
    let hitColor := r.2.2
    let payload := r.2.1
    if r.1 = false then
      if i = 0 then ⟨traces + 1, some (⟨0, 0, 0, 1⟩, g)⟩
      else
        let occlusionScale : F := 1 / (i : F)
        let color := Vec4.scale color occlusionScale
        let color := Vec4.pow lib.pow color (Vec4.splat (1 / (22 / 10)))
        ⟨traces + 1, some (color, g)⟩
    else
      match payload.Triangle with
      | none => ⟨traces + 1, none⟩
      | some tri =>
        let SourceSurfaceNormal := tri.WSNormalNormalized
        match payload.Distance with
        | none => ⟨traces + 1, none⟩
        | some Distance =>
          match scatter lib fuel traceRay SourceSurfaceNormal Distance g with
          | none => ⟨traces + 1, none⟩
          | some next =>
            let multiplier : F := 1
            let color := Vec4.add color
              (Vec4.scale (Vec4.scale ⟨hitColor.x, hitColor.y, hitColor.z, 0⟩
                (cosNLightDir SourceSurfaceNormal NormalizedDirLightDir)) multiplier)
            PerPixelLoop lib fuel MainCommands NormalizedDirLightDir hitColor0
              n (i + 1) color next.1 next.2 (traces + 1)

/-- The primary ray of `PerPixel` for pixel `(x, y)`. -/
def primaryRay (lib : MathLib F) (x y Width Height : Nat) (inInvProj inInvView : Mat4 F)
    (inCamPos : Vec3 F) : PathTracingRay F :=
  let nx : F := (x : F) / (Width : F) * 2 - 1
  let ny : F := (y : F) / (Height : F) * 2 - 1
  let worldSpace := Mat4.mulVec inInvProj ⟨nx, ny, 1, 1⟩
  let worldSpace := Vec4.div worldSpace (Vec4.splat worldSpace.w)
  let firstRayDir := Vec3.normalize lib.inversesqrt ⟨worldSpace.x, worldSpace.y, worldSpace.z⟩
  let v := Mat4.mulVec inInvView ⟨firstRayDir.x, firstRayDir.y, firstRayDir.z, 0⟩
  let firstRayDir := Vec3.normalize lib.inversesqrt ⟨v.x, v.y, v.z⟩
  { Origin := inCamPos, Direction := firstRayDir }

/-- The function `PathTracingRenderer::PerPixel`: `nrSamples = 5` iterations of the
bounce loop from the primary ray, starting with the colour `(0, 0, 0, 0)`. -/
def PerPixel (lib : MathLib F) (fuel : Nat) (MainCommands : List (RenderCommand F))
    (NormalizedDirLightDir : Vec3 F) (hitColor0 : Vec3 F)
    (x y Width Height : Nat) (inInvProj inInvView : Mat4 F) (inCamPos : Vec3 F)
    (g : Rng F) : PerPixelRun F :=
  PerPixelLoop lib fuel MainCommands NormalizedDirLightDir hitColor0 5 0 ⟨0, 0, 0, 0⟩
    (primaryRay lib x y Width Height inInvProj inInvView inCamPos) g 0

/-- The value added to `color` on the `j`-th hit:
`vec4(hitColor, 0) * cosNLightDir * multiplier`, with `multiplier` equal to `1`. -/
def hitContribution (NormalizedDirLightDir : Vec3 F) (hitColor : Nat → Vec3 F)
    (tri : Nat → PathTraceTriangle F) (j : Nat) : Vec4 F :=
  Vec4.scale (Vec4.scale ⟨(hitColor j).x, (hitColor j).y, (hitColor j).z, 0⟩
    (cosNLightDir (tri j).WSNormalNormalized NormalizedDirLightDir)) 1

/-- The colour `c` after adding, in order, the `m` values `f i, f (i+1), ...`. -/
def accumulateFrom (f : Nat → Vec4 F) : Vec4 F → Nat → Nat → Vec4 F
  | c, _, 0 => c
  | c, i, m + 1 => accumulateFrom f (Vec4.add c (f i)) (i + 1) m

end PathIntegrator

/-! ## Frame loop of the path-tracing renderer -/

/-- The enumeration `ELightType`. -/
inductive ELightType where
  | Directional
  | Point
deriving DecidableEq

/-- The class `LightSource`, restricted to what the renderers read: `LData.Type`, the
rotation of `GetAbsoluteTransform()` and the Euler angles of `GetRelRotation()`. -/
structure LightSource (F : Type) where
  LightType : ELightType
  AbsoluteRotation : Quat F
  RelRotation : Vec3 F

/-- The engine functions from outside the translated files that the precache loops
call: `PathTraceTriangle::Transform` and `AccStructure.Build`. -/
structure Engine (F : Type) where
  Transform : PathTraceTriangle F → Mat4 F → PathTraceTriangle F
  Build : AccelerationStructure F → List (PathTraceTriangle F) → AccelerationStructure F

/-- The file-level state of `PathTracingRenderer.cpp` together with `MainCommands`. -/
structure RendererState (F : Type) where
  MainCommands : List (RenderCommand F)
  AccumulationData : Nat → Vec4 F
  FinalImageData : Nat → Nat
  AccumulatedFramesCount : Nat
  NormalizedDirLightDir : Vec3 F

/-- What one `Draw` call reads from its surroundings: the value of `bUseAccumulation`
once the checkbox has been handled, the scene's lights, the window size, and for every
pixel `(x, y)` the value its call `PerPixel(x, y, ...)` returns in this frame. -/
structure FrameInput (F : Type) where
  bUseAccumulation : Bool
  lights : List (LightSource F)
  Width : Nat
  Height : Nat
  frame : Nat → Nat → Vec4 F

section FrameLoop

variable {F : Type} [LinearOrderedField F] [FloorRing F]

/-- The function `glm::cross`. -/
def Vec3.cross (a b : Vec3 F) : Vec3 F :=
  ⟨a.y * b.z - b.y * a.z, a.z * b.x - b.z * a.x, a.x * b.y - b.x * a.y⟩

/-- The product of a `glm::quat` with a `glm::vec3` (rotation of the vector). -/
def Quat.rotate (q : Quat F) (v : Vec3 F) : Vec3 F :=
  let QuatVector : Vec3 F := ⟨q.x, q.y, q.z⟩
  let uv := Vec3.cross QuatVector v
  let uuv := Vec3.cross QuatVector uv
  Vec3.add v (Vec3.scale (Vec3.add (Vec3.scale uv q.w) uuv) 2)

/-- The conversion `(uint8_t)(v)` of a `float`: truncation toward zero; of a value
outside `0 .. 255` (undefined in C++) the low eight bits are kept. -/
def toUInt8 (v : F) : Nat :=
  Int.toNat ((if 0 ≤ v then ⌊v⌋ else -⌊-v⌋) % 256)

/-- The function `ConvertToRGBA`. -/
def ConvertToRGBA (color : Vec4 F) : Nat :=
  let r := toUInt8 (color.x * 255)
  let g := toUInt8 (color.y * 255)
  let b := toUInt8 (color.z * 255)
  let a := toUInt8 (color.w * 255)
  (a <<< 24) ||| (b <<< 16) ||| (g <<< 8) ||| r

/-- The counter update at the top of `Draw`; the counter is a `uint32_t`. -/
def updateFramesCount (bUseAccumulation : Bool) (AccumulatedFramesCount : Nat) : Nat :=
  if bUseAccumulation then (AccumulatedFramesCount + 1) % 2 ^ 32 else 1

/-- The body of the precache loop of `PathTracingRenderer::Draw` for one command;
`none` when the expired owner is dereferenced. -/
def precacheCommand (eng : Engine F) (command : RenderCommand F) :
    Option (RenderCommand F) :=
  if command.Triangles.length = 0 then some command
  else
    match command.Parent with
    | none => none
    | some parent =>
      let model := parent.ModelMatrix
      if command.AccStructure.Valid = false then
        let transformedTriangles := command.Triangles.map fun t => eng.Transform t model
        some { command with
          AccStructure := eng.Build command.AccStructure transformedTriangles }
      else some command

/-- The precache loop of `PathTracingRenderer::Draw` over `MainCommands`. -/
def precache (eng : Engine F) : List (RenderCommand F) → Option (List (RenderCommand F))
  | [] => some []
  | command :: rest =>
    match precacheCommand eng command with
    | none => none
    | some c =>
      match precache eng rest with
      | none => none
      | some cs => some (c :: cs)

/-- The colour `AccumulationData[idx] / vec4(float(AccumulatedFramesCount))` that is
handed to `ConvertToRGBA`. -/
def finalColor (AccumulationData : Nat → Vec4 F) (AccumulatedFramesCount : Nat)
    (idx : Nat) : Vec4 F :=
  Vec4.div (AccumulationData idx) (Vec4.splat (AccumulatedFramesCount : F))

/-- The body of the inner lambda of `Draw` for row `i` and column `j`, acting on the
pair `(AccumulationData, FinalImageData)`. -/
def drawPixel (Width AccumulatedFramesCount : Nat) (frame : Nat → Nat → Vec4 F)
    (i : Nat) (bufs : (Nat → Vec4 F) × (Nat → Nat)) (j : Nat) :
    (Nat → Vec4 F) × (Nat → Nat) :=
  let idx := Width * i + j
  let acc := if AccumulatedFramesCount = 1 then Function.update bufs.1 idx ⟨0, 0, 0, 0⟩
    else bufs.1
  let acc := Function.update acc idx (Vec4.add (acc idx) (frame j i))
  (acc, Function.update bufs.2 idx (ConvertToRGBA (finalColor acc AccumulatedFramesCount idx)))

/-- The inner `for_each` over `m_ImageHorizontalIter`, which holds `0 .. Width-1`. -/
def drawRow (Width AccumulatedFramesCount : Nat) (frame : Nat → Nat → Vec4 F)
    (bufs : (Nat → Vec4 F) × (Nat → Nat)) (i : Nat) : (Nat → Vec4 F) × (Nat → Nat) :=
  (List.range Width).foldl (drawPixel Width AccumulatedFramesCount frame i) bufs

/-- The outer `for_each` over `m_ImageVerticalIter`, which holds `0 .. Height-1`.  The
tasks write pairwise different slots, so they are run here in row-major order. -/
def drawPixels (Width Height AccumulatedFramesCount : Nat) (frame : Nat → Nat → Vec4 F)
    (bufs : (Nat → Vec4 F) × (Nat → Nat)) : (Nat → Vec4 F) × (Nat → Nat) :=
  (List.range Height).foldl (drawRow Width AccumulatedFramesCount frame) bufs

/-- The function `PathTracingRenderer::Draw`, up to the upload of `FinalImageData`:
counter update, light direction from `lights[0]`, precache loop, per-pixel loops.
`none` when `lights` is empty or an expired owner is dereferenced. -/
def Draw (lib : MathLib F) (eng : Engine F) (inp : FrameInput F) (s : RendererState F) :
    Option (RendererState F) :=
  let count := updateFramesCount inp.bUseAccumulation s.AccumulatedFramesCount
  match inp.lights with
  | [] => none
  | light0 :: _ =>
    let DirLightDir := Quat.rotate light0.AbsoluteRotation ⟨0, 0, 1⟩
    match precache eng s.MainCommands with
    | none => none
    | some commands =>
      let bufs := drawPixels inp.Width inp.Height count inp.frame
        (s.AccumulationData, s.FinalImageData)
      some
        { MainCommands := commands
          AccumulationData := bufs.1
          FinalImageData := bufs.2
          AccumulatedFramesCount := count
          NormalizedDirLightDir := Vec3.normalize lib.inversesqrt DirLightDir }

/-- The content of a slot of `AccumulationData` after its pixel task: the old content,
or zero when the counter is `1`, plus the frame's `PerPixel` result. -/
def accumulatedPixel (AccumulatedFramesCount : Nat) (frame : Nat → Nat → Vec4 F)
    (old : Vec4 F) (j i : Nat) : Vec4 F :=
  Vec4.add (if AccumulatedFramesCount = 1 then ⟨0, 0, 0, 0⟩ else old) (frame j i)

/-- The mean of two colours, channel by channel. -/
def Vec4.mean2 (a b : Vec4 F) : Vec4 F :=
  ⟨(a.x + b.x) / 2, (a.y + b.y) / 2, (a.z + b.z) / 2, (a.w + b.w) / 2⟩

end FrameLoop

/-! ## Spherical-harmonics precomputation (`ForwardRenderer::InitGI`) -/

/-- The struct `SHSample`: a direction, its spherical angles and the values of the
basis functions in that direction. -/
structure SHSample (F : Type) where
  Direction : Vec3 F
  Theta : F
  Phi : F
  Coeffs : Nat → F

/-- The constants and tables `InitGI` takes from `Math/SphericalHarmonics.h` and
`Math/MathUtils.h`: the macros `SH_TOTAL_SAMPLE_COUNT`, `SH_COEFFICIENT_COUNT`, `PI`,
and the array `samples` as filled by `SphericalHarmonics::InitSamples`. -/
structure SHSetup (F : Type) where
  SH_TOTAL_SAMPLE_COUNT : Nat
  SH_COEFFICIENT_COUNT : Nat
  PI : F
  samples : Nat → SHSample F

section InitGI

variable {F : Type} [LinearOrderedField F]

/-- The loop `for (i = 0; i < n; ++i) body`, each iteration of which may fail. -/
def forRange {σ : Type} (body : Nat → σ → Option σ) : Nat → σ → Option σ
  | 0, st => some st
  | n + 1, st =>
    match forRange body n st with
    | none => none
    | some st2 => body n st2

/-- The body of the first loop of `InitGI` for one command: build the acceleration
structure if needed, then size the transfer buffer and zero it.  Commands with an
empty triangle list are skipped; `none` when the expired owner is dereferenced. -/
def prepareCommand (eng : Engine F) (cfg : SHSetup F) (command : RenderCommand F) :
    Option (RenderCommand F) :=
  if command.Triangles.length = 0 then some command
  else
    match command.Parent with
    | none => none
    | some _ =>
      let acc :=
        if command.AccStructure.Valid = false then
          eng.Build command.AccStructure command.Triangles
        else command.AccStructure
      let coeffs := Buffer.resize command.TransferCoeffs
        (command.Vertices.length * cfg.SH_COEFFICIENT_COUNT) ⟨0, 0, 0⟩
      some { command with
        AccStructure := acc
        TransferCoeffs := ⟨coeffs.size, fun _ => ⟨0, 0, 0⟩⟩ }

/-- The first loop of `InitGI` over `MainCommands`. -/
def prepareCommands (eng : Engine F) (cfg : SHSetup F) :
    List (RenderCommand F) → Option (List (RenderCommand F))
  | [] => some []
  | command :: rest =>
    match prepareCommand eng cfg command with
    | none => none
    | some c =>
      match prepareCommands eng cfg rest with
      | none => none
      | some cs => some (c :: cs)

/-- The ray `InitGI` traces from a vertex towards sample `s`. -/
def transferRay (cfg : SHSetup F) (vert : Vertex F) (s : Nat) : PathTracingRay F :=
  { Origin := Vec3.add vert.Position (Vec3.scale vert.Normal (1 / 1000))
    Direction := (cfg.samples s).Direction }

/-- The loop `for (i = 0; i < SH_COEFFICIENT_COUNT; i++)` that adds the contribution
of sample `s` to the coefficients of vertex `v`. -/
def addSample (cfg : SHSetup F) (v s : Nat) (coeffs : Buffer (Vec3 F)) :
    Option (Buffer (Vec3 F)) :=
  forRange (fun i (b : Buffer (Vec3 F)) =>
      b.modifyAt (v * cfg.SH_COEFFICIENT_COUNT + i)
        (fun a => Vec3.add a (Vec3.scale ⟨1, 1, 1⟩ ((cfg.samples s).Coeffs i))))
    cfg.SH_COEFFICIENT_COUNT coeffs

/-- The body of the loop over the samples for vertex `v`, acting on the transfer
buffer and on the locals `payload` and `color`, which `TriangleTrace` may overwrite. -/
def transferSample (cfg : SHSetup F) (MainCommands : List (RenderCommand F))
    (vert : Vertex F) (v : Nat) (s : Nat)
    (st : Buffer (Vec3 F) × PathTracePayload F × Vec3 F) :
    Option (Buffer (Vec3 F) × PathTracePayload F × Vec3 F) :=
  let dot := Vec3.dot vert.Normal (cfg.samples s).Direction
  if 0 ≤ dot then
    let r := TriangleTrace MainCommands (transferRay cfg vert s) st.2.1 st.2.2
    if r.1 = false then
      match addSample cfg v s st.1 with
      | none => none
      | some b => some (b, r.2.1, r.2.2)
    else some (st.1, r.2.1, r.2.2)
  else some st

/-- The normalisation loop: every coefficient of vertex `v` is multiplied by
`4 * PI / SH_TOTAL_SAMPLE_COUNT`. -/
def normalizeVertex (cfg : SHSetup F) (v : Nat) (coeffs : Buffer (Vec3 F)) :
    Option (Buffer (Vec3 F)) :=
  let normalization_factor : F := 4 * cfg.PI / (cfg.SH_TOTAL_SAMPLE_COUNT : F)
  forRange (fun i (b : Buffer (Vec3 F)) =>
      b.modifyAt (v * cfg.SH_COEFFICIENT_COUNT + i)
        (fun a => Vec3.scale a normalization_factor))
    cfg.SH_COEFFICIENT_COUNT coeffs

/-- The body of the loop over the vertices of a command. -/
def transferVertex (cfg : SHSetup F) (MainCommands : List (RenderCommand F))
    (Vertices : List (Vertex F)) (v : Nat)
    (st : Buffer (Vec3 F) × PathTracePayload F × Vec3 F) :
    Option (Buffer (Vec3 F) × PathTracePayload F × Vec3 F) :=
  match Vertices[v]? with
  | none => none
  | some vert =>
    match forRange (transferSample cfg MainCommands vert v) cfg.SH_TOTAL_SAMPLE_COUNT st with
    | none => none
    | some st2 =>
      match normalizeVertex cfg v st2.1 with
      | none => none
      | some b => some (b, st2.2)

/-- The body of the second loop of `InitGI` for one command, `MainCommands` being the
command list at that moment.  `color0` is the indeterminate initial content of the
local `color`.  The assertion on the buffer size and the upload to the GPU buffer leave
the command unchanged. -/
def transferCommand (cfg : SHSetup F) (color0 : Vec3 F)
    (MainCommands : List (RenderCommand F)) (command : RenderCommand F) :
    Option (RenderCommand F) :=
  match forRange (transferVertex cfg MainCommands command.Vertices) command.Vertices.length
      (command.TransferCoeffs, PathTracePayload.default F, color0) with
  | none => none
  | some st => some { command with TransferCoeffs := st.1 }

/-- The second loop of `InitGI`: `done` holds the commands already processed, the
second list those still to come; `MainCommands` is their concatenation. -/
def transferCommands (cfg : SHSetup F) (color0 : Vec3 F) :
    List (RenderCommand F) → List (RenderCommand F) → Option (List (RenderCommand F))
  | done, [] => some done
  | done, command :: rest =>
    match transferCommand cfg color0 (done ++ command :: rest) command with
    | none => none
    | some c => transferCommands cfg color0 (done ++ [c]) rest

/-- The loop over the coefficients for sample `s` in the light projection. -/
def lightSample (cfg : SHSetup F) (s : Nat) (lightCoeffs : Buffer (Vec4 F)) :
    Option (Buffer (Vec4 F)) :=
  let theta := (cfg.samples s).Theta
  forRange (fun n (b : Buffer (Vec4 F)) =>
      let sampleValue : Vec3 F := if theta < cfg.PI / 6 then ⟨1, 1, 1⟩ else ⟨0, 0, 0⟩
      let res := Vec3.scale sampleValue ((cfg.samples s).Coeffs n)
      b.modifyAt n (fun a => Vec4.add a ⟨res.x, res.y, res.z, 1⟩))
    cfg.SH_COEFFICIENT_COUNT lightCoeffs

/-- The block "Light Coefficients" of `InitGI`, on the static vector `lightCoeffs`. -/
def lightProjection (cfg : SHSetup F) (lightCoeffs : Buffer (Vec4 F)) :
    Option (Buffer (Vec4 F)) :=
  let lc := Buffer.resize lightCoeffs cfg.SH_COEFFICIENT_COUNT ⟨0, 0, 0, 0⟩
  match forRange (lightSample cfg) cfg.SH_TOTAL_SAMPLE_COUNT lc with
  | none => none
  | some lc2 =>
    let weight : F := 4 * cfg.PI
    let factor : F := weight / (cfg.SH_TOTAL_SAMPLE_COUNT : F)
    forRange (fun i (b : Buffer (Vec4 F)) => b.modifyAt i (fun a => Vec4.scale a factor))
      cfg.SH_COEFFICIENT_COUNT lc2

/-- The function `ForwardRenderer::InitGI`: returns `MainCommands` and `lightCoeffs` as
it leaves them. -/
def InitGI (eng : Engine F) (cfg : SHSetup F) (color0 : Vec3 F)
    (MainCommands : List (RenderCommand F)) (lightCoeffs : Buffer (Vec4 F)) :
    Option (List (RenderCommand F) × Buffer (Vec4 F)) :=
  match prepareCommands eng cfg MainCommands with
  | none => none
  | some prepared =>
    match transferCommands cfg color0 [] prepared with
    | none => none
    | some commands =>
      match lightProjection cfg lightCoeffs with
      | none => none
      | some lc => some (commands, lc)

/-- What `TriangleTrace` reads of a command. -/
def RenderCommand.geometry (c : RenderCommand F) :
    List (PathTraceTriangle F) × AccelerationStructure F × Vec3 F :=
  (c.Triangles, c.AccStructure, c.OverrideColor)

/-- The vector `(a, a, a)`. -/
def Vec3.splat (a : F) : Vec3 F := ⟨a, a, a⟩

/-- A sample contributes to a vertex: it lies in the hemisphere of the vertex normal
and its ray is not hit by `TriangleTrace`. -/
def SampleVisible (cfg : SHSetup F) (MainCommands : List (RenderCommand F))
    (vert : Vertex F) (s : Nat) : Prop :=
  0 ≤ Vec3.dot vert.Normal (cfg.samples s).Direction ∧
    (TriangleTrace MainCommands (transferRay cfg vert s) (PathTracePayload.default F)
      ⟨0, 0, 0⟩).1 = false

instance (cfg : SHSetup F) (MainCommands : List (RenderCommand F)) (vert : Vertex F)
    (s : Nat) : Decidable (SampleVisible cfg MainCommands vert s) := by
  unfold SampleVisible
  infer_instance

/-- The sum of `samples[s].Coeffs[i]` over the visible samples among the first `k`. -/
def visibleSum (cfg : SHSetup F) (MainCommands : List (RenderCommand F))
    (vert : Vertex F) (i k : Nat) : F :=
  ∑ s in (Finset.range k).filter (fun s => SampleVisible cfg MainCommands vert s),
    (cfg.samples s).Coeffs i

/-- The sum of `samples[s].Coeffs[n]` over the samples with `Theta < PI / 6` among the
first `k`. -/
def coneSum (cfg : SHSetup F) (n k : Nat) : F :=
  ∑ s in (Finset.range k).filter (fun s => (cfg.samples s).Theta < cfg.PI / 6),
    (cfg.samples s).Coeffs n

/-- The relation between a command before and after the second loop of `InitGI`, the
visibility of samples being judged on the command list `ref`: only the transfer buffer
changes, its size stays, and every coefficient of every vertex is its old content plus
the sum over the visible samples, times `4 * PI / SH_TOTAL_SAMPLE_COUNT`. -/
def TransferredFrom (cfg : SHSetup F) (ref : List (RenderCommand F))
    (c c2 : RenderCommand F) : Prop :=
  c2.Parent = c.Parent ∧ c2.geometry = c.geometry ∧ c2.Vertices = c.Vertices ∧
  c2.TransferCoeffs.size = c.TransferCoeffs.size ∧
  ∀ v vert, c.Vertices[v]? = some vert → ∀ i, i < cfg.SH_COEFFICIENT_COUNT →
    c2.TransferCoeffs.data (v * cfg.SH_COEFFICIENT_COUNT + i)
      = Vec3.scale
          (Vec3.add (c.TransferCoeffs.data (v * cfg.SH_COEFFICIENT_COUNT + i))
            (Vec3.splat (visibleSum cfg ref vert i cfg.SH_TOTAL_SAMPLE_COUNT)))
          (4 * cfg.PI / (cfg.SH_TOTAL_SAMPLE_COUNT : F))

/-- The relation between a command before and after the first loop of `InitGI`: a
command with triangles gets a zeroed transfer buffer of `Vertices.size() *
SH_COEFFICIENT_COUNT` slots, a command without triangles is left as it is. -/
def PreparedFrom (cfg : SHSetup F) (c c1 : RenderCommand F) : Prop :=
  c1.Vertices = c.Vertices ∧ c1.Triangles = c.Triangles ∧
  (c.Triangles ≠ [] →
    c1.TransferCoeffs.size = c.Vertices.length * cfg.SH_COEFFICIENT_COUNT ∧
    ∀ idx, c1.TransferCoeffs.data idx = ⟨0, 0, 0⟩) ∧
  (c.Triangles = [] → c1 = c)

/-- The value the transfer projection assigns to basis index `i` of a vertex:
`4 * PI / SH_TOTAL_SAMPLE_COUNT` times the sum of `samples[s].Coeffs[i]` over the
visible samples. -/
def transferValue (cfg : SHSetup F) (MainCommands : List (RenderCommand F))
    (vert : Vertex F) (i : Nat) : F :=
  4 * cfg.PI / (cfg.SH_TOTAL_SAMPLE_COUNT : F) *
    ∑ s in (Finset.range cfg.SH_TOTAL_SAMPLE_COUNT).filter
        (fun s => SampleVisible cfg MainCommands vert s),
      (cfg.samples s).Coeffs i

/-- The value the light projection assigns to the colour channels of basis index `n`:
`4 * PI / SH_TOTAL_SAMPLE_COUNT` times the sum of `samples[s].Coeffs[n]` over the
samples with `Theta < PI / 6`. -/
def lightValue (cfg : SHSetup F) (n : Nat) : F :=
  4 * cfg.PI / (cfg.SH_TOTAL_SAMPLE_COUNT : F) *
    ∑ s in (Finset.range cfg.SH_TOTAL_SAMPLE_COUNT).filter
        (fun s => (cfg.samples s).Theta < cfg.PI / 6),
      (cfg.samples s).Coeffs n

end InitGI

/-! ## Transfer buffer of a command: assertion and upload sizes -/

section TransferBuffer

variable {F : Type} [LinearOrderedField F]

/-- The condition of `ASSERT(command.TransferCoeffs.size() == command.Vertices.size()
* SH_COEFFICIENT_COUNT)` at the end of the second loop of `InitGI`. -/
def transferAssertion (cfg : SHSetup F) (command : RenderCommand F) : Bool :=
  decide (command.TransferCoeffs.size = command.Vertices.length * cfg.SH_COEFFICIENT_COUNT)

/-- The byte size `command.Vertices.size() * SH_COEFFICIENT_COUNT * sizeof(glm::vec3)`
passed to `CreateTextureBuffer`; a `glm::vec3` is three `float`s, 12 bytes. -/
def createdBufferBytes (cfg : SHSetup F) (command : RenderCommand F) : Nat :=
  command.Vertices.length * cfg.SH_COEFFICIENT_COUNT * 12

/-- The byte size `finalSize = command.TransferCoeffs.size() * sizeof(glm::vec3)` passed
to `UploadDataToBuffer`. -/
def uploadedBytes (command : RenderCommand F) : Nat :=
  command.TransferCoeffs.size * 12

end TransferBuffer

/-! ## Failure kinds, lighting constants and draw commands -/

/-- The ways in which a call of the renderers can fail. -/
inductive Failure where
  | AssertDirLights
  | AssertLightsNonEmpty
  | OutOfRange
  | NullDereference
deriving DecidableEq

/-- The functions `SetLightingConstants` takes from outside the translated files: the
conversion `glm::quat(glm::radians(eulerDegrees))` and
`SphericalHarmonicsRotation::Rotate`. -/
structure RotationLib (F : Type) where
  quatOfEulerDegrees : Vec3 F → Quat F
  Rotate : Quat F → Buffer (Vec4 F) → Buffer (Vec4 F)

/-- What `SetLightingConstants` leaves in `UniformsCache`, as far as the light list
decides it, together with the rotation it passes to `Rotate`. -/
structure LightingConstants (F : Type) where
  bUseDirLight : Int
  DirectionalLightDirection : Vec3 F
  NumPointLights : Int
  SHRotation : Quat F
  LightCoeffs : Buffer (Vec4 F)

/-- What a `DrawCommand` call did with its command. -/
inductive DrawOutcome where
  | SkippedExpired
  | SkippedHidden
  | Drawn
deriving DecidableEq

section Lighting

variable {F : Type} [LinearOrderedField F]

/-- The lights of type `Directional`, in list order (the vector `dirLights`). -/
def dirLightsOf (lights : List (LightSource F)) : List (LightSource F) :=
  lights.filter fun l => decide (l.LightType = ELightType.Directional)

/-- The lights of type `Point`, in list order (the vector `pointLights`). -/
def pointLightsOf (lights : List (LightSource F)) : List (LightSource F) :=
  lights.filter fun l => decide (l.LightType = ELightType.Point)

/-- The first part of `ForwardRenderer::SetLightingConstants`, up to the branch on
`useDirLight`: the assertion `dirLights.size() <= 1` and the values written to
`UniformsCache` for `bUseDirLight` and `DirectionalLightDirection`. -/
def directionalConstants (lib : MathLib F) (lights : List (LightSource F)) :
    Except Failure (Int × Vec3 F) :=
  let dirLights := dirLightsOf lights
  if dirLights.length ≤ 1 then
    let useDirLight : Bool := decide (0 < dirLights.length)
    match dirLights with
    | dirLight :: _ =>
      Except.ok (if useDirLight then 1 else 0,
        Vec3.normalize lib.inversesqrt (Quat.rotate dirLight.AbsoluteRotation ⟨0, 0, 1⟩))
    | [] => Except.ok (if useDirLight then 1 else 0, ⟨0, 0, 0⟩)
  else Except.error Failure.AssertDirLights

/-- The function `ForwardRenderer::SetLightingConstants`.  A failed `ASSERT` ends the
call with the corresponding failure. -/
def SetLightingConstants (lib : MathLib F) (rot : RotationLib F)
    (lights : List (LightSource F)) (lightCoeffs : Buffer (Vec4 F)) :
    Except Failure (LightingConstants F) :=
  match directionalConstants lib lights with
  | Except.error e => Except.error e
  | Except.ok dirPart =>
    let pointLights := pointLightsOf lights
    if 0 < lights.length then
      match lights with
      | [] => Except.error Failure.OutOfRange
      | light0 :: _ =>
        let lightRot := light0.RelRotation
        let rotation := rot.quatOfEulerDegrees lightRot
        Except.ok
          { bUseDirLight := dirPart.1
            DirectionalLightDirection := dirPart.2
            NumPointLights := (pointLights.length : Int)
            SHRotation := rotation
            LightCoeffs := rot.Rotate rotation lightCoeffs }
    else Except.error Failure.AssertLightsNonEmpty

/-- The function `PathTracingRenderer::Draw` with the kind of failure made explicit:
an empty `lights` makes `lights[0]` an out-of-range read, an expired owner of a command
with triangles is dereferenced in the precache loop. -/
def Draw.withFailure [FloorRing F] (lib : MathLib F) (eng : Engine F) (inp : FrameInput F)
    (s : RendererState F) : Except Failure (RendererState F) :=
  let count := updateFramesCount inp.bUseAccumulation s.AccumulatedFramesCount
  match inp.lights with
  | [] => Except.error Failure.OutOfRange
  | light0 :: _ =>
    let DirLightDir := Quat.rotate light0.AbsoluteRotation ⟨0, 0, 1⟩
    match precache eng s.MainCommands with
    | none => Except.error Failure.NullDereference
    | some commands =>
      let bufs := drawPixels inp.Width inp.Height count inp.frame
        (s.AccumulationData, s.FinalImageData)
      Except.ok
        { MainCommands := commands
          AccumulationData := bufs.1
          FinalImageData := bufs.2
          AccumulatedFramesCount := count
          NormalizedDirLightDir := Vec3.normalize lib.inversesqrt DirLightDir }

/-- The function `PathTracingRenderer::DrawCommand` up to the calls on the graphics
interface: the command is skipped when the owner has expired (`ENSURE(parentValid)`
fails) and when the owner is hidden or there is no material.  `hasMaterial` tells
whether `inCommand.Material` is non-null. -/
def PathTracingRenderer.DrawCommand (hasMaterial : Bool) (inCommand : RenderCommand F) :
    DrawOutcome :=
  match inCommand.Parent with
  | none => DrawOutcome.SkippedExpired
  | some parent =>
    if parent.Visible = false ∨ hasMaterial = false then DrawOutcome.SkippedHidden
    else DrawOutcome.Drawn

/-- The function `ForwardRenderer::DrawCommand` up to the calls on the graphics
interface, with the command as the call leaves it: the path "BVH Debug Draw" builds the
acceleration structure through the `const_cast`.  `hasMaterial` tells whether
`GetMaterial(inCommand)` is non-null, `bBVHDebugDraw` is the checkbox of that name. -/
def ForwardRenderer.DrawCommand (eng : Engine F) (bBVHDebugDraw hasMaterial : Bool)
    (inCommand : RenderCommand F) : DrawOutcome × RenderCommand F :=
  match inCommand.Parent with
  | none => (DrawOutcome.SkippedExpired, inCommand)
  | some parent =>
    if parent.Visible = false ∨ hasMaterial = false then
      (DrawOutcome.SkippedHidden, inCommand)
    else if inCommand.Triangles.length ≠ 0 then
      if bBVHDebugDraw = true then
        if inCommand.AccStructure.Valid = false then
          (DrawOutcome.Drawn,
            { inCommand with
              AccStructure := eng.Build inCommand.AccStructure inCommand.Triangles })
        else (DrawOutcome.Drawn, inCommand)
      else (DrawOutcome.Drawn, inCommand)
    else (DrawOutcome.Drawn, inCommand)

/-- The value of `newRayDir` in `PerPixel` right after `SourceSurfaceNormal +
random_unit_vector()`, before the test `near_zero`, with the generator state. -/
def scatterDirection (lib : MathLib F) (fuel : Nat) (SourceSurfaceNormal : Vec3 F)
    (g : Rng F) : Option (Vec3 F × Rng F) :=
  match random_unit_vector lib fuel g with
  | none => none
  | some u => some (Vec3.add SourceSurfaceNormal u.1, u.2)

end Lighting

/-! ## Iteration vectors of the path-tracing renderer -/

section PixelTasks

variable {F : Type} [LinearOrderedField F] [FloorRing F]

end PixelTasks

/-! ## Exits of the bounce loop -/

/-- The `return` statement through which `PerPixel` is left: the `return` of the
branch `i == 0` after a miss, the `return color` after a miss on a later bounce (with
the loop index `i` at that point, the number of hits before it), or the `return` behind
the loop; `NoReturn` when the call does not return. -/
inductive PerPixelExit where
  | PrimaryMiss
  | MissAfterHits (hits : Nat)
  | BudgetExhausted
  | NoReturn
deriving DecidableEq

section Exits

variable {F : Type} [LinearOrderedField F]

/-- The control flow of the bounce loop of `PerPixel`, with `n` iterations left and loop
index `i`: the `return` statement that ends it.  The branches are those of
`PerPixelLoop`. -/
def PerPixelLoopExit (lib : MathLib F) (fuel : Nat) (MainCommands : List (RenderCommand F))
    (hitColor0 : Vec3 F) : Nat → Nat → PathTracingRay F → Rng F → PerPixelExit
  | 0, _, _, _ => PerPixelExit.BudgetExhausted
  | n + 1, i, traceRay, g =>
    let r := TriangleTrace MainCommands traceRay (PathTracePayload.default F) hitColor0
    let payload := r.2.1
    if r.1 = false then
      if i = 0 then PerPixelExit.PrimaryMiss else PerPixelExit.MissAfterHits i
    else
      match payload.Triangle with
      | none => PerPixelExit.NoReturn
      | some tri =>
        let SourceSurfaceNormal := tri.WSNormalNormalized
        match payload.Distance with
        | none => PerPixelExit.NoReturn
        | some Distance =>
          match scatter lib fuel traceRay SourceSurfaceNormal Distance g with
          | none => PerPixelExit.NoReturn
          | some next =>
            PerPixelLoopExit lib fuel MainCommands hitColor0 n (i + 1) next.1 next.2

/-- The `return` statement that ends the call `PerPixel(x, y, ...)`. -/
def PerPixelExitPoint (lib : MathLib F) (fuel : Nat) (MainCommands : List (RenderCommand F))
    (hitColor0 : Vec3 F) (x y Width Height : Nat) (inInvProj inInvView : Mat4 F)
    (inCamPos : Vec3 F) (g : Rng F) : PerPixelExit :=
  PerPixelLoopExit lib fuel MainCommands hitColor0 5 0
    (primaryRay lib x y Width Height inInvProj inInvView inCamPos) g

end Exits

/-! ## Sequences of frames -/

/-- The value of `AccumulatedFramesCount` after the counter updates of consecutive
`Draw` calls whose values of `bUseAccumulation` are `flags`, in order. -/
def framesCountAfter (flags : List Bool) (AccumulatedFramesCount : Nat) : Nat :=
  flags.foldl (fun (count : Nat) (b : Bool) => updateFramesCount b count) AccumulatedFramesCount

/-- The number of accumulation-enabled frames at the end of a sequence of frames: the
frames since the last one with accumulation disabled, or all of them. -/
def enabledRun (flags : List Bool) : Nat :=
  flags.foldl (fun (n : Nat) (b : Bool) => if b then n + 1 else 0) 0

section FrameSequences

variable {F : Type} [LinearOrderedField F] [FloorRing F]

/-- Consecutive calls of `PathTracingRenderer::Draw`, one for each frame input. -/
def DrawFrames (lib : MathLib F) (eng : Engine F) :
    List (FrameInput F) → RendererState F → Option (RendererState F)
  | [], s => some s
  | inp :: rest, s =>
    match Draw lib eng inp s with
    | none => none
    | some s2 => DrawFrames lib eng rest s2

end FrameSequences

/-! ## Concrete inputs on which the theorems are exercised -/

section Examples

/-- A triangle in the plane `z = 0` with normal `(0, 0, 1)`. -/
def exTriangle : PathTraceTriangle ℚ :=
  ⟨⟨0, 0, 0⟩, ⟨1, 0, 0⟩, ⟨0, 1, 0⟩, ⟨0, 0, 1⟩⟩

/-- The identity matrix. -/
def exIdentity : Mat4 ℚ := ⟨⟨1, 0, 0, 0⟩, ⟨0, 1, 0, 0⟩, ⟨0, 0, 1, 0⟩, ⟨0, 0, 0, 1⟩⟩

/-- A command whose structure answers every ray with a hit at distance `d`. -/
def exCommand (d : ℚ) (col : Vec3 ℚ) : RenderCommand ℚ :=
  { Parent := some ⟨exIdentity, true⟩
    Triangles := [exTriangle]
    AccStructure :=
      { Valid := true
        Trace := fun _ => (true, ⟨((d : ℚ) : WithTop ℚ), some exTriangle⟩) }
    OverrideColor := col
    Vertices := []
    TransferCoeffs := Buffer.empty ⟨0, 0, 0⟩ }

/-- A command whose structure is hit, at distance `2`, exactly by the rays that start
in the plane `z = 0`. -/
def exFloor : RenderCommand ℚ :=
  { Parent := some ⟨exIdentity, true⟩
    Triangles := [exTriangle]
    AccStructure :=
      { Valid := true
        Trace := fun r =>
          if r.Origin.z = 0 then (true, ⟨((2 : ℚ) : WithTop ℚ), some exTriangle⟩)
          else (false, PathTracePayload.default ℚ) }
    OverrideColor := ⟨1, 1 / 2, 0⟩
    Vertices := []
    TransferCoeffs := Buffer.empty ⟨0, 0, 0⟩ }

/-- Stand-ins for the library functions in evaluations over `ℚ`. -/
def exLib : MathLib ℚ := ⟨fun a _ => a, fun _ => 1⟩

/-- A generator whose every draw is `1 / 2`. -/
def exRng : Rng ℚ := ⟨fun _ => 1 / 2, 0⟩

/-- A ray from the origin along `z`. -/
def exRay : PathTracingRay ℚ := ⟨⟨0, 0, 0⟩, ⟨0, 0, 1⟩⟩

/-- The rays of the bounces of pixel `(0, 0)` of a `1 x 1` image over `exFloor`. -/
def exRays (j : Nat) : PathTracingRay ℚ :=
  if j = 0 then ⟨⟨0, 0, 0⟩, ⟨-1, -1, 1⟩⟩ else ⟨⟨-2, -2, 20001 / 10000⟩, ⟨0, 0, 1⟩⟩

/-- The generator states of the bounces under `exRng`: three draws a bounce. -/
def exGens (j : Nat) : Rng ℚ := ⟨fun _ => 1 / 2, 3 * j⟩

/-- The rays of the bounces of pixel `(0, 0)` of a `1 x 1` image over a command that
every ray hits at distance `1`. -/
def exRaysAll : Nat → PathTracingRay ℚ
  | 0 => ⟨⟨0, 0, 0⟩, ⟨-1, -1, 1⟩⟩
  | j + 1 =>
    ⟨Vec3.add (Vec3.add (exRaysAll j).Origin (Vec3.scale (exRaysAll j).Direction 1))
      (Vec3.scale ⟨0, 0, 1⟩ (1 / 10000)), ⟨0, 0, 1⟩⟩

/-- A directional light with the identity rotation. -/
def exLight : LightSource ℚ :=
  { LightType := ELightType.Directional
    AbsoluteRotation := ⟨1, 0, 0, 0⟩
    RelRotation := ⟨0, 0, 0⟩ }

/-- Stand-ins for the engine functions in evaluations: triangles are left in place and
`Build` marks the structure valid. -/
def exEngine : Engine ℚ :=
  { Transform := fun t _ => t
    Build := fun a _ => { a with Valid := true } }

/-- The renderer state at start-up (`AccumulatedFramesCount = 1`) with an accumulation
buffer that happens to hold zeros and an empty scene. -/
def exStartup : RendererState ℚ :=
  { MainCommands := []
    AccumulationData := fun _ => ⟨0, 0, 0, 0⟩
    FinalImageData := fun _ => 0
    AccumulatedFramesCount := 1
    NormalizedDirLightDir := ⟨0, 1, 0⟩ }

/-- A frame of a `1 x 1` image whose only pixel gets the colour `c` from `PerPixel`. -/
def exFrame (bUseAccumulation : Bool) (c : Vec4 ℚ) : FrameInput ℚ :=
  { bUseAccumulation := bUseAccumulation
    lights := [exLight]
    Width := 1
    Height := 1
    frame := fun _ _ => c }

/-- A vertex at the origin with normal `(0, 0, 1)`. -/
def exVertex : Vertex ℚ := ⟨⟨0, 0, 0⟩, ⟨0, 0, 1⟩⟩

/-- A setup with one sample, along `(0, 0, 1)` with `Theta = 0`, one basis function
of value `1` there, and the stand-in `22 / 7` for `PI`. -/
def exSH : SHSetup ℚ :=
  { SH_TOTAL_SAMPLE_COUNT := 1
    SH_COEFFICIENT_COUNT := 1
    PI := 22 / 7
    samples := fun _ => ⟨⟨0, 0, 1⟩, 0, 0, fun _ => 1⟩ }

/-- A command with one triangle, which no ray hits, and one vertex. -/
def exMesh : RenderCommand ℚ :=
  { Parent := some ⟨exIdentity, true⟩
    Triangles := [exTriangle]
    AccStructure := { Valid := true, Trace := fun _ => (false, PathTracePayload.default ℚ) }
    OverrideColor := ⟨1, 1, 1⟩
    Vertices := [exVertex]
    TransferCoeffs := Buffer.empty ⟨0, 0, 0⟩ }

/-- A command with one vertex and an empty triangle list, carrying the transfer
buffer `coeffs`. -/
def exBare (coeffs : Buffer (Vec3 ℚ)) : RenderCommand ℚ :=
  { Parent := some ⟨exIdentity, true⟩
    Triangles := []
    AccStructure := { Valid := false, Trace := fun _ => (false, PathTracePayload.default ℚ) }
    OverrideColor := ⟨1, 1, 1⟩
    Vertices := [exVertex]
    TransferCoeffs := coeffs }

/-- Stand-ins for the rotation functions in evaluations. -/
def exRot : RotationLib ℚ := ⟨fun e => ⟨1, e.x, e.y, e.z⟩, fun _ b => b⟩

/-- A point light with the identity rotation. -/
def exPoint : LightSource ℚ :=
  { LightType := ELightType.Point
    AbsoluteRotation := ⟨1, 0, 0, 0⟩
    RelRotation := ⟨0, 0, 0⟩ }

/-- A directional light without relative rotation under a parent that is turned by
half a turn about the `x` axis: its absolute rotation is the quaternion `(0; 1, 0, 0)`. -/
def exLightTurned : LightSource ℚ :=
  { LightType := ELightType.Directional
    AbsoluteRotation := ⟨0, 1, 0, 0⟩
    RelRotation := ⟨0, 0, 0⟩ }

/-- A command with one triangle whose owner has expired and whose acceleration
structure has not been built. -/
def exExpired : RenderCommand ℚ :=
  { Parent := none
    Triangles := [exTriangle]
    AccStructure := { Valid := false, Trace := fun _ => (false, PathTracePayload.default ℚ) }
    OverrideColor := ⟨1, 1, 1⟩
    Vertices := [exVertex]
    TransferCoeffs := Buffer.empty ⟨0, 0, 0⟩ }

/-- A command with one triangle, a live owner and an acceleration structure that has
not been built. -/
def exUnbuilt : RenderCommand ℚ :=
  { Parent := some ⟨exIdentity, true⟩
    Triangles := [exTriangle]
    AccStructure := { Valid := false, Trace := fun _ => (false, PathTracePayload.default ℚ) }
    OverrideColor := ⟨1, 1, 1⟩
    Vertices := [exVertex]
    TransferCoeffs := Buffer.empty ⟨0, 0, 0⟩ }

/-- Library stand-ins whose `inversesqrt` is exact at `1 / 4`. -/
def exLibHalf : MathLib ℚ := ⟨fun a _ => a, fun x => if x = 1 / 4 then 2 else 1⟩

/-- A generator whose draws are `1/2, 1/2, 3/4, 1/2, ...`: the first point it yields in
`[-1, 1)^3` is `(0, 0, 1/2)`. -/
def exRngHalf : Rng ℚ := ⟨fun k => if k = 2 then 3 / 4 else 1 / 2, 0⟩

end Examples

/-! # Theorems -/

/-! ## Theorems: scene ray tracer -/

section SceneTheorems

variable {F : Type} [LinearOrderedField F]

theorem TriangleTraceStep_of_not_hit (inRay : PathTracingRay F)
    (st : Bool × PathTracePayload F × Vec3 F) (c : RenderCommand F)
    (h : ¬ ReportsHit inRay c) : TriangleTraceStep inRay st c = st := by
  unfold TriangleTraceStep
  by_cases he : c.Triangles.length = 0
  · simp [he]
  · have hne : c.Triangles ≠ [] := fun h0 => he (by simp [h0])
    have hf : (c.AccStructure.Trace inRay).1 = false := by
      cases hb : (c.AccStructure.Trace inRay).1
      · rfl
      · exact absurd ⟨hne, hb⟩ h
    simp [he, hf]

theorem TriangleTraceStep_of_hit_lt (inRay : PathTracingRay F)
    (st : Bool × PathTracePayload F × Vec3 F) (c : RenderCommand F)
    (h : ReportsHit inRay c) (hlt : ReportedDistance inRay c < st.2.1.Distance) :
    TriangleTraceStep inRay st c
      = (true, (c.AccStructure.Trace inRay).2, c.OverrideColor) := by
  unfold TriangleTraceStep
  have he : ¬ c.Triangles.length = 0 := fun h0 => h.1 (List.length_eq_zero.mp h0)
  have hlt2 : (c.AccStructure.Trace inRay).2.Distance < st.2.1.Distance := hlt
  simp [he, h.2, hlt2]

theorem TriangleTraceStep_of_hit_not_lt (inRay : PathTracingRay F)
    (st : Bool × PathTracePayload F × Vec3 F) (c : RenderCommand F)
    (h : ReportsHit inRay c) (hlt : ¬ ReportedDistance inRay c < st.2.1.Distance) :
    TriangleTraceStep inRay st c = (true, st.2.1, st.2.2) := by
  unfold TriangleTraceStep
  have he : ¬ c.Triangles.length = 0 := fun h0 => h.1 (List.length_eq_zero.mp h0)
  have hlt2 : ¬ (c.AccStructure.Trace inRay).2.Distance < st.2.1.Distance := hlt
  simp [he, h.2, hlt2]

/-- Loop invariant of `TriangleTrace`: after the loop either the out-parameters are
untouched and no reported hit was strictly nearer than the incoming payload, or they
hold the answer of the first command attaining the least reported distance. -/
theorem TriangleTrace_fold_cases (inRay : PathTracingRay F) (l : List (RenderCommand F)) :
    ∀ st : Bool × PathTracePayload F × Vec3 F,
      ((l.foldl (TriangleTraceStep inRay) st).2 = st.2 ∧
        ∀ c ∈ l, ReportsHit inRay c → ¬ ReportedDistance inRay c < st.2.1.Distance) ∨
      (∃ pre c post, l = pre ++ c :: post ∧ ReportsHit inRay c ∧
        ReportedDistance inRay c < st.2.1.Distance ∧
        (l.foldl (TriangleTraceStep inRay) st).2
          = ((c.AccStructure.Trace inRay).2, c.OverrideColor) ∧
        (∀ d ∈ pre, ReportsHit inRay d → ReportedDistance inRay c < ReportedDistance inRay d) ∧
        (∀ d ∈ post, ReportsHit inRay d →
          ReportedDistance inRay c ≤ ReportedDistance inRay d)) := by
  induction l with
  | nil => intro st; left; simp
  | cons a l ih =>
    intro st
    rw [List.foldl_cons]
    by_cases ha : ReportsHit inRay a
    · by_cases hlt : ReportedDistance inRay a < st.2.1.Distance
      · rw [TriangleTraceStep_of_hit_lt inRay st a ha hlt]
        right
        rcases ih (true, (a.AccStructure.Trace inRay).2, a.OverrideColor) with
          ⟨heq, hall⟩ | ⟨pre, c, post, hl, hc, hclt, hres, hpre, hpost⟩
        · refine ⟨[], a, l, rfl, ha, hlt, heq, ?_, ?_⟩
          · intro d hd; simp at hd
          · intro d hd hdh
            exact not_lt.mp (hall d hd hdh)
        · have hca : ReportedDistance inRay c < ReportedDistance inRay a := hclt
          refine ⟨a :: pre, c, post, by simp [hl], hc, lt_trans hca hlt, hres, ?_, hpost⟩
          intro d hd hdh
          rcases List.mem_cons.mp hd with rfl | hd
          · exact hca
          · exact hpre d hd hdh
      · rw [TriangleTraceStep_of_hit_not_lt inRay st a ha hlt]
        rcases ih (true, st.2.1, st.2.2) with
          ⟨heq, hall⟩ | ⟨pre, c, post, hl, hc, hclt, hres, hpre, hpost⟩
        · left
          refine ⟨heq, ?_⟩
          intro d hd hdh
          rcases List.mem_cons.mp hd with rfl | hd
          · exact hlt
          · exact hall d hd hdh
        · right
          have hcs : ReportedDistance inRay c < st.2.1.Distance := hclt
          refine ⟨a :: pre, c, post, by simp [hl], hc, hcs, hres, ?_, hpost⟩
          intro d hd hdh
          rcases List.mem_cons.mp hd with rfl | hd
          · exact lt_of_lt_of_le hcs (not_lt.mp hlt)
          · exact hpre d hd hdh
    · rw [TriangleTraceStep_of_not_hit inRay st a ha]
      rcases ih st with ⟨heq, hall⟩ | ⟨pre, c, post, hl, hc, hclt, hres, hpre, hpost⟩
      · left
        refine ⟨heq, ?_⟩
        intro d hd hdh
        rcases List.mem_cons.mp hd with rfl | hd
        · exact absurd hdh ha
        · exact hall d hd hdh
      · right
        refine ⟨a :: pre, c, post, by simp [hl], hc, hclt, hres, ?_, hpost⟩
        intro d hd hdh
        rcases List.mem_cons.mp hd with rfl | hd
        · exact absurd hdh ha
        · exact hpre d hd hdh

/-- The hit flag after the loop: set on entry or set by some queried command. -/
theorem TriangleTrace_fold_flag (inRay : PathTracingRay F) (l : List (RenderCommand F)) :
    ∀ st : Bool × PathTracePayload F × Vec3 F,
      (l.foldl (TriangleTraceStep inRay) st).1 = true ↔
        (st.1 = true ∨ ∃ c ∈ l, ReportsHit inRay c) := by
  induction l with
  | nil => intro st; simp
  | cons a l ih =>
    intro st
    rw [List.foldl_cons, ih]
    by_cases ha : ReportsHit inRay a
    · have h1 : (TriangleTraceStep inRay st a).1 = true := by
        by_cases hlt : ReportedDistance inRay a < st.2.1.Distance
        · rw [TriangleTraceStep_of_hit_lt inRay st a ha hlt]
        · rw [TriangleTraceStep_of_hit_not_lt inRay st a ha hlt]
      constructor
      · intro _; right; exact ⟨a, List.mem_cons_self a l, ha⟩
      · intro _; left; exact h1
    · rw [TriangleTraceStep_of_not_hit inRay st a ha]
      constructor
      · rintro (h | ⟨c, hc, hch⟩)
        · left; exact h
        · right; exact ⟨c, List.mem_cons_of_mem a hc, hch⟩
      · rintro (h | ⟨c, hc, hch⟩)
        · left; exact h
        · rcases List.mem_cons.mp hc with rfl | hc
          · exact absurd hch ha
          · right; exact ⟨c, hc, hch⟩

/-- A loop over commands none of which reports a hit changes nothing. -/
theorem TriangleTrace_fold_no_hit (inRay : PathTracingRay F) (l : List (RenderCommand F))
    (hno : ∀ c ∈ l, ¬ ReportsHit inRay c) (st : Bool × PathTracePayload F × Vec3 F) :
    l.foldl (TriangleTraceStep inRay) st = st := by
  induction l with
  | nil => rfl
  | cons a l ih =>
    rw [List.foldl_cons, TriangleTraceStep_of_not_hit inRay st a (hno a (List.mem_cons_self a l))]
    exact ih (fun c hc => hno c (List.mem_cons_of_mem a hc))

/-- Replacing the acceleration structure of a command with an empty triangle list
does not change an iteration of the loop. -/
theorem TriangleTraceStep_empty_irrelevant (inRay : PathTracingRay F)
    (acc : RenderCommand F → AccelerationStructure F)
    (st : Bool × PathTracePayload F × Vec3 F) (c : RenderCommand F) :
    TriangleTraceStep inRay st
        (if c.Triangles.length = 0 then { c with AccStructure := acc c } else c)
      = TriangleTraceStep inRay st c := by
  by_cases he : c.Triangles.length = 0
  · simp [TriangleTraceStep, he]
  · simp [he]

/-- C1 (closest hit).  Called with a payload at the `+infinity` sentinel, on a command
list in which some command with a non-empty triangle list reports a hit (hits carry a
finite distance, as the payload data model prescribes), `TriangleTrace` returns `true`,
leaves in `outPayload` the payload of a hitting command whose distance is at most the
distance reported by every hitting command, and leaves that command's `OverrideColor`
in `outColor`. -/
theorem TriangleTrace_closest_hit (MainCommands : List (RenderCommand F))
    (inRay : PathTracingRay F) (outPayload : PathTracePayload F) (outColor : Vec3 F)
    (hsent : outPayload.Distance = ⊤)
    (hfin : ∀ c ∈ MainCommands, ReportsHit inRay c → ReportedDistance inRay c < ⊤)
    (hhit : ∃ c ∈ MainCommands, ReportsHit inRay c) :
    ∃ c ∈ MainCommands, ReportsHit inRay c ∧
      (TriangleTrace MainCommands inRay outPayload outColor).1 = true ∧
      (TriangleTrace MainCommands inRay outPayload outColor).2.1
        = (c.AccStructure.Trace inRay).2 ∧
      (TriangleTrace MainCommands inRay outPayload outColor).2.2 = c.OverrideColor ∧
      ∀ d ∈ MainCommands, ReportsHit inRay d →
        (TriangleTrace MainCommands inRay outPayload outColor).2.1.Distance
          ≤ ReportedDistance inRay d := by
  have hflag : (TriangleTrace MainCommands inRay outPayload outColor).1 = true :=
    (TriangleTrace_fold_flag inRay MainCommands (false, outPayload, outColor)).mpr (Or.inr hhit)
  rcases TriangleTrace_fold_cases inRay MainCommands (false, outPayload, outColor) with
    ⟨_, hall⟩ | ⟨pre, c, post, hl, hc, _, hres, hpre, hpost⟩
  · obtain ⟨c, hcm, hc⟩ := hhit
    have h1 := hall c hcm hc
    have h2 := hfin c hcm hc
    simp only [hsent] at h1
    exact absurd h2 h1
  · have hcm : c ∈ MainCommands := by rw [hl]; simp
    have hres2 : (TriangleTrace MainCommands inRay outPayload outColor).2
        = ((c.AccStructure.Trace inRay).2, c.OverrideColor) := hres
    refine ⟨c, hcm, hc, hflag, by rw [hres2], by rw [hres2], ?_⟩
    intro d hd hdh
    rw [hres2]
    show ReportedDistance inRay c ≤ ReportedDistance inRay d
    rw [hl] at hd
    rcases List.mem_append.mp hd with hd | hd
    · exact le_of_lt (hpre d hd hdh)
    · rcases List.mem_cons.mp hd with rfl | hd
      · exact le_refl _
      · exact hpost d hd hdh

/-- C2 (miss).  `TriangleTrace` returns `false` exactly when no command with a non-empty
triangle list reports a hit; when it returns `false` both out-parameters are exactly the
values passed in; and commands with an empty triangle list are never queried: whatever
acceleration structure they carry, the result is the same. -/
theorem TriangleTrace_miss (MainCommands : List (RenderCommand F))
    (inRay : PathTracingRay F) (outPayload : PathTracePayload F) (outColor : Vec3 F) :
    ((TriangleTrace MainCommands inRay outPayload outColor).1 = false ↔
        ∀ c ∈ MainCommands, ¬ ReportsHit inRay c) ∧
    ((TriangleTrace MainCommands inRay outPayload outColor).1 = false →
        (TriangleTrace MainCommands inRay outPayload outColor).2 = (outPayload, outColor)) ∧
    (∀ acc : RenderCommand F → AccelerationStructure F,
        TriangleTrace
            (MainCommands.map fun c =>
              if c.Triangles.length = 0 then { c with AccStructure := acc c } else c)
            inRay outPayload outColor
          = TriangleTrace MainCommands inRay outPayload outColor) := by
  have hiff : (TriangleTrace MainCommands inRay outPayload outColor).1 = false ↔
      ∀ c ∈ MainCommands, ¬ ReportsHit inRay c := by
    have h := TriangleTrace_fold_flag inRay MainCommands (false, outPayload, outColor)
    have h2 : (TriangleTrace MainCommands inRay outPayload outColor).1 = true ↔
        ∃ c ∈ MainCommands, ReportsHit inRay c := by
      rw [show (TriangleTrace MainCommands inRay outPayload outColor).1
          = (MainCommands.foldl (TriangleTraceStep inRay) (false, outPayload, outColor)).1
          from rfl, h]
      simp
    constructor
    · intro hf c hc hch
      have := h2.mpr ⟨c, hc, hch⟩
      rw [hf] at this
      exact Bool.noConfusion this
    · intro hno
      cases hb : (TriangleTrace MainCommands inRay outPayload outColor).1
      · rfl
      · obtain ⟨c, hc, hch⟩ := h2.mp hb
        exact absurd hch (hno c hc)
  refine ⟨hiff, ?_, ?_⟩
  · intro hf
    have hno := hiff.mp hf
    show (MainCommands.foldl (TriangleTraceStep inRay) (false, outPayload, outColor)).2 = _
    rw [TriangleTrace_fold_no_hit inRay MainCommands hno]
  · intro acc
    unfold TriangleTrace
    rw [List.foldl_map]
    congr 1
    funext st c
    exact TriangleTraceStep_empty_irrelevant inRay acc st c

/-- C3 (tie-break).  Called with a payload at the sentinel, `TriangleTrace` retains the
payload and `OverrideColor` of the first command, in `MainCommands` order, that attains
the least reported distance: every earlier hit is strictly farther, every later hit is
at least as far.  Moreover a command appended to the list replaces the retained hit
exactly when it reports a hit whose distance is strictly smaller than the retained one. -/
theorem TriangleTrace_tie_break (pre post : List (RenderCommand F)) (c : RenderCommand F)
    (inRay : PathTracingRay F) (outPayload : PathTracePayload F) (outColor : Vec3 F)
    (hsent : outPayload.Distance = ⊤)
    (hc : ReportsHit inRay c)
    (hfin : ReportedDistance inRay c < ⊤)
    (hpre : ∀ d ∈ pre, ReportsHit inRay d →
      ReportedDistance inRay c < ReportedDistance inRay d)
    (hpost : ∀ d ∈ post, ReportsHit inRay d →
      ReportedDistance inRay c ≤ ReportedDistance inRay d) :
    TriangleTrace (pre ++ c :: post) inRay outPayload outColor
        = (true, (c.AccStructure.Trace inRay).2, c.OverrideColor) ∧
    (∀ (l : List (RenderCommand F)) (d : RenderCommand F),
      (ReportsHit inRay d ∧
          ReportedDistance inRay d
            < (TriangleTrace l inRay outPayload outColor).2.1.Distance →
        (TriangleTrace (l ++ [d]) inRay outPayload outColor).2
          = ((d.AccStructure.Trace inRay).2, d.OverrideColor)) ∧
      (¬ (ReportsHit inRay d ∧
          ReportedDistance inRay d
            < (TriangleTrace l inRay outPayload outColor).2.1.Distance) →
        (TriangleTrace (l ++ [d]) inRay outPayload outColor).2
          = (TriangleTrace l inRay outPayload outColor).2)) := by
  constructor
  · unfold TriangleTrace
    rw [List.foldl_append, List.foldl_cons]
    have hs1 : ReportedDistance inRay c
        < (pre.foldl (TriangleTraceStep inRay) (false, outPayload, outColor)).2.1.Distance := by
      rcases TriangleTrace_fold_cases inRay pre (false, outPayload, outColor) with
        ⟨heq, _⟩ | ⟨p1, c0, p2, hl, hc0, _, hres, _, _⟩
      · rw [heq]; simpa [hsent] using hfin
      · rw [hres]
        exact hpre c0 (by rw [hl]; simp) hc0
    rw [TriangleTraceStep_of_hit_lt inRay _ c hc hs1]
    have hflag := (TriangleTrace_fold_flag inRay post
      (true, (c.AccStructure.Trace inRay).2, c.OverrideColor)).mpr (Or.inl rfl)
    rcases TriangleTrace_fold_cases inRay post
        (true, (c.AccStructure.Trace inRay).2, c.OverrideColor) with
      ⟨heq, _⟩ | ⟨p1, c1, p2, hl, hc1, hlt, _, _, _⟩
    · exact Prod.ext hflag heq
    · have hle := hpost c1 (by rw [hl]; simp) hc1
      exact absurd (lt_of_lt_of_le hlt hle) (lt_irrefl _)
  · intro l d
    unfold TriangleTrace
    rw [List.foldl_append]
    simp only [List.foldl_cons, List.foldl_nil]
    constructor
    · rintro ⟨hd, hlt⟩
      rw [TriangleTraceStep_of_hit_lt inRay _ d hd hlt]
    · intro hn
      by_cases hd : ReportsHit inRay d
      · have hlt : ¬ ReportedDistance inRay d
            < (l.foldl (TriangleTraceStep inRay) (false, outPayload, outColor)).2.1.Distance :=
          fun h => hn ⟨hd, h⟩
        rw [TriangleTraceStep_of_hit_not_lt inRay _ d hd hlt]
      · rw [TriangleTraceStep_of_not_hit inRay _ d hd]

theorem TriangleTrace_closest_hit_witness :
    ∃ c ∈ [exCommand 2 ⟨1, 0, 0⟩, exCommand 1 ⟨0, 1, 0⟩], ReportsHit exRay c ∧
      (TriangleTrace [exCommand 2 ⟨1, 0, 0⟩, exCommand 1 ⟨0, 1, 0⟩] exRay
        (PathTracePayload.default ℚ) ⟨0, 0, 0⟩).1 = true ∧
      (TriangleTrace [exCommand 2 ⟨1, 0, 0⟩, exCommand 1 ⟨0, 1, 0⟩] exRay
        (PathTracePayload.default ℚ) ⟨0, 0, 0⟩).2.1 = (c.AccStructure.Trace exRay).2 ∧
      (TriangleTrace [exCommand 2 ⟨1, 0, 0⟩, exCommand 1 ⟨0, 1, 0⟩] exRay
        (PathTracePayload.default ℚ) ⟨0, 0, 0⟩).2.2 = c.OverrideColor ∧
      ∀ d ∈ [exCommand 2 ⟨1, 0, 0⟩, exCommand 1 ⟨0, 1, 0⟩], ReportsHit exRay d →
        (TriangleTrace [exCommand 2 ⟨1, 0, 0⟩, exCommand 1 ⟨0, 1, 0⟩] exRay
          (PathTracePayload.default ℚ) ⟨0, 0, 0⟩).2.1.Distance ≤ ReportedDistance exRay d :=
  TriangleTrace_closest_hit [exCommand 2 ⟨1, 0, 0⟩, exCommand 1 ⟨0, 1, 0⟩] exRay
    (PathTracePayload.default ℚ) ⟨0, 0, 0⟩ rfl
    (by
      intro c hc _
      simp only [List.mem_cons, List.mem_singleton, List.not_mem_nil, or_false] at hc
      rcases hc with rfl | rfl <;> exact WithTop.coe_lt_top _)
    ⟨exCommand 2 ⟨1, 0, 0⟩, by simp, by simp [ReportsHit, exCommand]⟩

theorem TriangleTrace_tie_break_witness :
    TriangleTrace ([exCommand 3 ⟨1, 0, 0⟩] ++ exCommand 1 ⟨0, 1, 0⟩ :: [exCommand 1 ⟨0, 0, 1⟩])
        exRay (PathTracePayload.default ℚ) ⟨0, 0, 0⟩
      = (true, ((exCommand 1 ⟨0, 1, 0⟩).AccStructure.Trace exRay).2,
          (exCommand 1 ⟨0, 1, 0⟩).OverrideColor) :=
  (TriangleTrace_tie_break [exCommand 3 ⟨1, 0, 0⟩] [exCommand 1 ⟨0, 0, 1⟩]
    (exCommand 1 ⟨0, 1, 0⟩) exRay (PathTracePayload.default ℚ) ⟨0, 0, 0⟩ rfl
    (by simp [ReportsHit, exCommand])
    (WithTop.coe_lt_top _)
    (by
      intro d hd _
      simp only [List.mem_singleton] at hd
      subst hd
      simp only [ReportedDistance, exCommand]
      exact WithTop.coe_lt_coe.mpr (by norm_num))
    (by
      intro d hd _
      simp only [List.mem_singleton] at hd
      subst hd
      exact le_refl _)).1

end SceneTheorems

/-! ## Theorems: path integrator -/

section PathIntegratorTheorems

variable {F : Type} [LinearOrderedField F]

theorem accumulateFrom_x (f : Nat → Vec4 F) (m : Nat) : ∀ (c : Vec4 F) (i : Nat),
    (accumulateFrom f c i m).x = c.x + ∑ j in Finset.range m, (f (i + j)).x := by
  induction m with
  | zero => intro c i; simp [accumulateFrom]
  | succ m ih =>
    intro c i
    rw [accumulateFrom, ih, Finset.sum_range_succ']
    simp only [Vec4.add, Nat.add_zero]
    have : ∀ j, i + 1 + j = i + (j + 1) := fun j => by omega
    simp only [this]
    ring

theorem accumulateFrom_y (f : Nat → Vec4 F) (m : Nat) : ∀ (c : Vec4 F) (i : Nat),
    (accumulateFrom f c i m).y = c.y + ∑ j in Finset.range m, (f (i + j)).y := by
  induction m with
  | zero => intro c i; simp [accumulateFrom]
  | succ m ih =>
    intro c i
    rw [accumulateFrom, ih, Finset.sum_range_succ']
    simp only [Vec4.add, Nat.add_zero]
    have : ∀ j, i + 1 + j = i + (j + 1) := fun j => by omega
    simp only [this]
    ring

theorem accumulateFrom_z (f : Nat → Vec4 F) (m : Nat) : ∀ (c : Vec4 F) (i : Nat),
    (accumulateFrom f c i m).z = c.z + ∑ j in Finset.range m, (f (i + j)).z := by
  induction m with
  | zero => intro c i; simp [accumulateFrom]
  | succ m ih =>
    intro c i
    rw [accumulateFrom, ih, Finset.sum_range_succ']
    simp only [Vec4.add, Nat.add_zero]
    have : ∀ j, i + 1 + j = i + (j + 1) := fun j => by omega
    simp only [this]
    ring

theorem accumulateFrom_w (f : Nat → Vec4 F) (m : Nat) : ∀ (c : Vec4 F) (i : Nat),
    (accumulateFrom f c i m).w = c.w + ∑ j in Finset.range m, (f (i + j)).w := by
  induction m with
  | zero => intro c i; simp [accumulateFrom]
  | succ m ih =>
    intro c i
    rw [accumulateFrom, ih, Finset.sum_range_succ']
    simp only [Vec4.add, Nat.add_zero]
    have : ∀ j, i + 1 + j = i + (j + 1) := fun j => by omega
    simp only [this]
    ring

/-- One iteration of the bounce loop on a hit. -/
theorem PerPixelLoop_hit (lib : MathLib F) (fuel : Nat) (MainCommands : List (RenderCommand F))
    (L hitColor0 : Vec3 F) (n i : Nat) (color : Vec4 F) (traceRay next : PathTracingRay F)
    (g g2 : Rng F) (traces : Nat) (d : F) (t : PathTraceTriangle F) (hc : Vec3 F)
    (hhit : TriangleTrace MainCommands traceRay (PathTracePayload.default F) hitColor0
      = (true, ⟨(d : WithTop F), some t⟩, hc))
    (hnext : scatter lib fuel traceRay t.WSNormalNormalized d g = some (next, g2)) :
    PerPixelLoop lib fuel MainCommands L hitColor0 (n + 1) i color traceRay g traces
      = PerPixelLoop lib fuel MainCommands L hitColor0 n (i + 1)
          (Vec4.add color (Vec4.scale (Vec4.scale ⟨hc.x, hc.y, hc.z, 0⟩
            (cosNLightDir t.WSNormalNormalized L)) 1))
          next g2 (traces + 1) := by
  rw [PerPixelLoop]
  simp only [hhit]
  have hd : ((d : WithTop F) : Option F) = some d := rfl
  simp [hd, hnext]

/-- One iteration of the bounce loop on a miss. -/
theorem PerPixelLoop_miss (lib : MathLib F) (fuel : Nat) (MainCommands : List (RenderCommand F))
    (L hitColor0 : Vec3 F) (n i : Nat) (color : Vec4 F) (traceRay : PathTracingRay F)
    (g : Rng F) (traces : Nat)
    (hmiss : (TriangleTrace MainCommands traceRay (PathTracePayload.default F) hitColor0).1
      = false) :
    PerPixelLoop lib fuel MainCommands L hitColor0 (n + 1) i color traceRay g traces
      = if i = 0 then ⟨traces + 1, some (⟨0, 0, 0, 1⟩, g)⟩
        else ⟨traces + 1, some (Vec4.pow lib.pow (Vec4.scale color (1 / (i : F)))
          (Vec4.splat (1 / (22 / 10))), g)⟩ := by
  rw [PerPixelLoop]
  simp only [hmiss]
  simp

/-- A run of `m` consecutive hits advances the bounce loop by `m` iterations. -/
theorem PerPixelLoop_hits (lib : MathLib F) (fuel : Nat) (MainCommands : List (RenderCommand F))
    (L hitColor0 : Vec3 F) (k : Nat)
    (rays : Nat → PathTracingRay F) (gens : Nat → Rng F) (hitColor : Nat → Vec3 F)
    (tri : Nat → PathTraceTriangle F) (dist : Nat → F)
    (hhit : ∀ j < k, TriangleTrace MainCommands (rays j) (PathTracePayload.default F) hitColor0
      = (true, ⟨(dist j : WithTop F), some (tri j)⟩, hitColor j))
    (hnext : ∀ j < k, scatter lib fuel (rays j) (tri j).WSNormalNormalized (dist j) (gens j)
      = some (rays (j + 1), gens (j + 1))) :
    ∀ (m i n : Nat) (c : Vec4 F) (t : Nat), i + m = k →
      PerPixelLoop lib fuel MainCommands L hitColor0 (n + m) i c (rays i) (gens i) t
        = PerPixelLoop lib fuel MainCommands L hitColor0 n k
            (accumulateFrom (hitContribution L hitColor tri) c i m) (rays k) (gens k)
            (t + m) := by
  intro m
  induction m with
  | zero =>
    intro i n c t hik
    simp only [Nat.add_zero] at hik
    subst hik
    simp [accumulateFrom]
  | succ m ih =>
    intro i n c t hik
    have hi : i < k := by omega
    rw [show n + (m + 1) = (n + m) + 1 from by omega]
    rw [PerPixelLoop_hit lib fuel MainCommands L hitColor0 (n + m) i c (rays i) (rays (i + 1))
      (gens i) (gens (i + 1)) t (dist i) (tri i) (hitColor i) (hhit i hi) (hnext i hi)]
    rw [ih (i + 1) n _ (t + 1) (by omega)]
    rw [accumulateFrom]
    rw [show t + 1 + m = t + (m + 1) from by omega]
    rfl

/-- The bounce loop with `n` iterations left makes at most `n` further traces. -/
theorem PerPixelLoop_traces_le (lib : MathLib F) (fuel : Nat)
    (MainCommands : List (RenderCommand F)) (L hitColor0 : Vec3 F) :
    ∀ (n i : Nat) (c : Vec4 F) (ray : PathTracingRay F) (g : Rng F) (t : Nat),
      (PerPixelLoop lib fuel MainCommands L hitColor0 n i c ray g t).traces ≤ t + n := by
  intro n
  induction n with
  | zero => intro i c ray g t; simp [PerPixelLoop]
  | succ n ih =>
    intro i c ray g t
    rw [PerPixelLoop]
    simp only
    split_ifs
    · simp
    · simp
    · split
      · simp
      · split
        · simp
        · split
          · simp
          · refine le_trans (ih _ _ _ _ _) ?_
            omega

/-- C4 (miss after `k` hits).  If the bounce loop hits on bounces `0 .. k-1`
(`1 ≤ k ≤ 4`) and misses on bounce `k`, then `PerPixel` returns, in each colour
channel, the sum over `j < k` of `hitColor_j * clamp(dot(normal_j, -lightDirection),
0.1, 1.0) * 1`, times `1 / k`, raised to the power `1 / 2.2`; the alpha channel, whose
contributions are all `0`, is `pow(0, 1 / 2.2)`.  Here `rays j` and `gens j` are the
ray traced and the generator state on bounce `j`. -/
theorem PerPixel_miss_after_hits (lib : MathLib F) (fuel : Nat)
    (MainCommands : List (RenderCommand F)) (L hitColor0 : Vec3 F)
    (x y Width Height : Nat) (inInvProj inInvView : Mat4 F) (inCamPos : Vec3 F) (g : Rng F)
    (k : Nat) (hk1 : 1 ≤ k) (hk4 : k ≤ 4)
    (rays : Nat → PathTracingRay F) (gens : Nat → Rng F) (hitColor : Nat → Vec3 F)
    (tri : Nat → PathTraceTriangle F) (dist : Nat → F)
    (hray0 : rays 0 = primaryRay lib x y Width Height inInvProj inInvView inCamPos)
    (hgen0 : gens 0 = g)
    (hhit : ∀ j < k, TriangleTrace MainCommands (rays j) (PathTracePayload.default F) hitColor0
      = (true, ⟨(dist j : WithTop F), some (tri j)⟩, hitColor j))
    (hnext : ∀ j < k, scatter lib fuel (rays j) (tri j).WSNormalNormalized (dist j) (gens j)
      = some (rays (j + 1), gens (j + 1)))
    (hmiss : (TriangleTrace MainCommands (rays k) (PathTracePayload.default F) hitColor0).1
      = false) :
    (PerPixel lib fuel MainCommands L hitColor0 x y Width Height inInvProj inInvView
        inCamPos g).result
      = some
          (⟨lib.pow ((∑ j in Finset.range k, (hitColor j).x
                * clamp (Vec3.dot (tri j).WSNormalNormalized (Vec3.neg L)) (1 / 10) 1 * 1)
              * (1 / (k : F))) (1 / (22 / 10)),
            lib.pow ((∑ j in Finset.range k, (hitColor j).y
                * clamp (Vec3.dot (tri j).WSNormalNormalized (Vec3.neg L)) (1 / 10) 1 * 1)
              * (1 / (k : F))) (1 / (22 / 10)),
            lib.pow ((∑ j in Finset.range k, (hitColor j).z
                * clamp (Vec3.dot (tri j).WSNormalNormalized (Vec3.neg L)) (1 / 10) 1 * 1)
              * (1 / (k : F))) (1 / (22 / 10)),
            lib.pow 0 (1 / (22 / 10))⟩,
           gens k) := by
  unfold PerPixel
  rw [← hray0, ← hgen0]
  obtain ⟨n, hn⟩ : ∃ n, 5 = (n + 1) + k := ⟨4 - k, by omega⟩
  rw [hn, PerPixelLoop_hits lib fuel MainCommands L hitColor0 k rays gens hitColor tri dist
    hhit hnext k 0 (n + 1) _ 0 (by omega)]
  rw [PerPixelLoop_miss lib fuel MainCommands L hitColor0 n k _ (rays k) (gens k) _ hmiss]
  have hk0 : k ≠ 0 := by omega
  simp only [hk0, if_false]
  simp only [Vec4.pow, Vec4.scale, Vec4.splat, accumulateFrom_x, accumulateFrom_y,
    accumulateFrom_z, accumulateFrom_w, hitContribution, cosNLightDir, Nat.zero_add]
  simp

/-- C5 (primary miss).  If the primary ray hits nothing, `PerPixel` returns exactly
opaque black `(0, 0, 0, 1)` after a single trace and leaves the random generator as it
found it (no draw is made); and gamma correction with the real power function, exponent
`1 / 2.2` per channel, maps that colour to itself. -/
theorem PerPixel_primary_miss (lib : MathLib F) (fuel : Nat)
    (MainCommands : List (RenderCommand F)) (L hitColor0 : Vec3 F)
    (x y Width Height : Nat) (inInvProj inInvView : Mat4 F) (inCamPos : Vec3 F) (g : Rng F)
    (hmiss : (TriangleTrace MainCommands
        (primaryRay lib x y Width Height inInvProj inInvView inCamPos)
        (PathTracePayload.default F) hitColor0).1 = false) :
    PerPixel lib fuel MainCommands L hitColor0 x y Width Height inInvProj inInvView inCamPos g
        = ⟨1, some (⟨0, 0, 0, 1⟩, g)⟩ ∧
    Vec4.pow Real.rpow (⟨0, 0, 0, 1⟩ : Vec4 ℝ) (Vec4.splat (1 / (22 / 10)))
        = ⟨0, 0, 0, 1⟩ := by
  constructor
  · unfold PerPixel
    rw [PerPixelLoop_miss lib fuel MainCommands L hitColor0 4 0 _ _ g 0 hmiss]
    simp
  · have hne : ((1 : ℝ) / (22 / 10)) ≠ 0 := by norm_num
    simp only [Vec4.pow, Vec4.splat, Real.rpow_eq_pow, Real.zero_rpow hne, Real.one_rpow]

/-- C6 (bounce budget).  `PerPixel` never makes more than 5 calls of `TriangleTrace`;
and if the traces of bounces `0 .. 4` all hit, it returns opaque black `(0, 0, 0, 1)`
after exactly 5 traces, whatever the hit colours were. -/
theorem PerPixel_bounce_budget (lib : MathLib F) (fuel : Nat)
    (MainCommands : List (RenderCommand F)) (L hitColor0 : Vec3 F)
    (x y Width Height : Nat) (inInvProj inInvView : Mat4 F) (inCamPos : Vec3 F) (g : Rng F) :
    (PerPixel lib fuel MainCommands L hitColor0 x y Width Height inInvProj inInvView
        inCamPos g).traces ≤ 5 ∧
    ∀ (rays : Nat → PathTracingRay F) (gens : Nat → Rng F) (hitColor : Nat → Vec3 F)
      (tri : Nat → PathTraceTriangle F) (dist : Nat → F),
      rays 0 = primaryRay lib x y Width Height inInvProj inInvView inCamPos →
      gens 0 = g →
      (∀ j < 5, TriangleTrace MainCommands (rays j) (PathTracePayload.default F) hitColor0
        = (true, ⟨(dist j : WithTop F), some (tri j)⟩, hitColor j)) →
      (∀ j < 5, scatter lib fuel (rays j) (tri j).WSNormalNormalized (dist j) (gens j)
        = some (rays (j + 1), gens (j + 1))) →
      PerPixel lib fuel MainCommands L hitColor0 x y Width Height inInvProj inInvView
          inCamPos g
        = ⟨5, some (⟨0, 0, 0, 1⟩, gens 5)⟩ := by
  constructor
  · unfold PerPixel
    have h := PerPixelLoop_traces_le lib fuel MainCommands L hitColor0 5 0 ⟨0, 0, 0, 0⟩
      (primaryRay lib x y Width Height inInvProj inInvView inCamPos) g 0
    simpa using h
  · intro rays gens hitColor tri dist hray0 hgen0 hhit hnext
    unfold PerPixel
    rw [← hray0, ← hgen0]
    rw [show (5 : Nat) = 0 + 5 from rfl,
      PerPixelLoop_hits lib fuel MainCommands L hitColor0 5 rays gens hitColor tri dist
        hhit hnext 5 0 0 _ 0 (by omega)]
    simp [PerPixelLoop]

theorem exRng_unit_vector (n : Nat) :
    random_unit_vector exLib 1 (⟨fun _ => 1 / 2, n⟩ : Rng ℚ)
      = some (⟨0, 0, 0⟩, ⟨fun _ => 1 / 2, n + 3⟩) := by
  simp [random_unit_vector, random_in_unit_sphere, randomVec3, random_float_range,
    random_float, Vec3.lengthSquared, Vec3.dot, Vec3.normalize, Vec3.scale, exLib]
  norm_num

theorem PerPixel_miss_after_hits_witness :
    (PerPixel exLib 1 [exFloor] ⟨0, 0, -1⟩ ⟨0, 0, 0⟩ 0 0 1 1 exIdentity exIdentity
        ⟨0, 0, 0⟩ exRng).result
      = some
          (⟨exLib.pow ((∑ j in Finset.range 1, ((fun _ => exFloor.OverrideColor) j).x
                * clamp (Vec3.dot ((fun _ => exTriangle) j).WSNormalNormalized
                    (Vec3.neg ⟨0, 0, -1⟩)) (1 / 10) 1 * 1)
              * (1 / ((1 : Nat) : ℚ))) (1 / (22 / 10)),
            exLib.pow ((∑ j in Finset.range 1, ((fun _ => exFloor.OverrideColor) j).y
                * clamp (Vec3.dot ((fun _ => exTriangle) j).WSNormalNormalized
                    (Vec3.neg ⟨0, 0, -1⟩)) (1 / 10) 1 * 1)
              * (1 / ((1 : Nat) : ℚ))) (1 / (22 / 10)),
            exLib.pow ((∑ j in Finset.range 1, ((fun _ => exFloor.OverrideColor) j).z
                * clamp (Vec3.dot ((fun _ => exTriangle) j).WSNormalNormalized
                    (Vec3.neg ⟨0, 0, -1⟩)) (1 / 10) 1 * 1)
              * (1 / ((1 : Nat) : ℚ))) (1 / (22 / 10)),
            exLib.pow 0 (1 / (22 / 10))⟩,
           exGens 1) :=
  PerPixel_miss_after_hits exLib 1 [exFloor] ⟨0, 0, -1⟩ ⟨0, 0, 0⟩ 0 0 1 1 exIdentity
    exIdentity ⟨0, 0, 0⟩ exRng 1 (le_refl 1) (by norm_num) exRays exGens
    (fun _ => exFloor.OverrideColor) (fun _ => exTriangle) (fun _ => 2)
    (by
      simp [exRays, primaryRay, Mat4.mulVec, Vec4.add, Vec4.scale, Vec4.div, Vec4.splat,
        Vec3.normalize, Vec3.scale, exLib, exIdentity])
    rfl
    (by
      intro j hj
      have hj0 : j = 0 := by omega
      subst hj0
      simp [TriangleTrace, TriangleTraceStep, exFloor, exRays, PathTracePayload.default])
    (by
      intro j hj
      have hj0 : j = 0 := by omega
      subst hj0
      simp only [scatter, exGens, exRng_unit_vector]
      simp [exRays, exTriangle, Vec3.add, Vec3.scale, near_zero]
      norm_num)
    (by
      simp [TriangleTrace, TriangleTraceStep, exFloor, exRays, PathTracePayload.default])

theorem PerPixel_primary_miss_witness :
    PerPixel exLib 1 [] ⟨0, 0, -1⟩ ⟨0, 0, 0⟩ 0 0 1 1 exIdentity exIdentity ⟨0, 0, 0⟩ exRng
        = ⟨1, some (⟨0, 0, 0, 1⟩, exRng)⟩ ∧
    Vec4.pow Real.rpow (⟨0, 0, 0, 1⟩ : Vec4 ℝ) (Vec4.splat (1 / (22 / 10)))
        = ⟨0, 0, 0, 1⟩ :=
  PerPixel_primary_miss exLib 1 [] ⟨0, 0, -1⟩ ⟨0, 0, 0⟩ 0 0 1 1 exIdentity exIdentity
    ⟨0, 0, 0⟩ exRng rfl

theorem PerPixel_bounce_budget_witness :
    PerPixel exLib 1 [exCommand 1 ⟨1, 1, 1⟩] ⟨0, 0, -1⟩ ⟨0, 0, 0⟩ 0 0 1 1 exIdentity
        exIdentity ⟨0, 0, 0⟩ exRng
      = ⟨5, some (⟨0, 0, 0, 1⟩, exGens 5)⟩ :=
  (PerPixel_bounce_budget exLib 1 [exCommand 1 ⟨1, 1, 1⟩] ⟨0, 0, -1⟩ ⟨0, 0, 0⟩ 0 0 1 1
    exIdentity exIdentity ⟨0, 0, 0⟩ exRng).2 exRaysAll exGens (fun _ => ⟨1, 1, 1⟩)
    (fun _ => exTriangle) (fun _ => 1)
    (by
      simp [exRaysAll, primaryRay, Mat4.mulVec, Vec4.add, Vec4.scale, Vec4.div, Vec4.splat,
        Vec3.normalize, Vec3.scale, exLib, exIdentity])
    rfl
    (by
      intro j _
      simp [TriangleTrace, TriangleTraceStep, exCommand, PathTracePayload.default])
    (by
      intro j _
      simp only [scatter, exGens, exRng_unit_vector]
      simp [exRaysAll, exTriangle, Vec3.add, Vec3.scale, near_zero]
      ring)

end PathIntegratorTheorems

/-! ## Theorems: precache loop -/

section PrecacheTheorems

variable {F : Type}

/-- The precache loop completes when every command with triangles has a live owner. -/
theorem precache_isSome (eng : Engine F) (cmds : List (RenderCommand F))
    (hpar : ∀ c ∈ cmds, c.Triangles ≠ [] → c.Parent ≠ none) :
    ∃ cs, precache eng cmds = some cs := by
  induction cmds with
  | nil => exact ⟨[], rfl⟩
  | cons a l ih =>
    obtain ⟨cs, hcs⟩ := ih (fun c hc => hpar c (List.mem_cons_of_mem a hc))
    have ha := hpar a (List.mem_cons_self a l)
    by_cases he : a.Triangles.length = 0
    · exact ⟨a :: cs, by simp [precache, precacheCommand, he, hcs]⟩
    · have hne : a.Triangles ≠ [] := fun h0 => he (by simp [h0])
      cases hp : a.Parent with
      | none => exact absurd hp (ha hne)
      | some parent =>
        by_cases hv : a.AccStructure.Valid = false
        · simp [precache, precacheCommand, he, hp, hv, hcs]
        · simp [precache, precacheCommand, he, hp, hv, hcs]

/-- The body of the precache loop changes neither the triangle list nor the owner. -/
theorem precacheCommand_keeps (eng : Engine F) (a c : RenderCommand F)
    (h : precacheCommand eng a = some c) :
    c.Triangles = a.Triangles ∧ c.Parent = a.Parent := by
  unfold precacheCommand at h
  by_cases he : a.Triangles.length = 0
  · simp [he] at h; subst h; exact ⟨rfl, rfl⟩
  · cases hp : a.Parent with
    | none => simp [he, hp] at h
    | some parent =>
      by_cases hv : a.AccStructure.Valid = false
      · simp [he, hp, hv] at h; subst h; exact ⟨rfl, rfl⟩
      · simp [he, hp, hv] at h; subst h; exact ⟨rfl, hp⟩

/-- After the precache loop every command with triangles still has a live owner. -/
theorem precache_keeps_owner (eng : Engine F) : ∀ (cmds cs : List (RenderCommand F)),
    precache eng cmds = some cs →
    (∀ c ∈ cmds, c.Triangles ≠ [] → c.Parent ≠ none) →
    ∀ c ∈ cs, c.Triangles ≠ [] → c.Parent ≠ none := by
  intro cmds
  induction cmds with
  | nil =>
    intro cs h _ c hc
    simp [precache] at h
    subst h
    simp at hc
  | cons a l ih =>
    intro cs h hpar c hc
    rw [precache] at h
    cases ha : precacheCommand eng a with
    | none => simp [ha] at h
    | some a2 =>
      cases hl : precache eng l with
      | none => simp [ha, hl] at h
      | some l2 =>
        simp [ha, hl] at h
        subst h
        rcases List.mem_cons.mp hc with rfl | hc
        · obtain ⟨ht, hp⟩ := precacheCommand_keeps eng a c ha
          rw [ht, hp]
          exact hpar a (List.mem_cons_self a l)
        · exact ih l2 hl (fun d hd => hpar d (List.mem_cons_of_mem a hd)) c hc

end PrecacheTheorems

section VectorTheorems

variable {F : Type} [LinearOrderedField F]

theorem Vec4.zero_add (v : Vec4 F) : Vec4.add ⟨0, 0, 0, 0⟩ v = v := by
  cases v
  simp [Vec4.add]

end VectorTheorems

/-! ## Theorems: frame loop and accumulation -/

section FrameLoopTheorems

variable {F : Type} [LinearOrderedField F] [FloorRing F]

/-- Effect of one pixel task on every slot of the two buffers. -/
theorem drawPixel_apply (W count : Nat) (frame : Nat → Nat → Vec4 F) (i j : Nat)
    (bufs : (Nat → Vec4 F) × (Nat → Nat)) (k : Nat) :
    (drawPixel W count frame i bufs j).1 k
        = (if k = W * i + j then accumulatedPixel count frame (bufs.1 k) j i
           else bufs.1 k) ∧
    (drawPixel W count frame i bufs j).2 k
        = (if k = W * i + j then
             ConvertToRGBA (Vec4.div (accumulatedPixel count frame (bufs.1 k) j i)
               (Vec4.splat (count : F)))
           else bufs.2 k) := by
  by_cases hk : k = W * i + j
  · subst hk
    by_cases hc : count = 1
    · simp [drawPixel, finalColor, accumulatedPixel, hc]
    · simp [drawPixel, finalColor, accumulatedPixel, hc]
  · by_cases hc : count = 1
    · simp [drawPixel, finalColor, accumulatedPixel, hc, hk, Function.update_noteq hk]
    · simp [drawPixel, finalColor, accumulatedPixel, hc, hk, Function.update_noteq hk]

/-- Effect of the first `n` pixel tasks of row `i`. -/
theorem drawRow_fold (W count : Nat) (frame : Nat → Nat → Vec4 F) (i : Nat)
    (bufs : (Nat → Vec4 F) × (Nat → Nat)) (n : Nat) : ∀ k : Nat,
    ((List.range n).foldl (drawPixel W count frame i) bufs).1 k
        = (if W * i ≤ k ∧ k < W * i + n then
             accumulatedPixel count frame (bufs.1 k) (k - W * i) i
           else bufs.1 k) ∧
    ((List.range n).foldl (drawPixel W count frame i) bufs).2 k
        = (if W * i ≤ k ∧ k < W * i + n then
             ConvertToRGBA (Vec4.div (accumulatedPixel count frame (bufs.1 k) (k - W * i) i)
               (Vec4.splat (count : F)))
           else bufs.2 k) := by
  induction n with
  | zero =>
    intro k
    have : ¬ (W * i ≤ k ∧ k < W * i) := by omega
    simp [this]
  | succ n ih =>
    intro k
    rw [List.range_succ, List.foldl_append]
    simp only [List.foldl_cons, List.foldl_nil]
    obtain ⟨h1, h2⟩ := drawPixel_apply W count frame i n
      ((List.range n).foldl (drawPixel W count frame i) bufs) k
    rw [h1, h2]
    obtain ⟨ih1, ih2⟩ := ih k
    by_cases hk : k = W * i + n
    · subst hk
      have hin : W * i ≤ W * i + n ∧ W * i + n < W * i + (n + 1) := by omega
      have hnot : ¬ (W * i ≤ W * i + n ∧ W * i + n < W * i + n) := by omega
      have hsub : W * i + n - W * i = n := by omega
      rw [if_pos rfl, if_pos rfl, ih1, if_neg hnot, if_pos hin, if_pos hin, hsub]
      exact ⟨rfl, rfl⟩
    · rw [if_neg hk, if_neg hk, ih1, ih2]
      by_cases hin : W * i ≤ k ∧ k < W * i + n
      · have hin2 : W * i ≤ k ∧ k < W * i + (n + 1) := by omega
        simp only [hin, hin2, if_true, and_self]
      · have hin2 : ¬ (W * i ≤ k ∧ k < W * i + (n + 1)) := by omega
        simp only [hin, hin2, if_false, and_self]

/-- Effect of the first `m` rows of pixel tasks. -/
theorem drawPixels_fold (W count : Nat) (frame : Nat → Nat → Vec4 F)
    (bufs : (Nat → Vec4 F) × (Nat → Nat)) (m : Nat) : ∀ k : Nat,
    ((List.range m).foldl (drawRow W count frame) bufs).1 k
        = (if k < W * m then accumulatedPixel count frame (bufs.1 k) (k % W) (k / W)
           else bufs.1 k) ∧
    ((List.range m).foldl (drawRow W count frame) bufs).2 k
        = (if k < W * m then
             ConvertToRGBA (Vec4.div (accumulatedPixel count frame (bufs.1 k) (k % W) (k / W))
               (Vec4.splat (count : F)))
           else bufs.2 k) := by
  induction m with
  | zero => intro k; simp
  | succ m ih =>
    intro k
    rw [List.range_succ, List.foldl_append]
    simp only [List.foldl_cons, List.foldl_nil]
    obtain ⟨h1, h2⟩ := drawRow_fold W count frame m
      ((List.range m).foldl (drawRow W count frame) bufs) W k
    have hd : drawRow W count frame ((List.range m).foldl (drawRow W count frame) bufs) m
        = (List.range W).foldl (drawPixel W count frame m)
            ((List.range m).foldl (drawRow W count frame) bufs) := rfl
    rw [hd, h1, h2]
    obtain ⟨ih1, ih2⟩ := ih k
    have hmul : W * (m + 1) = W * m + W := by ring
    by_cases hrow : W * m ≤ k ∧ k < W * m + W
    · have hlt : k < W * (m + 1) := by omega
      have hnlt : ¬ k < W * m := by omega
      have hWpos : 0 < W := by omega
      have hdiv : k / W = m := by
        apply Nat.div_eq_of_lt_le
        · rw [Nat.mul_comm]; exact hrow.1
        · rw [Nat.succ_mul, Nat.mul_comm]; exact hrow.2
      have hmod : k % W = k - W * m := by
        have := Nat.div_add_mod k W
        rw [hdiv] at this
        omega
      rw [ih1]
      simp only [hrow, hlt, hnlt, if_true, if_false, and_self, hdiv, hmod]
    · rw [if_neg hrow, if_neg hrow, ih1, ih2]
      by_cases hlt : k < W * m
      · have hlt2 : k < W * (m + 1) := by omega
        simp only [hlt, hlt2, if_true, and_self]
      · have hlt2 : ¬ k < W * (m + 1) := by omega
        simp only [hlt, hlt2, if_false, and_self]

/-- After the per-pixel loops of a frame, the slot of pixel `(i, j)` holds the old
content (or zero when the counter is `1`) plus that frame's result, and the image
holds the conversion of that sum divided by the counter. -/
theorem drawPixels_pixel (W H count : Nat) (frame : Nat → Nat → Vec4 F)
    (bufs : (Nat → Vec4 F) × (Nat → Nat)) (i j : Nat) (hi : i < H) (hj : j < W) :
    (drawPixels W H count frame bufs).1 (W * i + j)
        = accumulatedPixel count frame (bufs.1 (W * i + j)) j i ∧
    (drawPixels W H count frame bufs).2 (W * i + j)
        = ConvertToRGBA (Vec4.div (accumulatedPixel count frame (bufs.1 (W * i + j)) j i)
            (Vec4.splat (count : F))) := by
  obtain ⟨h1, h2⟩ := drawPixels_fold W count frame bufs H (W * i + j)
  have hlt : W * i + j < W * H := by
    have : W * (i + 1) ≤ W * H := Nat.mul_le_mul_left W hi
    have h3 : W * (i + 1) = W * i + W := by ring
    omega
  have hWpos : 0 < W := by omega
  have hdiv : (W * i + j) / W = i := by
    rw [Nat.mul_add_div hWpos, Nat.div_eq_of_lt hj, Nat.add_zero]
  have hmod : (W * i + j) % W = j := by
    rw [Nat.mul_add_mod, Nat.mod_eq_of_lt hj]
  unfold drawPixels
  rw [h1, h2]
  simp only [hlt, if_true, hdiv, hmod, and_self]

/-- One `Draw` call on a scene with a light and live owners: it returns, the counter is
updated, and every pixel slot holds its old content (zero when the counter is `1`) plus
the frame's result, the image holding the converted quotient by the counter. -/
theorem Draw_frame (lib : MathLib F) (eng : Engine F) (inp : FrameInput F)
    (s : RendererState F) (hl : inp.lights ≠ [])
    (hpar : ∀ c ∈ s.MainCommands, c.Triangles ≠ [] → c.Parent ≠ none) :
    ∃ s2, Draw lib eng inp s = some s2 ∧
      s2.AccumulatedFramesCount
        = updateFramesCount inp.bUseAccumulation s.AccumulatedFramesCount ∧
      (∀ c ∈ s2.MainCommands, c.Triangles ≠ [] → c.Parent ≠ none) ∧
      ∀ i < inp.Height, ∀ j < inp.Width,
        s2.AccumulationData (inp.Width * i + j)
          = accumulatedPixel s2.AccumulatedFramesCount inp.frame
              (s.AccumulationData (inp.Width * i + j)) j i ∧
        s2.FinalImageData (inp.Width * i + j)
          = ConvertToRGBA (finalColor s2.AccumulationData s2.AccumulatedFramesCount
              (inp.Width * i + j)) := by
  obtain ⟨cs, hcs⟩ := precache_isSome eng s.MainCommands hpar
  cases hlights : inp.lights with
  | nil => exact absurd hlights hl
  | cons light0 rest =>
    have hD : Draw lib eng inp s = some
        { MainCommands := cs
          AccumulationData := (drawPixels inp.Width inp.Height
            (updateFramesCount inp.bUseAccumulation s.AccumulatedFramesCount) inp.frame
            (s.AccumulationData, s.FinalImageData)).1
          FinalImageData := (drawPixels inp.Width inp.Height
            (updateFramesCount inp.bUseAccumulation s.AccumulatedFramesCount) inp.frame
            (s.AccumulationData, s.FinalImageData)).2
          AccumulatedFramesCount :=
            updateFramesCount inp.bUseAccumulation s.AccumulatedFramesCount
          NormalizedDirLightDir :=
            Vec3.normalize lib.inversesqrt (Quat.rotate light0.AbsoluteRotation ⟨0, 0, 1⟩) } := by
      simp only [Draw, hlights, hcs]
    refine ⟨_, hD, rfl, ?_, ?_⟩
    · exact precache_keeps_owner eng s.MainCommands cs hcs hpar
    · intro i hi j hj
      obtain ⟨h1, h2⟩ := drawPixels_pixel inp.Width inp.Height
        (updateFramesCount inp.bUseAccumulation s.AccumulatedFramesCount) inp.frame
        (s.AccumulationData, s.FinalImageData) i j hi hj
      refine ⟨h1, ?_⟩
      simp only [finalColor]
      rw [h2, h1]

/-- C8 (accumulation reset).  Whatever the accumulation buffer and the frame counter
hold, a `Draw` call with accumulation disabled sets `AccumulatedFramesCount` to `1` and
leaves in every pixel's slot exactly that frame's `PerPixel` result; when accumulation
is enabled for the next `Draw`, the colour handed to `ConvertToRGBA` for every pixel is
the mean of exactly those two frames' results.  (The scene has a light and every
command with triangles a live owner, so that `Draw` returns.) -/
theorem Draw_accumulation_reset (lib : MathLib F) (eng : Engine F)
    (s : RendererState F) (inp1 inp2 : FrameInput F)
    (hoff : inp1.bUseAccumulation = false) (hon : inp2.bUseAccumulation = true)
    (hl1 : inp1.lights ≠ []) (hl2 : inp2.lights ≠ [])
    (hW : inp2.Width = inp1.Width) (hH : inp2.Height = inp1.Height)
    (hpar : ∀ c ∈ s.MainCommands, c.Triangles ≠ [] → c.Parent ≠ none) :
    ∃ s1 s2, Draw lib eng inp1 s = some s1 ∧
      s1.AccumulatedFramesCount = 1 ∧
      (∀ i < inp1.Height, ∀ j < inp1.Width,
        s1.AccumulationData (inp1.Width * i + j) = inp1.frame j i) ∧
      Draw lib eng inp2 s1 = some s2 ∧
      s2.AccumulatedFramesCount = 2 ∧
      (∀ i < inp1.Height, ∀ j < inp1.Width,
        finalColor s2.AccumulationData s2.AccumulatedFramesCount (inp1.Width * i + j)
          = Vec4.mean2 (inp1.frame j i) (inp2.frame j i) ∧
        s2.FinalImageData (inp1.Width * i + j)
          = ConvertToRGBA (Vec4.mean2 (inp1.frame j i) (inp2.frame j i))) := by
  obtain ⟨s1, hd1, hc1, hp1, hpix1⟩ := Draw_frame lib eng inp1 s hl1 hpar
  obtain ⟨s2, hd2, hc2, _, hpix2⟩ := Draw_frame lib eng inp2 s1 hl2 hp1
  have hcount1 : s1.AccumulatedFramesCount = 1 := by
    rw [hc1, hoff]; rfl
  have hcount2 : s2.AccumulatedFramesCount = 2 := by
    rw [hc2, hon, hcount1]; rfl
  have hacc1 : ∀ i < inp1.Height, ∀ j < inp1.Width,
      s1.AccumulationData (inp1.Width * i + j) = inp1.frame j i := by
    intro i hi j hj
    rw [(hpix1 i hi j hj).1, hcount1]
    simp [accumulatedPixel, Vec4.zero_add]
  refine ⟨s1, s2, hd1, hcount1, hacc1, hd2, hcount2, ?_⟩
  intro i hi j hj
  obtain ⟨ha, hf⟩ := hpix2 i (by rw [hH]; exact hi) j (by rw [hW]; exact hj)
  rw [hW] at ha hf
  have hmean : finalColor s2.AccumulationData s2.AccumulatedFramesCount (inp1.Width * i + j)
      = Vec4.mean2 (inp1.frame j i) (inp2.frame j i) := by
    simp only [finalColor]
    rw [ha, hcount2, hacc1 i hi j hj]
    simp [accumulatedPixel, Vec4.add, Vec4.div, Vec4.splat, Vec4.mean2]
  exact ⟨hmean, by rw [hf, hmean]⟩

theorem Draw_accumulation_reset_witness :
    ∃ s1 s2, Draw exLib exEngine (exFrame false ⟨0, 0, 0, 1⟩) exStartup = some s1 ∧
      s1.AccumulatedFramesCount = 1 ∧
      (∀ i < (exFrame false ⟨0, 0, 0, 1⟩).Height, ∀ j < (exFrame false ⟨0, 0, 0, 1⟩).Width,
        s1.AccumulationData ((exFrame false ⟨0, 0, 0, 1⟩).Width * i + j)
          = (exFrame false ⟨0, 0, 0, 1⟩).frame j i) ∧
      Draw exLib exEngine (exFrame true ⟨1, 0, 0, 1⟩) s1 = some s2 ∧
      s2.AccumulatedFramesCount = 2 ∧
      (∀ i < (exFrame false ⟨0, 0, 0, 1⟩).Height, ∀ j < (exFrame false ⟨0, 0, 0, 1⟩).Width,
        finalColor s2.AccumulationData s2.AccumulatedFramesCount
            ((exFrame false ⟨0, 0, 0, 1⟩).Width * i + j)
          = Vec4.mean2 ((exFrame false ⟨0, 0, 0, 1⟩).frame j i)
              ((exFrame true ⟨1, 0, 0, 1⟩).frame j i) ∧
        s2.FinalImageData ((exFrame false ⟨0, 0, 0, 1⟩).Width * i + j)
          = ConvertToRGBA (Vec4.mean2 ((exFrame false ⟨0, 0, 0, 1⟩).frame j i)
              ((exFrame true ⟨1, 0, 0, 1⟩).frame j i))) :=
  Draw_accumulation_reset exLib exEngine exStartup (exFrame false ⟨0, 0, 0, 1⟩)
    (exFrame true ⟨1, 0, 0, 1⟩) rfl rfl (by simp [exFrame]) (by simp [exFrame]) rfl rfl
    (by intro c hc; simp [exStartup] at hc)

/-- C7 at its failing input.  From the start-up state (`AccumulatedFramesCount = 1`, a
buffer that holds zeros), one `Draw` call with accumulation enabled on a `1 x 1` image
whose pixel gets `(0, 0, 0, 1)` from `PerPixel` raises the counter to `2` without
clearing the buffer, and hands `(0, 0, 0, 1/2)` to `ConvertToRGBA`, not the frame's
result divided by `1`. -/
theorem Draw_startup_divides_by_two :
    ∃ s1, Draw exLib exEngine (exFrame true ⟨0, 0, 0, 1⟩) exStartup = some s1 ∧
      s1.AccumulatedFramesCount = 2 ∧
      s1.AccumulationData 0 = ⟨0, 0, 0, 1⟩ ∧
      finalColor s1.AccumulationData s1.AccumulatedFramesCount 0 = ⟨0, 0, 0, 1 / 2⟩ ∧
      finalColor s1.AccumulationData s1.AccumulatedFramesCount 0
        ≠ Vec4.div ((exFrame true ⟨0, 0, 0, 1⟩).frame 0 0) (Vec4.splat ((1 : Nat) : ℚ)) := by
  obtain ⟨s1, hd, hc, _, hpix⟩ := Draw_frame exLib exEngine (exFrame true ⟨0, 0, 0, 1⟩)
    exStartup (by simp [exFrame]) (by intro c hc; simp [exStartup] at hc)
  have hcount : s1.AccumulatedFramesCount = 2 := by
    rw [hc]; simp [updateFramesCount, exFrame, exStartup]
  have hacc : s1.AccumulationData 0 = ⟨0, 0, 0, 1⟩ := by
    have h := (hpix 0 (by simp [exFrame]) 0 (by simp [exFrame])).1
    simp only [hcount] at h
    simpa [accumulatedPixel, exFrame, exStartup, Vec4.add] using h
  have hfin : finalColor s1.AccumulationData s1.AccumulatedFramesCount 0
      = ⟨0, 0, 0, 1 / 2⟩ := by
    simp [finalColor, hacc, hcount, Vec4.div, Vec4.splat]
  refine ⟨s1, hd, hcount, hacc, hfin, ?_⟩
  rw [hfin]
  simp [exFrame, Vec4.div, Vec4.splat]

end FrameLoopTheorems

/-! ## Theorems: spherical-harmonics precomputation -/

section LoopTheorems

/-- Invariant rule for `forRange`: an invariant that every iteration re-establishes,
without failing, holds after the loop, which then returns. -/
theorem forRange_inv {σ : Type} (body : Nat → σ → Option σ) (P : Nat → σ → Prop)
    (n : Nat) (st : σ) (h0 : P 0 st)
    (hstep : ∀ k, k < n → ∀ s, P k s → ∃ s2, body k s = some s2 ∧ P (k + 1) s2) :
    ∃ s2, forRange body n st = some s2 ∧ P n s2 := by
  induction n with
  | zero => exact ⟨st, rfl, h0⟩
  | succ n ih =>
    obtain ⟨s1, hs1, hP1⟩ := ih (fun k hk s hs => hstep k (Nat.lt_succ_of_lt hk) s hs)
    obtain ⟨s2, hs2, hP2⟩ := hstep n (Nat.lt_succ_self n) s1 hP1
    refine ⟨s2, ?_, hP2⟩
    rw [forRange, hs1]
    exact hs2

/-- A loop that applies `g i` to slot `base + i` for `i < N` of a buffer with at least
`base + N` slots returns, keeps the size, and changes exactly those slots. -/
theorem forRange_modify_block {V : Type} (N base : Nat) (g : Nat → V → V) (b : Buffer V)
    (h : base + N ≤ b.size) :
    ∃ b2, forRange (fun i (c : Buffer V) => c.modifyAt (base + i) (g i)) N b = some b2 ∧
      b2.size = b.size ∧
      ∀ idx, b2.data idx
        = if base ≤ idx ∧ idx < base + N then g (idx - base) (b.data idx) else b.data idx := by
  apply forRange_inv (fun i (c : Buffer V) => c.modifyAt (base + i) (g i))
    (fun k b2 => b2.size = b.size ∧ ∀ idx, b2.data idx
      = if base ≤ idx ∧ idx < base + k then g (idx - base) (b.data idx) else b.data idx)
  · refine ⟨rfl, fun idx => ?_⟩
    have : ¬ (base ≤ idx ∧ idx < base + 0) := by omega
    rw [if_neg this]
  · intro k hk c ⟨hsz, hdata⟩
    have hlt : base + k < c.size := by omega
    refine ⟨⟨c.size, Function.update c.data (base + k) (g k (c.data (base + k)))⟩,
      by simp [Buffer.modifyAt, hlt], hsz, fun idx => ?_⟩
    by_cases hidx : idx = base + k
    · subst hidx
      have h1 : base ≤ base + k ∧ base + k < base + (k + 1) := by omega
      have h2 : ¬ (base ≤ base + k ∧ base + k < base + k) := by omega
      have h3 : base + k - base = k := by omega
      simp only [Function.update_same]
      rw [if_pos h1, hdata, if_neg h2, h3]
    · simp only [Function.update_noteq hidx]
      rw [hdata]
      by_cases hin : base ≤ idx ∧ idx < base + k
      · have hin2 : base ≤ idx ∧ idx < base + (k + 1) := by omega
        rw [if_pos hin, if_pos hin2]
      · have hin2 : ¬ (base ≤ idx ∧ idx < base + (k + 1)) := by omega
        rw [if_neg hin, if_neg hin2]

theorem forall₂_compose {α β γ : Type} {R : α → β → Prop} {Q : β → γ → Prop}
    {T : α → γ → Prop} (h : ∀ a b c, R a b → Q b c → T a c) :
    ∀ (l1 : List α) (l2 : List β) (l3 : List γ),
      List.Forall₂ R l1 l2 → List.Forall₂ Q l2 l3 → List.Forall₂ T l1 l3 := by
  intro l1 l2 l3 h12
  induction h12 generalizing l3 with
  | nil => intro h23; cases h23; exact List.Forall₂.nil
  | cons hab _ ih =>
    intro h23
    cases h23 with
    | cons hbc htl => exact List.Forall₂.cons (h _ _ _ hab hbc) (ih _ htl)

end LoopTheorems

section InitGITheorems

variable {F : Type} [LinearOrderedField F]

/-- The result of `TriangleTrace` depends on the commands only through the members it
reads: triangle list, acceleration structure and override colour. -/
theorem TriangleTrace_geometry (inRay : PathTracingRay F) :
    ∀ (l1 l2 : List (RenderCommand F)),
      l1.map RenderCommand.geometry = l2.map RenderCommand.geometry →
      ∀ st, l1.foldl (TriangleTraceStep inRay) st = l2.foldl (TriangleTraceStep inRay) st := by
  intro l1
  induction l1 with
  | nil =>
    intro l2 h st
    cases l2 with
    | nil => rfl
    | cons b l2 => simp at h
  | cons a l1 ih =>
    intro l2 h st
    cases l2 with
    | nil => simp at h
    | cons b l2 =>
      simp only [List.map_cons, List.cons.injEq] at h
      obtain ⟨hab, htl⟩ := h
      have hstep : TriangleTraceStep inRay st a = TriangleTraceStep inRay st b := by
        simp only [RenderCommand.geometry, Prod.mk.injEq] at hab
        obtain ⟨h1, h2, h3⟩ := hab
        simp only [TriangleTraceStep, h1, h2, h3]
      rw [List.foldl_cons, List.foldl_cons, hstep]
      exact ih l2 htl _

/-- The hit flag of `TriangleTrace` does not depend on the out-parameters passed in. -/
theorem TriangleTrace_flag_indep (cmds : List (RenderCommand F)) (inRay : PathTracingRay F)
    (p1 p2 : PathTracePayload F) (c1 c2 : Vec3 F) :
    (TriangleTrace cmds inRay p1 c1).1 = (TriangleTrace cmds inRay p2 c2).1 := by
  have h1 := TriangleTrace_fold_flag inRay cmds (false, p1, c1)
  have h2 := TriangleTrace_fold_flag inRay cmds (false, p2, c2)
  have h3 : (TriangleTrace cmds inRay p1 c1).1 = true ↔ (TriangleTrace cmds inRay p2 c2).1 = true := by
    unfold TriangleTrace
    rw [h1, h2]
  cases ha : (TriangleTrace cmds inRay p1 c1).1 <;>
    cases hb : (TriangleTrace cmds inRay p2 c2).1 <;> simp_all

/-- Visibility of a sample is the same for command lists with equal geometry. -/
theorem SampleVisible_geometry (cfg : SHSetup F) (l1 l2 : List (RenderCommand F))
    (h : l1.map RenderCommand.geometry = l2.map RenderCommand.geometry)
    (vert : Vertex F) (s : Nat) :
    SampleVisible cfg l1 vert s ↔ SampleVisible cfg l2 vert s := by
  unfold SampleVisible TriangleTrace
  rw [TriangleTrace_geometry _ l1 l2 h]

theorem Vec3.add_splat_zero (a : Vec3 F) : Vec3.add a (Vec3.splat 0) = a := by
  cases a
  simp [Vec3.add, Vec3.splat]

theorem Vec3.add_splat_scale (a : Vec3 F) (x c : F) :
    Vec3.add (Vec3.add a (Vec3.splat x)) (Vec3.scale ⟨1, 1, 1⟩ c)
      = Vec3.add a (Vec3.splat (x + c)) := by
  cases a
  simp only [Vec3.add, Vec3.splat, Vec3.scale, Vec3.mk.injEq]
  refine ⟨by ring, by ring, by ring⟩

theorem visibleSum_succ (cfg : SHSetup F) (cmds : List (RenderCommand F))
    (vert : Vertex F) (i k : Nat) :
    visibleSum cfg cmds vert i (k + 1)
      = if SampleVisible cfg cmds vert k then
          visibleSum cfg cmds vert i k + (cfg.samples k).Coeffs i
        else visibleSum cfg cmds vert i k := by
  unfold visibleSum
  rw [Finset.range_succ, Finset.filter_insert]
  by_cases hv : SampleVisible cfg cmds vert k
  · rw [if_pos hv, if_pos hv, Finset.sum_insert (by simp), add_comm]
  · rw [if_neg hv, if_neg hv]

theorem coneSum_succ (cfg : SHSetup F) (n k : Nat) :
    coneSum cfg n (k + 1)
      = if (cfg.samples k).Theta < cfg.PI / 6 then coneSum cfg n k + (cfg.samples k).Coeffs n
        else coneSum cfg n k := by
  unfold coneSum
  rw [Finset.range_succ, Finset.filter_insert]
  by_cases hv : (cfg.samples k).Theta < cfg.PI / 6
  · rw [if_pos hv, if_pos hv, Finset.sum_insert (by simp), add_comm]
  · rw [if_neg hv, if_neg hv]

/-- The coefficient loop for one sample, on a buffer that holds the block of `v`. -/
theorem addSample_spec (cfg : SHSetup F) (v s : Nat) (b : Buffer (Vec3 F))
    (h : v * cfg.SH_COEFFICIENT_COUNT + cfg.SH_COEFFICIENT_COUNT ≤ b.size) :
    ∃ b2, addSample cfg v s b = some b2 ∧ b2.size = b.size ∧
      ∀ idx, b2.data idx
        = if v * cfg.SH_COEFFICIENT_COUNT ≤ idx ∧
              idx < v * cfg.SH_COEFFICIENT_COUNT + cfg.SH_COEFFICIENT_COUNT then
            Vec3.add (b.data idx)
              (Vec3.scale ⟨1, 1, 1⟩
                ((cfg.samples s).Coeffs (idx - v * cfg.SH_COEFFICIENT_COUNT)))
          else b.data idx :=
  forRange_modify_block cfg.SH_COEFFICIENT_COUNT (v * cfg.SH_COEFFICIENT_COUNT)
    (fun i a => Vec3.add a (Vec3.scale ⟨1, 1, 1⟩ ((cfg.samples s).Coeffs i))) b h

/-- The normalisation loop, on a buffer that holds the block of `v`. -/
theorem normalizeVertex_spec (cfg : SHSetup F) (v : Nat) (b : Buffer (Vec3 F))
    (h : v * cfg.SH_COEFFICIENT_COUNT + cfg.SH_COEFFICIENT_COUNT ≤ b.size) :
    ∃ b2, normalizeVertex cfg v b = some b2 ∧ b2.size = b.size ∧
      ∀ idx, b2.data idx
        = if v * cfg.SH_COEFFICIENT_COUNT ≤ idx ∧
              idx < v * cfg.SH_COEFFICIENT_COUNT + cfg.SH_COEFFICIENT_COUNT then
            Vec3.scale (b.data idx) (4 * cfg.PI / (cfg.SH_TOTAL_SAMPLE_COUNT : F))
          else b.data idx :=
  forRange_modify_block cfg.SH_COEFFICIENT_COUNT (v * cfg.SH_COEFFICIENT_COUNT)
    (fun _ a => Vec3.scale a (4 * cfg.PI / (cfg.SH_TOTAL_SAMPLE_COUNT : F))) b h

/-- The loop over the samples for vertex `v`: every coefficient of the vertex receives
the sum of the basis values of the visible samples; nothing else changes. -/
theorem transferSamples_spec (cfg : SHSetup F) (cmds : List (RenderCommand F))
    (vert : Vertex F) (v : Nat) (st : Buffer (Vec3 F) × PathTracePayload F × Vec3 F)
    (h : v * cfg.SH_COEFFICIENT_COUNT + cfg.SH_COEFFICIENT_COUNT ≤ st.1.size) :
    ∃ st2, forRange (transferSample cfg cmds vert v) cfg.SH_TOTAL_SAMPLE_COUNT st = some st2 ∧
      st2.1.size = st.1.size ∧
      ∀ idx, st2.1.data idx
        = if v * cfg.SH_COEFFICIENT_COUNT ≤ idx ∧
              idx < v * cfg.SH_COEFFICIENT_COUNT + cfg.SH_COEFFICIENT_COUNT then
            Vec3.add (st.1.data idx)
              (Vec3.splat (visibleSum cfg cmds vert (idx - v * cfg.SH_COEFFICIENT_COUNT)
                cfg.SH_TOTAL_SAMPLE_COUNT))
          else st.1.data idx := by
  apply forRange_inv (transferSample cfg cmds vert v)
    (fun k st2 => st2.1.size = st.1.size ∧
      ∀ idx, st2.1.data idx
        = if v * cfg.SH_COEFFICIENT_COUNT ≤ idx ∧
              idx < v * cfg.SH_COEFFICIENT_COUNT + cfg.SH_COEFFICIENT_COUNT then
            Vec3.add (st.1.data idx)
              (Vec3.splat (visibleSum cfg cmds vert (idx - v * cfg.SH_COEFFICIENT_COUNT) k))
          else st.1.data idx)
  · refine ⟨rfl, fun idx => ?_⟩
    split_ifs
    · simp [visibleSum, Vec3.add_splat_zero]
    · rfl
  · intro k _ s ⟨hsz, hdata⟩
    by_cases hvis : SampleVisible cfg cmds vert k
    · have hdot : 0 ≤ Vec3.dot vert.Normal (cfg.samples k).Direction := hvis.1
      have hflag : (TriangleTrace cmds (transferRay cfg vert k) s.2.1 s.2.2).1 = false := by
        rw [TriangleTrace_flag_indep cmds _ s.2.1 (PathTracePayload.default F) s.2.2 ⟨0, 0, 0⟩]
        exact hvis.2
      obtain ⟨b2, hb2, hb2sz, hb2data⟩ := addSample_spec cfg v k s.1 (by rw [hsz]; exact h)
      refine ⟨(b2, (TriangleTrace cmds (transferRay cfg vert k) s.2.1 s.2.2).2.1,
        (TriangleTrace cmds (transferRay cfg vert k) s.2.1 s.2.2).2.2), ?_, ?_, ?_⟩
      · simp only [transferSample, hdot, hflag, hb2, if_true]
      · exact hb2sz.trans hsz
      · intro idx
        show b2.data idx = _
        rw [hb2data idx, hdata idx]
        split_ifs
        · rw [visibleSum_succ, if_pos hvis, Vec3.add_splat_scale]
        · rfl
    · by_cases hdot : 0 ≤ Vec3.dot vert.Normal (cfg.samples k).Direction
      · have hflag : (TriangleTrace cmds (transferRay cfg vert k) s.2.1 s.2.2).1 = true := by
          rw [TriangleTrace_flag_indep cmds _ s.2.1 (PathTracePayload.default F) s.2.2
            ⟨0, 0, 0⟩]
          cases hb : (TriangleTrace cmds (transferRay cfg vert k)
            (PathTracePayload.default F) ⟨0, 0, 0⟩).1
          · exact absurd ⟨hdot, hb⟩ hvis
          · rfl
        refine ⟨(s.1, (TriangleTrace cmds (transferRay cfg vert k) s.2.1 s.2.2).2.1,
          (TriangleTrace cmds (transferRay cfg vert k) s.2.1 s.2.2).2.2), ?_, hsz, ?_⟩
        · simp [transferSample, hdot, hflag]
        · intro idx
          show s.1.data idx = _
          rw [hdata idx, visibleSum_succ, if_neg hvis]
      · refine ⟨s, ?_, hsz, ?_⟩
        · simp [transferSample, hdot]
        · intro idx
          rw [hdata idx, visibleSum_succ, if_neg hvis]

/-- The body of the vertex loop for vertex `v`: its coefficients receive the sum over
the visible samples and are then scaled; nothing else changes. -/
theorem transferVertex_spec (cfg : SHSetup F) (cmds : List (RenderCommand F))
    (Vertices : List (Vertex F)) (v : Nat) (vert : Vertex F)
    (st : Buffer (Vec3 F) × PathTracePayload F × Vec3 F)
    (hv : Vertices[v]? = some vert)
    (h : v * cfg.SH_COEFFICIENT_COUNT + cfg.SH_COEFFICIENT_COUNT ≤ st.1.size) :
    ∃ st2, transferVertex cfg cmds Vertices v st = some st2 ∧
      st2.1.size = st.1.size ∧
      ∀ idx, st2.1.data idx
        = if v * cfg.SH_COEFFICIENT_COUNT ≤ idx ∧
              idx < v * cfg.SH_COEFFICIENT_COUNT + cfg.SH_COEFFICIENT_COUNT then
            Vec3.scale
              (Vec3.add (st.1.data idx)
                (Vec3.splat (visibleSum cfg cmds vert (idx - v * cfg.SH_COEFFICIENT_COUNT)
                  cfg.SH_TOTAL_SAMPLE_COUNT)))
              (4 * cfg.PI / (cfg.SH_TOTAL_SAMPLE_COUNT : F))
          else st.1.data idx := by
  obtain ⟨s1, hs1, hs1sz, hs1data⟩ := transferSamples_spec cfg cmds vert v st h
  obtain ⟨b2, hb2, hb2sz, hb2data⟩ := normalizeVertex_spec cfg v s1.1 (by rw [hs1sz]; exact h)
  refine ⟨(b2, s1.2), ?_, hb2sz.trans hs1sz, ?_⟩
  · simp only [transferVertex, hv, hs1, hb2]
  · intro idx
    show b2.data idx = _
    rw [hb2data idx, hs1data idx]
    split_ifs <;> rfl

/-- The loop over the vertices of a command whose transfer buffer has
`Vertices.size() * SH_COEFFICIENT_COUNT` slots. -/
theorem transferVertices_spec (cfg : SHSetup F) (cmds : List (RenderCommand F))
    (Vertices : List (Vertex F)) (st : Buffer (Vec3 F) × PathTracePayload F × Vec3 F)
    (hsize : st.1.size = Vertices.length * cfg.SH_COEFFICIENT_COUNT) :
    ∃ st2, forRange (transferVertex cfg cmds Vertices) Vertices.length st = some st2 ∧
      st2.1.size = st.1.size ∧
      ∀ v vert, Vertices[v]? = some vert → ∀ i, i < cfg.SH_COEFFICIENT_COUNT →
        st2.1.data (v * cfg.SH_COEFFICIENT_COUNT + i)
          = Vec3.scale
              (Vec3.add (st.1.data (v * cfg.SH_COEFFICIENT_COUNT + i))
                (Vec3.splat (visibleSum cfg cmds vert i cfg.SH_TOTAL_SAMPLE_COUNT)))
              (4 * cfg.PI / (cfg.SH_TOTAL_SAMPLE_COUNT : F)) := by
  have key := forRange_inv (transferVertex cfg cmds Vertices)
    (fun k st2 => st2.1.size = st.1.size ∧
      ∀ v vert, Vertices[v]? = some vert → ∀ i, i < cfg.SH_COEFFICIENT_COUNT →
        st2.1.data (v * cfg.SH_COEFFICIENT_COUNT + i)
          = if v < k then
              Vec3.scale
                (Vec3.add (st.1.data (v * cfg.SH_COEFFICIENT_COUNT + i))
                  (Vec3.splat (visibleSum cfg cmds vert i cfg.SH_TOTAL_SAMPLE_COUNT)))
                (4 * cfg.PI / (cfg.SH_TOTAL_SAMPLE_COUNT : F))
            else st.1.data (v * cfg.SH_COEFFICIENT_COUNT + i))
    Vertices.length st
    (by
      refine ⟨rfl, fun v vert _ i _ => ?_⟩
      rw [if_neg (Nat.not_lt_zero v)])
    (by
      intro k hk s ⟨hsz, hdata⟩
      have hvk : Vertices[k]? = some Vertices[k] := List.getElem?_eq_getElem hk
      have hblock : k * cfg.SH_COEFFICIENT_COUNT + cfg.SH_COEFFICIENT_COUNT ≤ s.1.size := by
        rw [hsz, hsize, ← Nat.succ_mul]
        exact Nat.mul_le_mul_right _ hk
      obtain ⟨s2, hs2, hs2sz, hs2data⟩ :=
        transferVertex_spec cfg cmds Vertices k Vertices[k] s hvk hblock
      refine ⟨s2, hs2, hs2sz.trans hsz, ?_⟩
      intro v vert hv i hi
      rw [hs2data]
      rcases Nat.lt_trichotomy v k with hlt | heq | hgt
      · have h1 : (v + 1) * cfg.SH_COEFFICIENT_COUNT ≤ k * cfg.SH_COEFFICIENT_COUNT :=
          Nat.mul_le_mul_right _ hlt
        rw [Nat.succ_mul] at h1
        have hout : ¬ (k * cfg.SH_COEFFICIENT_COUNT ≤ v * cfg.SH_COEFFICIENT_COUNT + i ∧
            v * cfg.SH_COEFFICIENT_COUNT + i
              < k * cfg.SH_COEFFICIENT_COUNT + cfg.SH_COEFFICIENT_COUNT) := by omega
        rw [if_neg hout, hdata v vert hv i hi, if_pos hlt, if_pos (Nat.lt_succ_of_lt hlt)]
      · subst heq
        have hin : v * cfg.SH_COEFFICIENT_COUNT ≤ v * cfg.SH_COEFFICIENT_COUNT + i ∧
            v * cfg.SH_COEFFICIENT_COUNT + i
              < v * cfg.SH_COEFFICIENT_COUNT + cfg.SH_COEFFICIENT_COUNT := by omega
        have hsub : v * cfg.SH_COEFFICIENT_COUNT + i - v * cfg.SH_COEFFICIENT_COUNT = i := by
          omega
        have hvert : Vertices[v] = vert := by
          rw [hvk] at hv
          exact Option.some.inj hv
        rw [if_pos hin, hdata v vert hv i hi, if_neg (Nat.lt_irrefl v),
          if_pos (Nat.lt_succ_self v), hsub, hvert]
      · have h1 : (k + 1) * cfg.SH_COEFFICIENT_COUNT ≤ v * cfg.SH_COEFFICIENT_COUNT :=
          Nat.mul_le_mul_right _ hgt
        rw [Nat.succ_mul] at h1
        have hout : ¬ (k * cfg.SH_COEFFICIENT_COUNT ≤ v * cfg.SH_COEFFICIENT_COUNT + i ∧
            v * cfg.SH_COEFFICIENT_COUNT + i
              < k * cfg.SH_COEFFICIENT_COUNT + cfg.SH_COEFFICIENT_COUNT) := by omega
        have hn1 : ¬ v < k := by omega
        have hn2 : ¬ v < k + 1 := by omega
        rw [if_neg hout, hdata v vert hv i hi, if_neg hn1, if_neg hn2])
  obtain ⟨st2, hst2, hsz, hdata⟩ := key
  refine ⟨st2, hst2, hsz, ?_⟩
  intro v vert hv i hi
  have hlt : v < Vertices.length := by
    by_contra hge
    rw [List.getElem?_eq_none (by omega)] at hv
    exact Option.noConfusion hv
  rw [hdata v vert hv i hi, if_pos hlt]

theorem visibleSum_geometry (cfg : SHSetup F) (l1 l2 : List (RenderCommand F))
    (h : l1.map RenderCommand.geometry = l2.map RenderCommand.geometry)
    (vert : Vertex F) (i k : Nat) :
    visibleSum cfg l1 vert i k = visibleSum cfg l2 vert i k := by
  unfold visibleSum
  congr 1
  apply Finset.filter_congr
  intro s _
  exact SampleVisible_geometry cfg l1 l2 h vert s

/-- The body of the second loop of `InitGI` for one command with a buffer of the right
size. -/
theorem transferCommand_spec (cfg : SHSetup F) (color0 : Vec3 F)
    (cmds : List (RenderCommand F)) (c : RenderCommand F)
    (hsize : c.TransferCoeffs.size = c.Vertices.length * cfg.SH_COEFFICIENT_COUNT) :
    ∃ c2, transferCommand cfg color0 cmds c = some c2 ∧ TransferredFrom cfg cmds c c2 := by
  obtain ⟨st2, hst2, hsz, hdata⟩ := transferVertices_spec cfg cmds c.Vertices
    (c.TransferCoeffs, PathTracePayload.default F, color0) hsize
  refine ⟨{ c with TransferCoeffs := st2.1 }, ?_, rfl, rfl, rfl, hsz, hdata⟩
  simp only [transferCommand, hst2]

/-- The second loop of `InitGI` on commands whose buffers have the right size. -/
theorem transferCommands_spec (cfg : SHSetup F) (color0 : Vec3 F)
    (ref : List (RenderCommand F)) :
    ∀ (todo done : List (RenderCommand F)),
      (done ++ todo).map RenderCommand.geometry = ref.map RenderCommand.geometry →
      (∀ c ∈ todo, c.TransferCoeffs.size = c.Vertices.length * cfg.SH_COEFFICIENT_COUNT) →
      ∃ out2, transferCommands cfg color0 done todo = some (done ++ out2) ∧
        List.Forall₂ (TransferredFrom cfg ref) todo out2 := by
  intro todo
  induction todo with
  | nil =>
    intro done _ _
    exact ⟨[], by simp [transferCommands], List.Forall₂.nil⟩
  | cons c rest ih =>
    intro done hgeo hsz
    obtain ⟨c2, hc2, hT⟩ := transferCommand_spec cfg color0 (done ++ c :: rest) c
      (hsz c (List.mem_cons_self c rest))
    obtain ⟨hpar, hg, hvs, hsize, hdata⟩ := hT
    have hgeo2 : ((done ++ [c2]) ++ rest).map RenderCommand.geometry
        = ref.map RenderCommand.geometry := by
      rw [← hgeo]
      simp [hg]
    obtain ⟨out2, hout2, hF⟩ := ih (done ++ [c2]) hgeo2
      (fun d hd => hsz d (List.mem_cons_of_mem c hd))
    refine ⟨c2 :: out2, ?_, List.Forall₂.cons ⟨hpar, hg, hvs, hsize, ?_⟩ hF⟩
    · rw [transferCommands, hc2]
      simp only [hout2, List.append_assoc, List.singleton_append]
    · intro v vert hv i hi
      rw [hdata v vert hv i hi, visibleSum_geometry cfg _ ref hgeo]

/-- The first loop of `InitGI` on a scene whose commands with triangles have live
owners. -/
theorem prepareCommands_spec (eng : Engine F) (cfg : SHSetup F) :
    ∀ cmds : List (RenderCommand F),
      (∀ c ∈ cmds, c.Triangles ≠ [] → c.Parent ≠ none) →
      ∃ prepared, prepareCommands eng cfg cmds = some prepared ∧
        List.Forall₂ (PreparedFrom cfg) cmds prepared := by
  intro cmds
  induction cmds with
  | nil => intro _; exact ⟨[], rfl, List.Forall₂.nil⟩
  | cons a l ih =>
    intro hown
    obtain ⟨cs, hcs, hF⟩ := ih (fun c hc => hown c (List.mem_cons_of_mem a hc))
    have ha := hown a (List.mem_cons_self a l)
    by_cases he : a.Triangles.length = 0
    · have hnil : a.Triangles = [] := List.length_eq_zero.mp he
      refine ⟨a :: cs, by simp [prepareCommands, prepareCommand, he, hcs],
        List.Forall₂.cons ⟨rfl, rfl, fun h => absurd hnil h, fun _ => rfl⟩ hF⟩
    · have hne : a.Triangles ≠ [] := fun h0 => he (by simp [h0])
      cases hp : a.Parent with
      | none => exact absurd hp (ha hne)
      | some parent =>
        refine ⟨{ a with
            AccStructure :=
              if a.AccStructure.Valid = false then eng.Build a.AccStructure a.Triangles
              else a.AccStructure
            TransferCoeffs :=
              ⟨a.Vertices.length * cfg.SH_COEFFICIENT_COUNT, fun _ => ⟨0, 0, 0⟩⟩ } :: cs,
          ?_, List.Forall₂.cons ⟨rfl, rfl, fun _ => ⟨rfl, fun _ => rfl⟩,
            fun h => absurd h hne⟩ hF⟩
        simp only [prepareCommands, prepareCommand, he, hp, hcs, if_false, Buffer.resize]

theorem forall₂_mem_right {α β : Type} {R : α → β → Prop} :
    ∀ (l1 : List α) (l2 : List β), List.Forall₂ R l1 l2 →
      ∀ b ∈ l2, ∃ a ∈ l1, R a b := by
  intro l1 l2 h
  induction h with
  | nil => intro b hb; simp at hb
  | cons hab _ ih =>
    intro b hb
    rcases List.mem_cons.mp hb with rfl | hb
    · exact ⟨_, List.mem_cons_self _ _, hab⟩
    · obtain ⟨a, ha, hR⟩ := ih b hb
      exact ⟨a, List.mem_cons_of_mem _ ha, hR⟩

theorem TransferredFrom_geometry (cfg : SHSetup F) (ref : List (RenderCommand F)) :
    ∀ (l1 l2 : List (RenderCommand F)), List.Forall₂ (TransferredFrom cfg ref) l1 l2 →
      l2.map RenderCommand.geometry = l1.map RenderCommand.geometry := by
  intro l1 l2 h
  induction h with
  | nil => rfl
  | cons hab _ ih => simp only [List.map_cons, ih, hab.2.1]

/-- The loop over the coefficients for one sample of the light projection. -/
theorem lightSample_spec (cfg : SHSetup F) (s : Nat) (b : Buffer (Vec4 F))
    (h : cfg.SH_COEFFICIENT_COUNT ≤ b.size) :
    ∃ b2, lightSample cfg s b = some b2 ∧ b2.size = b.size ∧
      ∀ n, n < cfg.SH_COEFFICIENT_COUNT → b2.data n
        = Vec4.add (b.data n)
            ⟨(Vec3.scale (if (cfg.samples s).Theta < cfg.PI / 6 then ⟨1, 1, 1⟩ else ⟨0, 0, 0⟩)
                ((cfg.samples s).Coeffs n)).x,
             (Vec3.scale (if (cfg.samples s).Theta < cfg.PI / 6 then ⟨1, 1, 1⟩ else ⟨0, 0, 0⟩)
                ((cfg.samples s).Coeffs n)).y,
             (Vec3.scale (if (cfg.samples s).Theta < cfg.PI / 6 then ⟨1, 1, 1⟩ else ⟨0, 0, 0⟩)
                ((cfg.samples s).Coeffs n)).z, 1⟩ := by
  obtain ⟨b2, hb2, hsz, hdata⟩ := forRange_modify_block cfg.SH_COEFFICIENT_COUNT 0
    (fun n (a : Vec4 F) => Vec4.add a
      ⟨(Vec3.scale (if (cfg.samples s).Theta < cfg.PI / 6 then ⟨1, 1, 1⟩ else ⟨0, 0, 0⟩)
          ((cfg.samples s).Coeffs n)).x,
       (Vec3.scale (if (cfg.samples s).Theta < cfg.PI / 6 then ⟨1, 1, 1⟩ else ⟨0, 0, 0⟩)
          ((cfg.samples s).Coeffs n)).y,
       (Vec3.scale (if (cfg.samples s).Theta < cfg.PI / 6 then ⟨1, 1, 1⟩ else ⟨0, 0, 0⟩)
          ((cfg.samples s).Coeffs n)).z, 1⟩) b (by omega)
  simp only [Nat.zero_add] at hb2
  refine ⟨b2, hb2, hsz, fun n hn => ?_⟩
  rw [hdata n, if_pos ⟨Nat.zero_le n, by omega⟩, Nat.sub_zero]

theorem Vec4.add_cone (a : Vec4 F) (x c k : F) (sv : Vec3 F) (x2 : F)
    (hx : x2 = x + sv.x * c) (hy : x2 = x + sv.y * c) (hz : x2 = x + sv.z * c) :
    Vec4.add (Vec4.add a ⟨x, x, x, k⟩)
        ⟨(Vec3.scale sv c).x, (Vec3.scale sv c).y, (Vec3.scale sv c).z, 1⟩
      = Vec4.add a ⟨x2, x2, x2, k + 1⟩ := by
  cases a
  simp only [Vec4.add, Vec3.scale, Vec4.mk.injEq]
  refine ⟨by rw [hx]; ring, by rw [hy]; ring, by rw [hz]; ring, by ring⟩

/-- The light projection: it always returns; the vector has `SH_COEFFICIENT_COUNT`
entries, each the resized entry plus the cone sum in the colour channels and the
number of samples in the weight channel, times `4 * PI / SH_TOTAL_SAMPLE_COUNT`. -/
theorem lightProjection_spec (cfg : SHSetup F) (lightCoeffs : Buffer (Vec4 F)) :
    ∃ lc, lightProjection cfg lightCoeffs = some lc ∧ lc.size = cfg.SH_COEFFICIENT_COUNT ∧
      ∀ n, n < cfg.SH_COEFFICIENT_COUNT → lc.data n
        = Vec4.scale
            (Vec4.add
              ((Buffer.resize lightCoeffs cfg.SH_COEFFICIENT_COUNT ⟨0, 0, 0, 0⟩).data n)
              ⟨coneSum cfg n cfg.SH_TOTAL_SAMPLE_COUNT, coneSum cfg n cfg.SH_TOTAL_SAMPLE_COUNT,
               coneSum cfg n cfg.SH_TOTAL_SAMPLE_COUNT, (cfg.SH_TOTAL_SAMPLE_COUNT : F)⟩)
            (4 * cfg.PI / (cfg.SH_TOTAL_SAMPLE_COUNT : F)) := by
  obtain ⟨lc1, hlc1, hsz1, hdata1⟩ := forRange_inv (lightSample cfg)
    (fun k b2 => b2.size = cfg.SH_COEFFICIENT_COUNT ∧
      ∀ n, n < cfg.SH_COEFFICIENT_COUNT → b2.data n
        = Vec4.add
            ((Buffer.resize lightCoeffs cfg.SH_COEFFICIENT_COUNT ⟨0, 0, 0, 0⟩).data n)
            ⟨coneSum cfg n k, coneSum cfg n k, coneSum cfg n k, (k : F)⟩)
    cfg.SH_TOTAL_SAMPLE_COUNT (Buffer.resize lightCoeffs cfg.SH_COEFFICIENT_COUNT ⟨0, 0, 0, 0⟩)
    (by
      refine ⟨rfl, fun n _ => ?_⟩
      cases hd : (Buffer.resize lightCoeffs cfg.SH_COEFFICIENT_COUNT ⟨0, 0, 0, 0⟩).data n
      simp [coneSum, Vec4.add])
    (by
      intro k _ b ⟨hsz, hdata⟩
      obtain ⟨b2, hb2, hb2sz, hb2data⟩ := lightSample_spec cfg k b (by omega)
      refine ⟨b2, hb2, hb2sz.trans hsz, fun n hn => ?_⟩
      rw [hb2data n hn, hdata n hn, Nat.cast_succ]
      apply Vec4.add_cone <;>
        · rw [coneSum_succ]
          split_ifs <;> simp)
  obtain ⟨lc2, hlc2, hsz2, hdata2⟩ := forRange_modify_block cfg.SH_COEFFICIENT_COUNT 0
    (fun _ (a : Vec4 F) => Vec4.scale a (4 * cfg.PI / (cfg.SH_TOTAL_SAMPLE_COUNT : F))) lc1
    (by omega)
  simp only [Nat.zero_add] at hlc2
  refine ⟨lc2, ?_, hsz2.trans hsz1, fun n hn => ?_⟩
  · simp only [lightProjection, hlc1, hlc2]
  · rw [hdata2 n, if_pos ⟨Nat.zero_le n, by omega⟩, hdata1 n hn]

/-- `InitGI` returns on every scene in which each command with triangles has a live
owner and each command without triangles carries a transfer buffer of
`Vertices.size() * SH_COEFFICIENT_COUNT` slots; the commands it leaves are related to
the given ones through the two loops, and the light coefficients are those of
`lightProjection`. -/
theorem InitGI_spec (eng : Engine F) (cfg : SHSetup F) (color0 : Vec3 F)
    (cmds : List (RenderCommand F)) (lightCoeffs : Buffer (Vec4 F))
    (hown : ∀ c ∈ cmds, c.Triangles ≠ [] → c.Parent ≠ none)
    (hbuf : ∀ c ∈ cmds, c.Triangles = [] →
      c.TransferCoeffs.size = c.Vertices.length * cfg.SH_COEFFICIENT_COUNT) :
    ∃ prepared out lc, InitGI eng cfg color0 cmds lightCoeffs = some (out, lc) ∧
      List.Forall₂ (PreparedFrom cfg) cmds prepared ∧
      List.Forall₂ (TransferredFrom cfg out) prepared out ∧
      lightProjection cfg lightCoeffs = some lc := by
  obtain ⟨prepared, hprep, hP⟩ := prepareCommands_spec eng cfg cmds hown
  have hsize : ∀ c1 ∈ prepared,
      c1.TransferCoeffs.size = c1.Vertices.length * cfg.SH_COEFFICIENT_COUNT := by
    intro c1 hc1
    obtain ⟨c, hc, hv, _, hne, hnil⟩ := forall₂_mem_right cmds prepared hP c1 hc1
    by_cases he : c.Triangles = []
    · rw [hnil he]; exact hbuf c hc he
    · rw [hv]; exact (hne he).1
  obtain ⟨out, hout, hT⟩ := transferCommands_spec cfg color0 prepared prepared [] rfl hsize
  simp only [List.nil_append] at hout
  obtain ⟨lc, hlc, _, _⟩ := lightProjection_spec cfg lightCoeffs
  have hgeo := TransferredFrom_geometry cfg prepared prepared out hT
  refine ⟨prepared, out, lc, ?_, hP, ?_, hlc⟩
  · simp only [InitGI, hprep, hout, hlc]
  · refine List.Forall₂.imp ?_ hT
    intro c1 c2 ⟨h1, h2, h3, h4, h5⟩
    refine ⟨h1, h2, h3, h4, fun v vert hv i hi => ?_⟩
    rw [h5 v vert hv i hi, visibleSum_geometry cfg out prepared hgeo]

/-- SH transfer projection of the commands with triangles: what `InitGI` computes where
it completes.  On a scene on which `InitGI` completes (every command with triangles has
a live owner, every command without triangles a transfer buffer of
`Vertices.size() * SH_COEFFICIENT_COUNT` slots), `InitGI` returns and, for every command
with a non-empty triangle list, every vertex `v` and every basis index `i`, the three
components of `TransferCoeffs[v * SH_COEFFICIENT_COUNT + i]` all equal
`4 * PI / SH_TOTAL_SAMPLE_COUNT` times the sum of `samples[s].Coeffs[i]` over exactly
the samples `s` with `dot(normal, samples[s].Direction) >= 0` whose ray from
`position + 0.001 * normal` is not hit by `TriangleTrace`. -/
theorem InitGI_transfer_coefficients (eng : Engine F) (cfg : SHSetup F) (color0 : Vec3 F)
    (cmds : List (RenderCommand F)) (lightCoeffs : Buffer (Vec4 F))
    (hown : ∀ c ∈ cmds, c.Triangles ≠ [] → c.Parent ≠ none)
    (hbuf : ∀ c ∈ cmds, c.Triangles = [] →
      c.TransferCoeffs.size = c.Vertices.length * cfg.SH_COEFFICIENT_COUNT) :
    ∃ out, InitGI eng cfg color0 cmds lightCoeffs = some out ∧
      List.Forall₂
        (fun c c2 => c.Triangles ≠ [] →
          c2.Vertices = c.Vertices ∧
          c2.TransferCoeffs.size = c.Vertices.length * cfg.SH_COEFFICIENT_COUNT ∧
          ∀ v vert, c.Vertices[v]? = some vert → ∀ i, i < cfg.SH_COEFFICIENT_COUNT →
            c2.TransferCoeffs.data (v * cfg.SH_COEFFICIENT_COUNT + i)
              = ⟨transferValue cfg out.1 vert i, transferValue cfg out.1 vert i,
                 transferValue cfg out.1 vert i⟩)
        cmds out.1 := by
  obtain ⟨prepared, out, lc, hI, hP, hT, _⟩ :=
    InitGI_spec eng cfg color0 cmds lightCoeffs hown hbuf
  refine ⟨(out, lc), hI, ?_⟩
  refine forall₂_compose ?_ cmds prepared out hP hT
  intro c c1 c2 ⟨hv1, _, hne1, _⟩ ⟨_, _, hv2, hsz2, hdata2⟩ hne
  obtain ⟨hsz1, hzero⟩ := hne1 hne
  refine ⟨hv2.trans hv1, hsz2.trans hsz1, fun v vert hv i hi => ?_⟩
  rw [hdata2 v vert (by rw [hv1]; exact hv) i hi, hzero]
  simp only [Vec3.scale, Vec3.add, Vec3.splat, transferValue, visibleSum, zero_add,
    Vec3.mk.injEq]
  refine ⟨by ring, by ring, by ring⟩

theorem InitGI_transfer_coefficients_witness :
    ∃ out, InitGI exEngine exSH ⟨0, 0, 0⟩ [exMesh] (Buffer.empty ⟨0, 0, 0, 0⟩) = some out ∧
      List.Forall₂
        (fun c c2 => c.Triangles ≠ [] →
          c2.Vertices = c.Vertices ∧
          c2.TransferCoeffs.size = c.Vertices.length * exSH.SH_COEFFICIENT_COUNT ∧
          ∀ v vert, c.Vertices[v]? = some vert → ∀ i, i < exSH.SH_COEFFICIENT_COUNT →
            c2.TransferCoeffs.data (v * exSH.SH_COEFFICIENT_COUNT + i)
              = ⟨transferValue exSH out.1 vert i, transferValue exSH out.1 vert i,
                 transferValue exSH out.1 vert i⟩)
        [exMesh] out.1 :=
  InitGI_transfer_coefficients exEngine exSH ⟨0, 0, 0⟩ [exMesh] (Buffer.empty ⟨0, 0, 0, 0⟩)
    (by
      intro c hc _
      have hc2 : c = exMesh := by simpa using hc
      subst hc2
      simp [exMesh])
    (by
      intro c hc hnil
      have hc2 : c = exMesh := by simpa using hc
      subst hc2
      simp [exMesh] at hnil)

/-- C9 at its failing input.  A scene holds a command with one vertex, an empty
triangle list and the empty transfer buffer of a new command.  The only sample lies in
the upper hemisphere of the vertex and its ray is not hit, so the claimed value of
`TransferCoeffs[0 * SH_COEFFICIENT_COUNT + 0]` is `4 * PI / 1` times `1`, here `88 / 7`.
The first loop of `InitGI` passes the command by without sizing its buffer, which keeps
no slot; the second loop then writes `TransferCoeffs[0]` out of range and `InitGI` does
not complete: no coefficient is delivered, neither for this command nor for a mesh that
stands before it in `MainCommands`. -/
theorem InitGI_transfer_fails_without_triangles :
    (exBare (Buffer.empty ⟨0, 0, 0⟩)).Triangles = [] ∧
    (exBare (Buffer.empty ⟨0, 0, 0⟩)).Vertices = [exVertex] ∧
    SampleVisible exSH [exBare (Buffer.empty ⟨0, 0, 0⟩)] exVertex 0 ∧
    transferValue exSH [exBare (Buffer.empty ⟨0, 0, 0⟩)] exVertex 0 = 88 / 7 ∧
    prepareCommands exEngine exSH [exBare (Buffer.empty ⟨0, 0, 0⟩)]
        = some [exBare (Buffer.empty ⟨0, 0, 0⟩)] ∧
    ¬ (0 * exSH.SH_COEFFICIENT_COUNT + 0
        < (exBare (Buffer.empty ⟨0, 0, 0⟩)).TransferCoeffs.size) ∧
    transferCommands exSH ⟨0, 0, 0⟩ [exBare (Buffer.empty ⟨0, 0, 0⟩)]
        [exBare (Buffer.empty ⟨0, 0, 0⟩)] = none ∧
    InitGI exEngine exSH ⟨0, 0, 0⟩ [exBare (Buffer.empty ⟨0, 0, 0⟩)]
        (Buffer.empty ⟨0, 0, 0, 0⟩) = none ∧
    InitGI exEngine exSH ⟨0, 0, 0⟩ [exMesh, exBare (Buffer.empty ⟨0, 0, 0⟩)]
        (Buffer.empty ⟨0, 0, 0, 0⟩) = none := by
  refine ⟨rfl, rfl, ?_, ?_, ?_, ?_, ?_, ?_, ?_⟩
  · simp [SampleVisible, transferRay, exBare, exSH, exVertex, Vec3.dot, TriangleTrace,
      TriangleTraceStep]
  · simp [transferValue, Finset.sum_filter, Finset.sum_range_succ, SampleVisible,
      transferRay, exBare, exSH, exVertex, Vec3.dot, TriangleTrace, TriangleTraceStep]
    norm_num
  · simp [prepareCommands, prepareCommand, exBare]
  · simp [exBare, Buffer.empty]
  · simp [transferCommands, transferCommand, transferVertex, transferSample, addSample,
      forRange, Buffer.modifyAt, Buffer.empty, exBare, exSH, exVertex, Vec3.dot,
      TriangleTrace, TriangleTraceStep]
  · simp [InitGI, prepareCommands, prepareCommand, transferCommands, transferCommand,
      transferVertex, transferSample, addSample, forRange, Buffer.modifyAt, Buffer.empty,
      exBare, exSH, exVertex, Vec3.dot, TriangleTrace, TriangleTraceStep]
  · simp [InitGI, prepareCommands, prepareCommand, transferCommands, transferCommand,
      transferVertex, transferSample, addSample, normalizeVertex, forRange,
      Buffer.modifyAt, Buffer.empty, Buffer.resize, exMesh, exBare, exSH, exVertex,
      Vec3.dot, Vec3.add, Vec3.scale, TriangleTrace, TriangleTraceStep]

/-- C10 (SH light projection).  One run of `InitGI` that starts from an empty
`lightCoeffs` vector (new entries of `resize` are zero), with a positive sample count,
leaves `SH_COEFFICIENT_COUNT` entries; for every basis index `n` each colour component
of `lightCoeffs[n]` equals `4 * PI / SH_TOTAL_SAMPLE_COUNT` times the sum of
`samples[s].Coeffs[n]` over the samples with `Theta < PI / 6`, and the weight component
equals `4 * PI`.  (The scene is one on which `InitGI` completes.) -/
theorem InitGI_light_coefficients (eng : Engine F) (cfg : SHSetup F) (color0 : Vec3 F)
    (cmds : List (RenderCommand F)) (lightCoeffs : Buffer (Vec4 F))
    (hempty : lightCoeffs.size = 0)
    (hS : 0 < cfg.SH_TOTAL_SAMPLE_COUNT)
    (hown : ∀ c ∈ cmds, c.Triangles ≠ [] → c.Parent ≠ none)
    (hbuf : ∀ c ∈ cmds, c.Triangles = [] →
      c.TransferCoeffs.size = c.Vertices.length * cfg.SH_COEFFICIENT_COUNT) :
    ∃ out, InitGI eng cfg color0 cmds lightCoeffs = some out ∧
      out.2.size = cfg.SH_COEFFICIENT_COUNT ∧
      ∀ n, n < cfg.SH_COEFFICIENT_COUNT →
        out.2.data n = ⟨lightValue cfg n, lightValue cfg n, lightValue cfg n, 4 * cfg.PI⟩ := by
  obtain ⟨prepared, out, lc, hI, _, _, hlc⟩ :=
    InitGI_spec eng cfg color0 cmds lightCoeffs hown hbuf
  obtain ⟨lc2, hlc2, hsz, hdata⟩ := lightProjection_spec cfg lightCoeffs
  rw [hlc] at hlc2
  have hEq : lc = lc2 := Option.some.inj hlc2
  subst hEq
  refine ⟨(out, lc), hI, hsz, fun n hn => ?_⟩
  show lc.data n = _
  rw [hdata n hn]
  have hne : (cfg.SH_TOTAL_SAMPLE_COUNT : F) ≠ 0 := by
    exact_mod_cast Nat.pos_iff_ne_zero.mp hS
  simp only [Buffer.resize, hempty, Nat.not_lt_zero, if_false, Vec4.scale, Vec4.add,
    lightValue, coneSum, zero_add, Vec4.mk.injEq]
  refine ⟨by ring, by ring, by ring, ?_⟩
  field_simp

theorem InitGI_light_coefficients_witness :
    ∃ out, InitGI exEngine exSH ⟨0, 0, 0⟩ [exMesh] (Buffer.empty ⟨0, 0, 0, 0⟩) = some out ∧
      out.2.size = exSH.SH_COEFFICIENT_COUNT ∧
      ∀ n, n < exSH.SH_COEFFICIENT_COUNT →
        out.2.data n
          = ⟨lightValue exSH n, lightValue exSH n, lightValue exSH n, 4 * exSH.PI⟩ :=
  InitGI_light_coefficients exEngine exSH ⟨0, 0, 0⟩ [exMesh] (Buffer.empty ⟨0, 0, 0, 0⟩)
    rfl (by simp [exSH])
    (by
      intro c hc _
      simp only [List.mem_singleton] at hc
      subst hc
      simp [exMesh])
    (by
      intro c hc hnil
      simp only [List.mem_singleton] at hc
      subst hc
      simp [exMesh] at hnil)

end InitGITheorems

/-! ## Theorems: pixel packing -/

section PackingTheorems

variable {F : Type} [LinearOrderedField F] [FloorRing F]

/-- On a channel in `[0, 1]` the byte conversion is the floor of `255` times the
channel, at most `255`. -/
theorem toUInt8_of_unit (c : F) (h0 : 0 ≤ c) (h1 : c ≤ 1) :
    toUInt8 (c * 255) = Int.toNat ⌊c * 255⌋ ∧ Int.toNat ⌊c * 255⌋ ≤ 255 := by
  have hv0 : 0 ≤ c * 255 := by positivity
  have hv1 : c * 255 ≤ 255 := by nlinarith
  have hf0 : 0 ≤ ⌊c * 255⌋ := Int.floor_nonneg.mpr hv0
  have hf1 : ⌊c * 255⌋ ≤ 255 := by
    have h : ((⌊c * 255⌋ : Int) : F) ≤ ((255 : Int) : F) := by
      push_cast
      exact le_trans (Int.floor_le _) hv1
    exact Int.cast_le.mp h
  have hmod : ⌊c * 255⌋ % 256 = ⌊c * 255⌋ := Int.emod_eq_of_lt hf0 (by omega)
  unfold toUInt8
  rw [if_pos hv0, hmod]
  exact ⟨rfl, by omega⟩

/-- Four bytes combined by shifts and bitwise or add up without carries. -/
theorem pack_bytes (r g b a : Nat) (hr : r ≤ 255) (hg : g ≤ 255) (hb : b ≤ 255) :
    (a <<< 24) ||| (b <<< 16) ||| (g <<< 8) ||| r
      = r + 256 * g + 65536 * b + 16777216 * a := by
  have h1 : g <<< 8 ||| r = 2 ^ 8 * g + r := by
    rw [Nat.shiftLeft_eq, Nat.mul_comm]
    exact (Nat.mul_add_lt_is_or (by norm_num; omega) g).symm
  have h2 : b <<< 16 ||| (2 ^ 8 * g + r) = 2 ^ 16 * b + (2 ^ 8 * g + r) := by
    rw [Nat.shiftLeft_eq, Nat.mul_comm]
    exact (Nat.mul_add_lt_is_or (by norm_num; omega) b).symm
  have h3 : a <<< 24 ||| (2 ^ 16 * b + (2 ^ 8 * g + r))
      = 2 ^ 24 * a + (2 ^ 16 * b + (2 ^ 8 * g + r)) := by
    rw [Nat.shiftLeft_eq, Nat.mul_comm]
    exact (Nat.mul_add_lt_is_or (by norm_num; omega) a).symm
  rw [Nat.or_assoc, Nat.or_assoc, h1, h2, h3]
  norm_num
  omega

theorem and_255 (x : Nat) : x &&& 255 = x % 256 := by
  have h := Nat.and_pow_two_sub_one_eq_mod x 8
  norm_num at h
  exact h

/-- C20 (RGBA8 packing).  For a colour with all four channels in `[0, 1]`,
`ConvertToRGBA` returns `r + 256 * g + 65536 * b + 16777216 * a`, where `r`, `g`, `b`,
`a` are the floors of `255` times the channels, each at most `255`; the word is below
`2 ^ 32`; each byte is recovered by shifting and masking with `0xFF`; and the channel
values `0` and `1` give the bytes `0` and `255`. -/
theorem ConvertToRGBA_packing (color : Vec4 F)
    (hx0 : 0 ≤ color.x) (hx1 : color.x ≤ 1) (hy0 : 0 ≤ color.y) (hy1 : color.y ≤ 1)
    (hz0 : 0 ≤ color.z) (hz1 : color.z ≤ 1) (hw0 : 0 ≤ color.w) (hw1 : color.w ≤ 1) :
    ConvertToRGBA color
        = Int.toNat ⌊color.x * 255⌋ + 256 * Int.toNat ⌊color.y * 255⌋
          + 65536 * Int.toNat ⌊color.z * 255⌋ + 16777216 * Int.toNat ⌊color.w * 255⌋ ∧
    (Int.toNat ⌊color.x * 255⌋ ≤ 255 ∧ Int.toNat ⌊color.y * 255⌋ ≤ 255 ∧
      Int.toNat ⌊color.z * 255⌋ ≤ 255 ∧ Int.toNat ⌊color.w * 255⌋ ≤ 255) ∧
    ConvertToRGBA color < 2 ^ 32 ∧
    ConvertToRGBA color &&& 255 = Int.toNat ⌊color.x * 255⌋ ∧
    (ConvertToRGBA color >>> 8) &&& 255 = Int.toNat ⌊color.y * 255⌋ ∧
    (ConvertToRGBA color >>> 16) &&& 255 = Int.toNat ⌊color.z * 255⌋ ∧
    (ConvertToRGBA color >>> 24) &&& 255 = Int.toNat ⌊color.w * 255⌋ ∧
    toUInt8 ((0 : F) * 255) = 0 ∧ toUInt8 ((1 : F) * 255) = 255 := by
  obtain ⟨hr, hr2⟩ := toUInt8_of_unit color.x hx0 hx1
  obtain ⟨hg, hg2⟩ := toUInt8_of_unit color.y hy0 hy1
  obtain ⟨hb, hb2⟩ := toUInt8_of_unit color.z hz0 hz1
  obtain ⟨ha, ha2⟩ := toUInt8_of_unit color.w hw0 hw1
  have hword : ConvertToRGBA color
      = Int.toNat ⌊color.x * 255⌋ + 256 * Int.toNat ⌊color.y * 255⌋
        + 65536 * Int.toNat ⌊color.z * 255⌋ + 16777216 * Int.toNat ⌊color.w * 255⌋ := by
    unfold ConvertToRGBA
    simp only [hr, hg, hb, ha]
    exact pack_bytes _ _ _ _ hr2 hg2 hb2
  have h0 : toUInt8 ((0 : F) * 255) = 0 := by
    rw [(toUInt8_of_unit (0 : F) (le_refl 0) zero_le_one).1]
    simp
  have h1 : toUInt8 ((1 : F) * 255) = 255 := by
    rw [(toUInt8_of_unit (1 : F) zero_le_one (le_refl 1)).1]
    have : ⌊((1 : F) * 255)⌋ = 255 := by
      rw [one_mul]
      exact Int.floor_ofNat 255
    rw [this]
    rfl
  refine ⟨hword, ⟨hr2, hg2, hb2, ha2⟩, ?_, ?_, ?_, ?_, ?_, h0, h1⟩
  · rw [hword]; norm_num; omega
  · rw [and_255, hword]; omega
  · rw [and_255, Nat.shiftRight_eq_div_pow, hword]; norm_num; omega
  · rw [and_255, Nat.shiftRight_eq_div_pow, hword]; norm_num; omega
  · rw [and_255, Nat.shiftRight_eq_div_pow, hword]; norm_num; omega

theorem ConvertToRGBA_packing_witness :
    ConvertToRGBA (⟨1, 1 / 2, 0, 1⟩ : Vec4 ℚ)
        = Int.toNat ⌊(1 : ℚ) * 255⌋ + 256 * Int.toNat ⌊(1 / 2 : ℚ) * 255⌋
          + 65536 * Int.toNat ⌊(0 : ℚ) * 255⌋ + 16777216 * Int.toNat ⌊(1 : ℚ) * 255⌋ :=
  (ConvertToRGBA_packing (⟨1, 1 / 2, 0, 1⟩ : Vec4 ℚ) (by norm_num) (by norm_num)
    (by norm_num) (by norm_num) (by norm_num) (by norm_num) (by norm_num) (by norm_num)).1

end PackingTheorems

/-! ## Theorems: pixel slots -/

section SlotTheorems

end SlotTheorems

section PixelTaskTheorems

variable {F : Type} [LinearOrderedField F] [FloorRing F]

end PixelTaskTheorems

/-! ## Theorems: scatter direction and next ray -/

section ScatterTheorems

variable {F : Type} [LinearOrderedField F]

/-- A point accepted by the rejection loop has squared length below `1`. -/
theorem random_in_unit_sphere_accepted : ∀ (fuel : Nat) (g g2 : Rng F) (p : Vec3 F),
    random_in_unit_sphere fuel g = some (p, g2) → Vec3.lengthSquared p < 1 := by
  intro fuel
  induction fuel with
  | zero => intro g g2 p h; simp [random_in_unit_sphere] at h
  | succ fuel ih =>
    intro g g2 p h
    rw [random_in_unit_sphere] at h
    by_cases hlt : Vec3.lengthSquared (randomVec3 (-1) 1 g).1 < 1
    · simp only [hlt, if_true, Option.some.injEq] at h
      rw [h] at hlt
      exact hlt
    · simp only [hlt, if_false] at h
      exact ih _ g2 p h

/-- C17 (scatter direction), as amended.  When the rejection loop accepts the point
`p`, whose squared length is below `1`, the direction sampled for the next bounce,
before the near-zero fallback, is the hit normal plus the normalised point:
`normal + p * inversesqrt(dot(p, p))`. -/
theorem scatterDirection_normalized (lib : MathLib F) (fuel : Nat) (normal : Vec3 F)
    (g g2 : Rng F) (p : Vec3 F) (h : random_in_unit_sphere fuel g = some (p, g2)) :
    scatterDirection lib fuel normal g
        = some (Vec3.add normal (Vec3.scale p (lib.inversesqrt (Vec3.dot p p))), g2) ∧
    Vec3.lengthSquared p < 1 := by
  refine ⟨?_, random_in_unit_sphere_accepted fuel g g2 p h⟩
  simp [scatterDirection, random_unit_vector, h, Vec3.normalize]

theorem exRngHalf_accepts :
    random_in_unit_sphere 1 exRngHalf
      = some (⟨0, 0, 1 / 2⟩, ⟨fun k => if k = 2 then 3 / 4 else 1 / 2, 3⟩) := by
  simp [random_in_unit_sphere, randomVec3, random_float_range, random_float,
    Vec3.lengthSquared, Vec3.dot, exRngHalf]
  norm_num

theorem scatterDirection_normalized_witness :
    scatterDirection exLibHalf 1 ⟨0, 0, 1⟩ exRngHalf
        = some (Vec3.add ⟨0, 0, 1⟩
            (Vec3.scale ⟨0, 0, 1 / 2⟩
              (exLibHalf.inversesqrt (Vec3.dot (⟨0, 0, 1 / 2⟩ : Vec3 ℚ) ⟨0, 0, 1 / 2⟩))),
          ⟨fun k => if k = 2 then 3 / 4 else 1 / 2, 3⟩) ∧
    Vec3.lengthSquared (⟨0, 0, 1 / 2⟩ : Vec3 ℚ) < 1 :=
  scatterDirection_normalized exLibHalf 1 ⟨0, 0, 1⟩ exRngHalf _ ⟨0, 0, 1 / 2⟩
    exRngHalf_accepts

/-- C17 as stated fails: with the normal `(0, 0, 1)` and the accepted point
`p = (0, 0, 1/2)`, whose normalisation is `(0, 0, 1)`, the sampled direction is
`(0, 0, 2)`, not `normal + p = (0, 0, 3/2)`. -/
theorem scatterDirection_counterexample :
    random_in_unit_sphere 1 exRngHalf
        = some (⟨0, 0, 1 / 2⟩, ⟨fun k => if k = 2 then 3 / 4 else 1 / 2, 3⟩) ∧
    scatterDirection exLibHalf 1 ⟨0, 0, 1⟩ exRngHalf
        = some (⟨0, 0, 2⟩, ⟨fun k => if k = 2 then 3 / 4 else 1 / 2, 3⟩) ∧
    (⟨0, 0, 2⟩ : Vec3 ℚ) ≠ Vec3.add ⟨0, 0, 1⟩ ⟨0, 0, 1 / 2⟩ := by
  refine ⟨exRngHalf_accepts, ?_, ?_⟩
  · simp only [scatterDirection, random_unit_vector, exRngHalf_accepts]
    simp [Vec3.normalize, Vec3.scale, Vec3.add, Vec3.dot, exLibHalf]
    norm_num
  · simp [Vec3.add]
    norm_num

/-- C18 (next-ray update on a hit).  With `d` the sampled direction, the next ray of
`PerPixel` has direction `n` when `near_zero(d)` holds and `d` otherwise, and origin
`(o + dir * t) + n * 1e-4`; `near_zero(d)` holds exactly when `|d.x|`, `|d.y|` and
`|d.z|` are all strictly below `1e-8`; and the bounce loop continues from that ray. -/
theorem scatter_next_ray (lib : MathLib F) (fuel : Nat) (traceRay : PathTracingRay F)
    (n : Vec3 F) (t : F) (g g2 : Rng F) (d : Vec3 F)
    (hd : scatterDirection lib fuel n g = some (d, g2)) :
    scatter lib fuel traceRay n t g
        = some ({ Origin := Vec3.add
                    (Vec3.add traceRay.Origin (Vec3.scale traceRay.Direction t))
                    (Vec3.scale n (1 / 10000))
                  Direction := if near_zero d = true then n else d }, g2) ∧
    (near_zero d = true ↔
      |d.x| < 1 / 100000000 ∧ |d.y| < 1 / 100000000 ∧ |d.z| < 1 / 100000000) ∧
    ∀ (MainCommands : List (RenderCommand F)) (L hitColor0 hc : Vec3 F) (m i : Nat)
      (color : Vec4 F) (traces : Nat) (tri : PathTraceTriangle F),
      TriangleTrace MainCommands traceRay (PathTracePayload.default F) hitColor0
          = (true, ⟨(t : WithTop F), some tri⟩, hc) →
      tri.WSNormalNormalized = n →
      PerPixelLoop lib fuel MainCommands L hitColor0 (m + 1) i color traceRay g traces
        = PerPixelLoop lib fuel MainCommands L hitColor0 m (i + 1)
            (Vec4.add color (Vec4.scale (Vec4.scale ⟨hc.x, hc.y, hc.z, 0⟩
              (cosNLightDir n L)) 1))
            { Origin := Vec3.add
                (Vec3.add traceRay.Origin (Vec3.scale traceRay.Direction t))
                (Vec3.scale n (1 / 10000))
              Direction := if near_zero d = true then n else d } g2 (traces + 1) := by
  have hs : scatter lib fuel traceRay n t g
      = some ({ Origin := Vec3.add
                  (Vec3.add traceRay.Origin (Vec3.scale traceRay.Direction t))
                  (Vec3.scale n (1 / 10000))
                Direction := if near_zero d = true then n else d }, g2) := by
    unfold scatterDirection at hd
    unfold scatter
    cases hu : random_unit_vector lib fuel g with
    | none => simp [hu] at hd
    | some u =>
      simp only [hu, Option.some.injEq, Prod.mk.injEq] at hd
      obtain ⟨h1, h2⟩ := hd
      simp only [h1, h2]
  refine ⟨hs, ?_, ?_⟩
  · simp [near_zero, and_assoc]
  · intro MainCommands L hitColor0 hc m i color traces tri hhit hn
    subst hn
    exact PerPixelLoop_hit lib fuel MainCommands L hitColor0 m i color traceRay _ g g2
      traces t tri hc hhit hs

theorem scatter_next_ray_witness :
    scatter exLib 1 exRay ⟨0, 0, 1⟩ 2 exRng
        = some ({ Origin := Vec3.add
                    (Vec3.add exRay.Origin (Vec3.scale exRay.Direction 2))
                    (Vec3.scale ⟨0, 0, 1⟩ (1 / 10000))
                  Direction := if near_zero (⟨0, 0, 1⟩ : Vec3 ℚ) = true then ⟨0, 0, 1⟩
                    else ⟨0, 0, 1⟩ }, ⟨fun _ => 1 / 2, 0 + 3⟩) :=
  (scatter_next_ray exLib 1 exRay ⟨0, 0, 1⟩ 2 exRng ⟨fun _ => 1 / 2, 0 + 3⟩ ⟨0, 0, 1⟩
    (by
      simp only [scatterDirection, exRng, exRng_unit_vector]
      simp [Vec3.add])).1

end ScatterTheorems

/-! ## Theorems: lighting constants -/

section LightingTheorems

variable {F : Type} [LinearOrderedField F]

/-- The directional part on a list with no directional light. -/
theorem directionalConstants_none (lib : MathLib F) (lights : List (LightSource F))
    (h : dirLightsOf lights = []) :
    directionalConstants lib lights = Except.ok (0, ⟨0, 0, 0⟩) := by
  simp [directionalConstants, h]

/-- The directional part on a list with exactly one directional light. -/
theorem directionalConstants_one (lib : MathLib F) (lights : List (LightSource F))
    (d : LightSource F) (h : dirLightsOf lights = [d]) :
    directionalConstants lib lights
      = Except.ok (1,
          Vec3.normalize lib.inversesqrt (Quat.rotate d.AbsoluteRotation ⟨0, 0, 1⟩)) := by
  simp [directionalConstants, h]

/-- The directional part on a list with more than one directional light. -/
theorem directionalConstants_many (lib : MathLib F) (lights : List (LightSource F))
    (h : 1 < (dirLightsOf lights).length) :
    directionalConstants lib lights = Except.error Failure.AssertDirLights := by
  have hn : ¬ (dirLightsOf lights).length ≤ 1 := by omega
  simp [directionalConstants, hn]

/-- On a non-empty list whose directional part succeeds, `SetLightingConstants` returns
the values of the directional part and passes to `Rotate` the rotation computed from
the relative Euler angles of the first light. -/
theorem SetLightingConstants_cons (lib : MathLib F) (rot : RotationLib F)
    (light0 : LightSource F) (rest : List (LightSource F)) (lightCoeffs : Buffer (Vec4 F))
    (dirPart : Int × Vec3 F)
    (h : directionalConstants lib (light0 :: rest) = Except.ok dirPart) :
    SetLightingConstants lib rot (light0 :: rest) lightCoeffs
      = Except.ok
          { bUseDirLight := dirPart.1
            DirectionalLightDirection := dirPart.2
            NumPointLights := ((pointLightsOf (light0 :: rest)).length : Int)
            SHRotation := rot.quatOfEulerDegrees light0.RelRotation
            LightCoeffs := rot.Rotate (rot.quatOfEulerDegrees light0.RelRotation)
              lightCoeffs } := by
  simp [SetLightingConstants, h]

/-- A list of length at most one is empty or a singleton. -/
theorem length_le_one_cases {α : Type} (l : List α) (h : l.length ≤ 1) :
    l = [] ∨ ∃ a, l = [a] := by
  cases l with
  | nil => exact Or.inl rfl
  | cons a t =>
    cases t with
    | nil => exact Or.inr ⟨a, rfl⟩
    | cons b u => simp at h

/-- C13 (directional-light limit).  `SetLightingConstants` fails its directional-light
assertion exactly when the list holds more than one light of type `Directional`.  With
at most one the assertion passes and the values written for `bUseDirLight` and
`DirectionalLightDirection` are: `1` exactly when there is one such light (`0` exactly
when there is none), and the normalised rotated forward vector of that light, or the
zero vector when there is none.  On a non-empty list the call then returns with these
values; on the empty list it stops at the assertion `lights.size() > 0`. -/
theorem SetLightingConstants_directional (lib : MathLib F) (rot : RotationLib F)
    (lights : List (LightSource F)) (lightCoeffs : Buffer (Vec4 F)) :
    (SetLightingConstants lib rot lights lightCoeffs = Except.error Failure.AssertDirLights ↔
      1 < lights.countP fun l => decide (l.LightType = ELightType.Directional)) ∧
    ((lights.countP fun l => decide (l.LightType = ELightType.Directional)) ≤ 1 →
      ∃ dirPart, directionalConstants lib lights = Except.ok dirPart ∧
        (dirPart.1 = 1 ↔
          (lights.countP fun l => decide (l.LightType = ELightType.Directional)) = 1) ∧
        (dirPart.1 = 0 ↔
          (lights.countP fun l => decide (l.LightType = ELightType.Directional)) = 0) ∧
        (∀ d, dirLightsOf lights = [d] →
          dirPart.2
            = Vec3.normalize lib.inversesqrt (Quat.rotate d.AbsoluteRotation ⟨0, 0, 1⟩)) ∧
        (dirLightsOf lights = [] → dirPart.2 = ⟨0, 0, 0⟩) ∧
        (lights ≠ [] →
          ∃ out, SetLightingConstants lib rot lights lightCoeffs = Except.ok out ∧
            out.bUseDirLight = dirPart.1 ∧ out.DirectionalLightDirection = dirPart.2) ∧
        (lights = [] →
          SetLightingConstants lib rot lights lightCoeffs
            = Except.error Failure.AssertLightsNonEmpty)) := by
  have hcount : (lights.countP fun l => decide (l.LightType = ELightType.Directional))
      = (dirLightsOf lights).length := by
    unfold dirLightsOf
    exact List.countP_eq_length_filter _ _
  rw [hcount]
  have htail : ∀ dirPart, directionalConstants lib lights = Except.ok dirPart →
      (lights ≠ [] →
        ∃ out, SetLightingConstants lib rot lights lightCoeffs = Except.ok out ∧
          out.bUseDirLight = dirPart.1 ∧ out.DirectionalLightDirection = dirPart.2) ∧
      (lights = [] →
        SetLightingConstants lib rot lights lightCoeffs
          = Except.error Failure.AssertLightsNonEmpty) := by
    intro dirPart hdp
    constructor
    · intro hne
      cases lights with
      | nil => exact absurd rfl hne
      | cons l0 rest =>
        exact ⟨_, SetLightingConstants_cons lib rot l0 rest lightCoeffs dirPart hdp, rfl, rfl⟩
    · intro hnil
      subst hnil
      simp [SetLightingConstants, directionalConstants, dirLightsOf]
  constructor
  · constructor
    · intro h
      by_contra hle
      have hle2 : (dirLightsOf lights).length ≤ 1 := by omega
      rcases length_le_one_cases _ hle2 with h0 | ⟨d, h1⟩
      · have hdp := directionalConstants_none lib lights h0
        by_cases hl : lights = []
        · rw [((htail _ hdp).2 hl)] at h
          exact absurd h (by simp)
        · obtain ⟨out, hout, _⟩ := (htail _ hdp).1 hl
          rw [hout] at h
          exact Except.noConfusion h
      · have hdp := directionalConstants_one lib lights d h1
        by_cases hl : lights = []
        · rw [((htail _ hdp).2 hl)] at h
          exact absurd h (by simp)
        · obtain ⟨out, hout, _⟩ := (htail _ hdp).1 hl
          rw [hout] at h
          exact Except.noConfusion h
    · intro h
      simp [SetLightingConstants, directionalConstants_many lib lights h]
  · intro hle
    rcases length_le_one_cases _ hle with h0 | ⟨d, h1⟩
    · have hdp := directionalConstants_none lib lights h0
      refine ⟨_, hdp, ?_, ?_, ?_, ?_, htail _ hdp⟩
      · simp [h0]
      · simp [h0]
      · intro d hd; rw [h0] at hd; simp at hd
      · intro _; rfl
    · have hdp := directionalConstants_one lib lights d h1
      refine ⟨_, hdp, ?_, ?_, ?_, ?_, htail _ hdp⟩
      · simp [h1]
      · simp [h1]
      · intro d2 hd
        rw [h1] at hd
        simp only [List.cons.injEq, and_true] at hd
        subst hd
        rfl
      · intro hnil; rw [h1] at hnil; simp at hnil

theorem SetLightingConstants_directional_witness :
    ∃ dirPart, directionalConstants exLib [exPoint, exLightTurned] = Except.ok dirPart ∧
      (dirPart.1 = 1 ↔
        ([exPoint, exLightTurned].countP
          fun l => decide (l.LightType = ELightType.Directional)) = 1) ∧
      (dirPart.1 = 0 ↔
        ([exPoint, exLightTurned].countP
          fun l => decide (l.LightType = ELightType.Directional)) = 0) ∧
      (∀ d, dirLightsOf [exPoint, exLightTurned] = [d] →
        dirPart.2
          = Vec3.normalize exLib.inversesqrt (Quat.rotate d.AbsoluteRotation ⟨0, 0, 1⟩)) ∧
      (dirLightsOf [exPoint, exLightTurned] = [] → dirPart.2 = ⟨0, 0, 0⟩) ∧
      ([exPoint, exLightTurned] ≠ [] →
        ∃ out, SetLightingConstants exLib exRot [exPoint, exLightTurned]
            (Buffer.empty ⟨0, 0, 0, 0⟩) = Except.ok out ∧
          out.bUseDirLight = dirPart.1 ∧ out.DirectionalLightDirection = dirPart.2) ∧
      ([exPoint, exLightTurned] = [] →
        SetLightingConstants exLib exRot [exPoint, exLightTurned] (Buffer.empty ⟨0, 0, 0, 0⟩)
          = Except.error Failure.AssertLightsNonEmpty) :=
  (SetLightingConstants_directional exLib exRot [exPoint, exLightTurned]
    (Buffer.empty ⟨0, 0, 0, 0⟩)).2
    (by simp [List.countP_cons, exPoint, exLightTurned])

/-- C15 at its failing inputs.  The rotation handed to `Rotate` comes from the relative
Euler angles of `lights[0]`: with a point light first it is that of the point light,
whatever the directional light is; and for a directional light under a turned parent it
is the same as for the unturned light, although `DirectionalLightDirection`, computed
from the absolute rotation of the directional light, differs (`(0, 0, 1)` against
`(0, 0, -1)`). -/
theorem SetLightingConstants_rotation_of_first_light :
    ∃ a b c d,
      SetLightingConstants exLib exRot [exPoint, exLight] (Buffer.empty ⟨0, 0, 0, 0⟩)
        = Except.ok a ∧
      SetLightingConstants exLib exRot [exPoint, exLightTurned] (Buffer.empty ⟨0, 0, 0, 0⟩)
        = Except.ok b ∧
      SetLightingConstants exLib exRot [exLight] (Buffer.empty ⟨0, 0, 0, 0⟩) = Except.ok c ∧
      SetLightingConstants exLib exRot [exLightTurned] (Buffer.empty ⟨0, 0, 0, 0⟩)
        = Except.ok d ∧
      a.SHRotation = exRot.quatOfEulerDegrees exPoint.RelRotation ∧
      b.SHRotation = a.SHRotation ∧
      d.SHRotation = c.SHRotation ∧
      a.DirectionalLightDirection = ⟨0, 0, 1⟩ ∧ b.DirectionalLightDirection = ⟨0, 0, -1⟩ ∧
      c.DirectionalLightDirection = ⟨0, 0, 1⟩ ∧ d.DirectionalLightDirection = ⟨0, 0, -1⟩ ∧
      exLight.AbsoluteRotation ≠ exLightTurned.AbsoluteRotation := by
  have hone : ∀ (l0 : LightSource ℚ) (rest : List (LightSource ℚ)) (l : LightSource ℚ),
      dirLightsOf (l0 :: rest) = [l] →
      SetLightingConstants exLib exRot (l0 :: rest) (Buffer.empty ⟨0, 0, 0, 0⟩)
        = Except.ok
            { bUseDirLight := 1
              DirectionalLightDirection :=
                Vec3.normalize exLib.inversesqrt (Quat.rotate l.AbsoluteRotation ⟨0, 0, 1⟩)
              NumPointLights := ((pointLightsOf (l0 :: rest)).length : Int)
              SHRotation := exRot.quatOfEulerDegrees l0.RelRotation
              LightCoeffs := exRot.Rotate (exRot.quatOfEulerDegrees l0.RelRotation)
                (Buffer.empty ⟨0, 0, 0, 0⟩) } := by
    intro l0 rest l hl
    exact SetLightingConstants_cons exLib exRot l0 rest _ _
      (directionalConstants_one exLib (l0 :: rest) l hl)
  have ha := hone exPoint [exLight] exLight (by simp [dirLightsOf, exPoint, exLight])
  have hb := hone exPoint [exLightTurned] exLightTurned
    (by simp [dirLightsOf, exPoint, exLightTurned])
  have hc := hone exLight [] exLight (by simp [dirLightsOf, exLight])
  have hd := hone exLightTurned [] exLightTurned (by simp [dirLightsOf, exLightTurned])
  refine ⟨_, _, _, _, ha, hb, hc, hd, rfl, rfl, rfl, ?_, ?_, ?_, ?_, ?_⟩
  · simp [Vec3.normalize, Vec3.scale, Vec3.add, Vec3.cross, Quat.rotate, exLib, exLight]
  · simp [Vec3.normalize, Vec3.scale, Vec3.add, Vec3.cross, Quat.rotate, exLib,
      exLightTurned]
    norm_num
  · simp [Vec3.normalize, Vec3.scale, Vec3.add, Vec3.cross, Quat.rotate, exLib, exLight]
  · simp [Vec3.normalize, Vec3.scale, Vec3.add, Vec3.cross, Quat.rotate, exLib,
      exLightTurned]
    norm_num
  · simp [exLight, exLightTurned]

end LightingTheorems

/-! ## Theorems: failures of the frame loop -/

section FailureTheorems

variable {F : Type} [LinearOrderedField F] [FloorRing F]

/-- `Draw` returns exactly when `Draw.withFailure` reports no failure, with the same
state. -/
theorem Draw_eq_withFailure (lib : MathLib F) (eng : Engine F) (inp : FrameInput F)
    (s : RendererState F) :
    Draw lib eng inp s
      = match Draw.withFailure lib eng inp s with
        | Except.ok s2 => some s2
        | Except.error _ => none := by
  unfold Draw Draw.withFailure
  cases inp.lights with
  | nil => rfl
  | cons l0 rest =>
    cases precache eng s.MainCommands with
    | none => rfl
    | some cs => rfl

/-- C14 at its failing input.  On an empty light list `SetLightingConstants` stops at
its assertion `lights.size() > 0` before `lights[0]`, but `PathTracingRenderer::Draw`,
which has no such assertion, reads `lights[0]` out of range. -/
theorem Draw_empty_lights_out_of_range :
    SetLightingConstants exLib exRot ([] : List (LightSource ℚ)) (Buffer.empty ⟨0, 0, 0, 0⟩)
        = Except.error Failure.AssertLightsNonEmpty ∧
    Draw.withFailure exLib exEngine
        { exFrame true ⟨0, 0, 0, 1⟩ with lights := [] } exStartup
        = Except.error Failure.OutOfRange ∧
    Draw exLib exEngine { exFrame true ⟨0, 0, 0, 1⟩ with lights := [] } exStartup = none := by
  refine ⟨?_, ?_, ?_⟩
  · simp [SetLightingConstants, directionalConstants, dirLightsOf]
  · simp [Draw.withFailure, exFrame]
  · simp [Draw, exFrame]

/-- C12 at its failing input.  For a command with a triangle whose owner has expired,
both `DrawCommand` functions skip the command, but the precache loops of
`PathTracingRenderer::Draw` and of `ForwardRenderer::InitGI` lock the owner and call
`GetModelMatrix()` on the null result: neither loop completes. -/
theorem expired_owner_dereferenced :
    exExpired.Parent = none ∧ exExpired.Triangles ≠ [] ∧
    PathTracingRenderer.DrawCommand true exExpired = DrawOutcome.SkippedExpired ∧
    ForwardRenderer.DrawCommand exEngine true true exExpired
        = (DrawOutcome.SkippedExpired, exExpired) ∧
    precacheCommand exEngine exExpired = none ∧
    Draw.withFailure exLib exEngine (exFrame true ⟨0, 0, 0, 1⟩)
        { exStartup with MainCommands := [exExpired] }
        = Except.error Failure.NullDereference ∧
    prepareCommand exEngine exSH exExpired = none ∧
    InitGI exEngine exSH ⟨0, 0, 0⟩ [exExpired] (Buffer.empty ⟨0, 0, 0, 0⟩) = none := by
  refine ⟨rfl, by simp [exExpired], rfl, rfl, ?_, ?_, ?_, ?_⟩
  · simp [precacheCommand, exExpired]
  · simp [Draw.withFailure, exFrame, exStartup, precache, precacheCommand, exExpired]
  · simp [prepareCommand, exExpired]
  · simp [InitGI, prepareCommands, prepareCommand, exExpired]

/-- C11 at its failing input.  A command with an empty triangle list and one vertex
passes the first loop of `InitGI` untouched, so its transfer buffer keeps `0` entries
where `1 * SH_COEFFICIENT_COUNT = 1` are needed: the first write
`TransferCoeffs[0 * SH_COEFFICIENT_COUNT + 0]` is out of range, the condition of the
assertion is false, and the GPU buffer is created with 12 bytes while 0 bytes would be
uploaded. -/
theorem InitGI_empty_triangles_buffer_unsized :
    (exBare (Buffer.empty ⟨0, 0, 0⟩)).Triangles = [] ∧
    (exBare (Buffer.empty ⟨0, 0, 0⟩)).Vertices.length * exSH.SH_COEFFICIENT_COUNT = 1 ∧
    prepareCommands exEngine exSH [exBare (Buffer.empty ⟨0, 0, 0⟩)]
        = some [exBare (Buffer.empty ⟨0, 0, 0⟩)] ∧
    (exBare (Buffer.empty ⟨0, 0, 0⟩)).TransferCoeffs.size = 0 ∧
    addSample exSH 0 0 (exBare (Buffer.empty ⟨0, 0, 0⟩)).TransferCoeffs = none ∧
    normalizeVertex exSH 0 (exBare (Buffer.empty ⟨0, 0, 0⟩)).TransferCoeffs = none ∧
    transferCommand exSH ⟨0, 0, 0⟩ [exBare (Buffer.empty ⟨0, 0, 0⟩)]
        (exBare (Buffer.empty ⟨0, 0, 0⟩)) = none ∧
    transferAssertion exSH (exBare (Buffer.empty ⟨0, 0, 0⟩)) = false ∧
    createdBufferBytes exSH (exBare (Buffer.empty ⟨0, 0, 0⟩)) = 12 ∧
    uploadedBytes (exBare (Buffer.empty ⟨0, 0, 0⟩)) = 0 := by
  refine ⟨rfl, rfl, ?_, rfl, ?_, ?_, ?_, ?_, rfl, rfl⟩
  · simp [prepareCommands, prepareCommand, exBare]
  · simp [addSample, forRange, Buffer.modifyAt, Buffer.empty, exBare, exSH]
  · simp [normalizeVertex, forRange, Buffer.modifyAt, Buffer.empty, exBare, exSH]
  · simp [transferCommand, transferVertex, transferSample, addSample, forRange,
      Buffer.modifyAt, Buffer.empty, exBare, exSH, exVertex, Vec3.dot, TriangleTrace,
      TriangleTraceStep]
  · simp [transferAssertion, exBare, Buffer.empty, exSH]

end FailureTheorems

/-! ## Theorems: lazy build of the acceleration structures -/

section BuildTheorems

variable {F : Type}

/-- The body of the precache loop of `Draw` on a command whose owner is alive. -/
theorem precacheCommand_alive (eng : Engine F) (c : RenderCommand F)
    (parent : DrawableObject F) (hp : c.Parent = some parent) :
    precacheCommand eng c
      = some (if c.Triangles.length ≠ 0 ∧ c.AccStructure.Valid = false then
          { c with AccStructure := (eng.Build c.AccStructure
              (c.Triangles.map fun t => eng.Transform t parent.ModelMatrix)) }
        else c) := by
  unfold precacheCommand
  by_cases he : c.Triangles.length = 0
  · have hnil : c.Triangles = [] := List.length_eq_zero.mp he
    simp [hnil]
  · by_cases hv : c.AccStructure.Valid = false
    · simp [he, hp, hv]
    · simp [he, hp, hv]

/-- The body of the precache loop of `Draw` on a command without triangles. -/
theorem precacheCommand_empty (eng : Engine F) (c : RenderCommand F)
    (h : c.Triangles = []) : precacheCommand eng c = some c := by
  simp [precacheCommand, h]

/-- After the precache loop a command with triangles has a live owner and, when `Build`
validates the structure it builds from a non-empty list, a valid structure. -/
theorem precache_valid (eng : Engine F)
    (hBuild : ∀ a ts, ts ≠ [] → (eng.Build a ts).Valid = true) :
    ∀ (cmds cs : List (RenderCommand F)), precache eng cmds = some cs →
      ∀ c ∈ cs, c.Triangles ≠ [] → c.Parent ≠ none ∧ c.AccStructure.Valid = true := by
  intro cmds
  induction cmds with
  | nil =>
    intro cs h c hc
    simp [precache] at h
    subst h
    simp at hc
  | cons a l ih =>
    intro cs h c hc hne
    rw [precache] at h
    cases ha : precacheCommand eng a with
    | none => simp [ha] at h
    | some a2 =>
      cases hl : precache eng l with
      | none => simp [ha, hl] at h
      | some l2 =>
        simp [ha, hl] at h
        subst h
        rcases List.mem_cons.mp hc with rfl | hc
        · cases hp : a.Parent with
          | none =>
            by_cases he : a.Triangles = []
            · rw [precacheCommand_empty eng a he] at ha
              have : a = c := Option.some.inj ha
              subst this
              exact absurd he hne
            · have hlen : ¬ a.Triangles.length = 0 := fun h0 => he (List.length_eq_zero.mp h0)
              simp [precacheCommand, hlen, hp] at ha
          | some parent =>
            rw [precacheCommand_alive eng a parent hp] at ha
            have hc2 := Option.some.inj ha
            by_cases hcond : a.Triangles.length ≠ 0 ∧ a.AccStructure.Valid = false
            · rw [if_pos hcond] at hc2
              subst hc2
              refine ⟨by simp [hp], ?_⟩
              exact hBuild _ _ (by simpa using hcond.1)
            · rw [if_neg hcond] at hc2
              subst hc2
              refine ⟨by simp [hp], ?_⟩
              cases hv : a.AccStructure.Valid
              · exact absurd ⟨fun h0 => hne (List.length_eq_zero.mp h0), hv⟩ hcond
              · rfl
        · exact ih l2 hl c hc hne

/-- The precache loop leaves unchanged a list in which every command with triangles has
a live owner and a valid structure, whatever `Build` and `Transform` are. -/
theorem precache_fixed (eng : Engine F) : ∀ cs : List (RenderCommand F),
    (∀ c ∈ cs, c.Triangles ≠ [] → c.Parent ≠ none ∧ c.AccStructure.Valid = true) →
    precache eng cs = some cs := by
  intro cs
  induction cs with
  | nil => intro _; rfl
  | cons a l ih =>
    intro h
    have hl := ih (fun c hc => h c (List.mem_cons_of_mem a hc))
    have ha : precacheCommand eng a = some a := by
      by_cases he : a.Triangles = []
      · exact precacheCommand_empty eng a he
      · obtain ⟨hp, hv⟩ := h a (List.mem_cons_self a l) he
        cases hpar : a.Parent with
        | none => exact absurd hpar hp
        | some parent =>
          rw [precacheCommand_alive eng a parent hpar, if_neg (by simp [hv])]
    simp [precache, ha, hl]

end BuildTheorems

section BuildOnceTheorems

variable {F : Type} [LinearOrderedField F] [FloorRing F]

/-- Lazy build for the commands a call site gets to.  At each call site, on a command
the site processes (live
owner; for `DrawCommand` the path "BVH Debug Draw" of a visible command with a
material), the acceleration structure is replaced by the result of `Build` exactly when
the triangle list is non-empty and `IsValid()` is false, and the command is otherwise
left as it is (for `InitGI` up to its transfer buffer); commands without triangles are
never touched; the list handed to `Build` is never empty.  When `Build` validates the
structure it builds from a non-empty list, every command with triangles is valid in
the state the per-pixel loops of `Draw` run on, and a second run of the precache loop
changes no command, whatever `Build` is. -/
theorem build_once (lib : MathLib F) (eng : Engine F) :
    (∀ (c : RenderCommand F) (parent : DrawableObject F), c.Parent = some parent →
      precacheCommand eng c
        = some (if c.Triangles.length ≠ 0 ∧ c.AccStructure.Valid = false then
            { c with AccStructure := (eng.Build c.AccStructure
                (c.Triangles.map fun t => eng.Transform t parent.ModelMatrix)) }
          else c)) ∧
    (∀ (c : RenderCommand F), c.Triangles = [] → precacheCommand eng c = some c) ∧
    (∀ (cfg : SHSetup F) (c : RenderCommand F) (parent : DrawableObject F),
      c.Parent = some parent → c.Triangles ≠ [] →
      prepareCommand eng cfg c
        = some { c with
            AccStructure :=
              if c.AccStructure.Valid = false then eng.Build c.AccStructure c.Triangles
              else c.AccStructure
            TransferCoeffs :=
              ⟨c.Vertices.length * cfg.SH_COEFFICIENT_COUNT, fun _ => ⟨0, 0, 0⟩⟩ }) ∧
    (∀ (cfg : SHSetup F) (c : RenderCommand F), c.Triangles = [] →
      prepareCommand eng cfg c = some c) ∧
    (∀ (c : RenderCommand F) (parent : DrawableObject F), c.Parent = some parent →
      parent.Visible = true →
      ForwardRenderer.DrawCommand eng true true c
        = (DrawOutcome.Drawn,
            if c.Triangles.length ≠ 0 ∧ c.AccStructure.Valid = false then
              { c with AccStructure := eng.Build c.AccStructure c.Triangles }
            else c)) ∧
    (∀ (c : RenderCommand F) (model : Mat4 F), c.Triangles ≠ [] →
      (c.Triangles.map fun t => eng.Transform t model) ≠ []) ∧
    ((∀ a ts, ts ≠ [] → (eng.Build a ts).Valid = true) →
      (∀ (inp : FrameInput F) (s s2 : RendererState F), Draw lib eng inp s = some s2 →
        precache eng s.MainCommands = some s2.MainCommands ∧
        ∀ c ∈ s2.MainCommands, c.Triangles ≠ [] → c.AccStructure.Valid = true) ∧
      (∀ (cmds cs : List (RenderCommand F)), precache eng cmds = some cs →
        ∀ eng2 : Engine F, precache eng2 cs = some cs)) := by
  refine ⟨precacheCommand_alive eng, precacheCommand_empty eng, ?_, ?_, ?_, ?_, ?_⟩
  · intro cfg c parent hp hne
    have hlen : ¬ c.Triangles.length = 0 := fun h0 => hne (List.length_eq_zero.mp h0)
    simp only [prepareCommand, hlen, hp, if_false, Buffer.resize]
  · intro cfg c h
    simp [prepareCommand, h]
  · intro c parent hp hvis
    unfold ForwardRenderer.DrawCommand
    by_cases he : c.Triangles.length = 0
    · have hnil : c.Triangles = [] := List.length_eq_zero.mp he
      simp [hp, hvis, hnil]
    · by_cases hv : c.AccStructure.Valid = false
      · simp [hp, hvis, he, hv]
      · simp [hp, hvis, he, hv]
  · intro c model hne
    simpa using hne
  · intro hBuild
    refine ⟨?_, ?_⟩
    · intro inp s s2 hD
      unfold Draw at hD
      cases hl : inp.lights with
      | nil => simp [hl] at hD
      | cons l0 rest =>
        cases hpc : precache eng s.MainCommands with
        | none => simp [hl, hpc] at hD
        | some cs =>
          simp only [hl, hpc, Option.some.injEq] at hD
          subst hD
          exact ⟨rfl, fun c hc hne => (precache_valid eng hBuild _ cs hpc c hc hne).2⟩
    · intro cmds cs h eng2
      exact precache_fixed eng2 cs (precache_valid eng hBuild cmds cs h)

theorem build_once_witness :
    precache exEngine [exUnbuilt, exBare (Buffer.empty ⟨0, 0, 0⟩)]
        = some [{ exUnbuilt with
            AccStructure := (exEngine.Build exUnbuilt.AccStructure
              (exUnbuilt.Triangles.map fun t => exEngine.Transform t exIdentity)) },
          exBare (Buffer.empty ⟨0, 0, 0⟩)] ∧
    ∀ eng2 : Engine ℚ,
      precache eng2
          [{ exUnbuilt with
              AccStructure := (exEngine.Build exUnbuilt.AccStructure
                (exUnbuilt.Triangles.map fun t => exEngine.Transform t exIdentity)) },
            exBare (Buffer.empty ⟨0, 0, 0⟩)]
        = some [{ exUnbuilt with
            AccStructure := (exEngine.Build exUnbuilt.AccStructure
              (exUnbuilt.Triangles.map fun t => exEngine.Transform t exIdentity)) },
          exBare (Buffer.empty ⟨0, 0, 0⟩)] := by
  have h : precache exEngine [exUnbuilt, exBare (Buffer.empty ⟨0, 0, 0⟩)]
      = some [{ exUnbuilt with
          AccStructure := (exEngine.Build exUnbuilt.AccStructure
            (exUnbuilt.Triangles.map fun t => exEngine.Transform t exIdentity)) },
        exBare (Buffer.empty ⟨0, 0, 0⟩)] := by
    simp [precache, precacheCommand, exUnbuilt, exBare]
  exact ⟨h, ((build_once exLib exEngine).2.2.2.2.2.2
    (by intro a ts _; rfl)).2 _ _ h⟩

/-- C19 at its failing input.  `MainCommands` holds a command with a triangle whose
owner has expired, followed by a command with a triangle, a live owner and a structure
that has not been built (`IsValid()` false for both).  The precache loop of `Draw` stops
at the null owner of the first command: `Build` reaches neither command, and no state
with valid structures is handed to the per-pixel loops.  The same holds for the loop of
`InitGI`, and with the two commands in the other order.  With the live command alone
the loop does build and validate its structure, and `DrawCommand` passes the expired
command by without failing. -/
theorem build_once_stops_at_expired_owner :
    (exExpired.Triangles ≠ [] ∧ exExpired.AccStructure.Valid = false ∧
      exExpired.Parent = none) ∧
    (exUnbuilt.Triangles ≠ [] ∧ exUnbuilt.AccStructure.Valid = false ∧
      exUnbuilt.Parent ≠ none) ∧
    precache exEngine [exExpired, exUnbuilt] = none ∧
    precache exEngine [exUnbuilt, exExpired] = none ∧
    Draw.withFailure exLib exEngine (exFrame true ⟨0, 0, 0, 1⟩)
        { exStartup with MainCommands := [exExpired, exUnbuilt] }
        = Except.error Failure.NullDereference ∧
    Draw exLib exEngine (exFrame true ⟨0, 0, 0, 1⟩)
        { exStartup with MainCommands := [exExpired, exUnbuilt] } = none ∧
    prepareCommands exEngine exSH [exExpired, exUnbuilt] = none ∧
    InitGI exEngine exSH ⟨0, 0, 0⟩ [exExpired, exUnbuilt] (Buffer.empty ⟨0, 0, 0, 0⟩)
        = none ∧
    (∃ built, precache exEngine [exUnbuilt] = some [built] ∧
      built.AccStructure.Valid = true) ∧
    ForwardRenderer.DrawCommand exEngine true true exExpired
        = (DrawOutcome.SkippedExpired, exExpired) := by
  refine ⟨⟨by simp [exExpired], rfl, rfl⟩, ⟨by simp [exUnbuilt], rfl, by simp [exUnbuilt]⟩,
    ?_, ?_, ?_, ?_, ?_, ?_, ?_, rfl⟩
  · simp [precache, precacheCommand, exExpired]
  · simp [precache, precacheCommand, exExpired, exUnbuilt]
  · simp [Draw.withFailure, exFrame, exStartup, precache, precacheCommand, exExpired]
  · simp [Draw, exFrame, exStartup, precache, precacheCommand, exExpired]
  · simp [prepareCommands, prepareCommand, exExpired]
  · simp [InitGI, prepareCommands, prepareCommand, exExpired]
  · refine ⟨{ exUnbuilt with
        AccStructure := (exEngine.Build exUnbuilt.AccStructure
          (exUnbuilt.Triangles.map fun t => exEngine.Transform t exIdentity)) }, ?_, ?_⟩
    · simp [precache, precacheCommand, exUnbuilt]
    · simp [exEngine]

end BuildOnceTheorems

/-! ## Theorems: frame counter -/

section CounterTheorems

variable {F : Type} [LinearOrderedField F] [FloorRing F]

/-- The counter after a sequence of frames, from a counter that is one more than the
current run of accumulation-enabled frames modulo `2 ^ 32`. -/
theorem framesCount_run : ∀ (flags : List Bool) (count n : Nat),
    count = (1 + n) % 2 ^ 32 →
    flags.foldl (fun (count : Nat) (b : Bool) => updateFramesCount b count) count
      = (1 + flags.foldl (fun (n : Nat) (b : Bool) => if b then n + 1 else 0) n)
          % 2 ^ 32 := by
  intro flags
  induction flags with
  | nil => intro count n h; simpa using h
  | cons b l ih =>
    intro count n h
    rw [List.foldl_cons, List.foldl_cons]
    apply ih
    beta_reduce
    cases b with
    | false => simp [updateFramesCount]
    | true =>
      simp only [updateFramesCount, if_true]
      rw [h]
      omega

/-- From start-up the counter is one more than the current run of accumulation-enabled
frames, modulo `2 ^ 32`. -/
theorem framesCountAfter_startup (flags : List Bool) :
    framesCountAfter flags 1 = (1 + enabledRun flags) % 2 ^ 32 :=
  framesCount_run flags 1 0 (by norm_num)

/-- The run of `n` accumulation-enabled frames. -/
theorem enabledRun_replicate (n : Nat) : ∀ k : Nat,
    (List.replicate n true).foldl (fun (n : Nat) (b : Bool) => if b then n + 1 else 0) k
      = k + n := by
  induction n with
  | zero => intro k; rfl
  | succ n ih =>
    intro k
    rw [List.replicate_succ, List.foldl_cons, ih]
    simp only [if_true]
    omega

/-- The counter after `n` accumulation-enabled frames from start-up. -/
theorem framesCountAfter_replicate (n : Nat) :
    framesCountAfter (List.replicate n true) 1 = (1 + n) % 2 ^ 32 := by
  rw [framesCountAfter_startup]
  unfold enabledRun
  rw [enabledRun_replicate, Nat.zero_add]

/-- Consecutive `Draw` calls that all return update the counter once per frame. -/
theorem DrawFrames_count (lib : MathLib F) (eng : Engine F) :
    ∀ (inputs : List (FrameInput F)) (s s2 : RendererState F),
      DrawFrames lib eng inputs s = some s2 →
      s2.AccumulatedFramesCount
        = framesCountAfter (inputs.map fun inp => inp.bUseAccumulation)
            s.AccumulatedFramesCount := by
  intro inputs
  induction inputs with
  | nil =>
    intro s s2 h
    simp only [DrawFrames, Option.some.injEq] at h
    subst h
    rfl
  | cons inp rest ih =>
    intro s s2 h
    rw [DrawFrames] at h
    cases hD : Draw lib eng inp s with
    | none => simp [hD] at h
    | some s1 =>
      simp only [hD] at h
      rw [ih s1 s2 h]
      have hc : s1.AccumulatedFramesCount
          = updateFramesCount inp.bUseAccumulation s.AccumulatedFramesCount := by
        unfold Draw at hD
        cases hl : inp.lights with
        | nil => simp [hl] at hD
        | cons l0 ls =>
          cases hpc : precache eng s.MainCommands with
          | none => simp [hl, hpc] at hD
          | some cs =>
            simp only [hl, hpc, Option.some.injEq] at hD
            subst hD
            rfl
      rw [hc]
      rfl

/-- C23 (frame-counter invariant), as amended.  After the counter update of a `Draw`
call that ends a sequence of frames since start-up in which fewer than `2 ^ 32 - 1`
accumulation-enabled frames have followed one another since the last frame with
accumulation disabled, the counter is one more than the length of that run, hence at
least `1` and below `2 ^ 32`, and the divisor `float(AccumulatedFramesCount)` of the
per-pixel division is not zero.  The counter of the model is the one the `Draw` calls
leave. -/
theorem framesCount_positive (flags : List Bool) (h : enabledRun flags < 2 ^ 32 - 1) :
    framesCountAfter flags 1 = 1 + enabledRun flags ∧
    1 ≤ framesCountAfter flags 1 ∧ framesCountAfter flags 1 < 2 ^ 32 ∧
    ((framesCountAfter flags 1 : Nat) : F) ≠ 0 ∧
    ∀ (lib : MathLib F) (eng : Engine F) (inputs : List (FrameInput F))
      (s s2 : RendererState F),
      s.AccumulatedFramesCount = 1 →
      (inputs.map fun inp => inp.bUseAccumulation) = flags →
      DrawFrames lib eng inputs s = some s2 →
      s2.AccumulatedFramesCount = framesCountAfter flags 1 ∧
      1 ≤ s2.AccumulatedFramesCount := by
  have heq : framesCountAfter flags 1 = 1 + enabledRun flags := by
    rw [framesCountAfter_startup]
    exact Nat.mod_eq_of_lt (by omega)
  have hpos : 1 ≤ framesCountAfter flags 1 := by omega
  refine ⟨heq, hpos, by omega, ?_, ?_⟩
  · have h0 : framesCountAfter flags 1 ≠ 0 := by omega
    exact Nat.cast_ne_zero.mpr h0
  · intro lib eng inputs s s2 hs hflags hD
    have hc := DrawFrames_count lib eng inputs s s2 hD
    rw [hs, hflags] at hc
    rw [hc]
    exact ⟨rfl, hpos⟩

theorem framesCount_positive_witness :
    framesCountAfter [true, true, false, true] 1 = 1 + enabledRun [true, true, false, true] ∧
    1 ≤ framesCountAfter [true, true, false, true] 1 ∧
    framesCountAfter [true, true, false, true] 1 < 2 ^ 32 ∧
    ((framesCountAfter [true, true, false, true] 1 : Nat) : ℚ) ≠ 0 :=
  have h := @framesCount_positive ℚ _ _ [true, true, false, true]
    (by simp [enabledRun])
  ⟨h.1, h.2.1, h.2.2.1, h.2.2.2.1⟩

/-- C23 as stated fails: after `2 ^ 32 - 1` consecutive accumulation-enabled frames
from start-up the 32-bit counter has wrapped to `0`; and one `Draw` call with
accumulation enabled on the counter `2 ^ 32 - 1` leaves the counter `0`, the divisor of
the per-pixel division. -/
theorem framesCount_wraps_to_zero :
    framesCountAfter (List.replicate (2 ^ 32 - 1) true) 1 = 0 ∧
    ¬ 1 ≤ framesCountAfter (List.replicate (2 ^ 32 - 1) true) 1 ∧
    updateFramesCount true (2 ^ 32 - 1) = 0 ∧
    ∃ s2, Draw exLib exEngine (exFrame true ⟨0, 0, 0, 1⟩)
        { exStartup with AccumulatedFramesCount := 2 ^ 32 - 1 } = some s2 ∧
      s2.AccumulatedFramesCount = 0 ∧
      s2.FinalImageData 0
        = ConvertToRGBA (Vec4.div (s2.AccumulationData 0) (Vec4.splat ((0 : Nat) : ℚ))) := by
  have h0 : framesCountAfter (List.replicate (2 ^ 32 - 1) true) 1 = 0 :=
    (framesCountAfter_replicate (2 ^ 32 - 1)).trans (by norm_num)
  have hu : updateFramesCount true (2 ^ 32 - 1) = 0 := by
    simp [updateFramesCount]
  refine ⟨h0, fun h => absurd (h0 ▸ h) (by decide), hu, ?_⟩
  obtain ⟨s2, hD, hc, _, hpix⟩ := Draw_frame exLib exEngine (exFrame true ⟨0, 0, 0, 1⟩)
    { exStartup with AccumulatedFramesCount := 2 ^ 32 - 1 }
    (by simp [exFrame]) (by simp [exStartup])
  have hc0 : s2.AccumulatedFramesCount = 0 := by
    rw [hc]
    exact hu
  refine ⟨s2, hD, hc0, ?_⟩
  have hp := (hpix 0 (by simp [exFrame]) 0 (by simp [exFrame])).2
  simp only [exFrame, Nat.mul_zero, Nat.add_zero, hc0, finalColor] at hp
  exact hp

end CounterTheorems

/-! ## Theorems: unit-vector sampling -/

section SamplingTheorems

variable {F : Type} [LinearOrderedField F]

/-- A draw of `random_float(-1, 1)` from a value in `[0, 1)` lies in `[-1, 1)`. -/
theorem random_float_range_bounds (g : Rng F)
    (h : 0 ≤ g.stream g.pos ∧ g.stream g.pos < 1) :
    -1 ≤ (random_float_range (-1) 1 g).1 ∧ (random_float_range (-1) 1 g).1 < 1 ∧
    (random_float_range (-1) 1 g).2 = ⟨g.stream, g.pos + 1⟩ := by
  simp only [random_float_range, random_float]
  refine ⟨by linarith [h.1], by linarith [h.2], trivial⟩

/-- The point `randomVec3(-1, 1)` from draws in `[0, 1)` has every component in
`[-1, 1)`; three draws are consumed. -/
theorem randomVec3_bounds (g : Rng F) (h : ∀ k, 0 ≤ g.stream k ∧ g.stream k < 1) :
    (-1 ≤ (randomVec3 (-1) 1 g).1.x ∧ (randomVec3 (-1) 1 g).1.x < 1) ∧
    (-1 ≤ (randomVec3 (-1) 1 g).1.y ∧ (randomVec3 (-1) 1 g).1.y < 1) ∧
    (-1 ≤ (randomVec3 (-1) 1 g).1.z ∧ (randomVec3 (-1) 1 g).1.z < 1) ∧
    (randomVec3 (-1) 1 g).2 = ⟨g.stream, g.pos + 3⟩ := by
  simp only [randomVec3, random_float_range, random_float]
  have h0 := h g.pos
  have h1 := h (g.pos + 1)
  have h2 := h (g.pos + 1 + 1)
  refine ⟨⟨by linarith [h0.1], by linarith [h0.2]⟩, ⟨by linarith [h1.1], by linarith [h1.2]⟩,
    ⟨by linarith [h2.1], by linarith [h2.2]⟩, trivial⟩

/-- The part of C24 that holds.  When the rejection loop ends, on draws in `[0, 1)`, the
accepted point has every component in `[-1, 1)` and squared length below `1`, and the
generator keeps its stream. -/
theorem random_in_unit_sphere_bounds : ∀ (fuel : Nat) (g g2 : Rng F) (p : Vec3 F),
    (∀ k, 0 ≤ g.stream k ∧ g.stream k < 1) →
    random_in_unit_sphere fuel g = some (p, g2) →
    (-1 ≤ p.x ∧ p.x < 1) ∧ (-1 ≤ p.y ∧ p.y < 1) ∧ (-1 ≤ p.z ∧ p.z < 1) ∧
    Vec3.lengthSquared p < 1 ∧ g2.stream = g.stream := by
  intro fuel
  induction fuel with
  | zero => intro g g2 p _ h; simp [random_in_unit_sphere] at h
  | succ fuel ih =>
    intro g g2 p hs h
    obtain ⟨hx, hy, hz, hg⟩ := randomVec3_bounds g hs
    rw [random_in_unit_sphere] at h
    by_cases hlt : Vec3.lengthSquared (randomVec3 (-1) 1 g).1 < 1
    · simp only [hlt, if_true, Option.some.injEq] at h
      rw [h] at hx hy hz hlt hg
      simp only at hx hy hz hlt hg
      exact ⟨hx, hy, hz, hlt, by rw [hg]⟩
    · simp only [hlt, if_false] at h
      have hs2 : ∀ k, 0 ≤ (randomVec3 (-1) 1 g).2.stream k ∧
          (randomVec3 (-1) 1 g).2.stream k < 1 := by
        rw [hg]; exact hs
      obtain ⟨h1, h2, h3, h4, h5⟩ := ih _ g2 p hs2 h
      exact ⟨h1, h2, h3, h4, by rw [h5, hg]⟩

/-- The part of C24 that holds.  When the accepted point is not the zero vector and
`inversesqrt` is exact at its squared length, `random_unit_vector` returns a vector of
squared length `1`. -/
theorem random_unit_vector_length (lib : MathLib F) (fuel : Nat) (g g2 : Rng F)
    (p : Vec3 F) (h : random_in_unit_sphere fuel g = some (p, g2))
    (hinv : lib.inversesqrt (Vec3.dot p p) * lib.inversesqrt (Vec3.dot p p)
      * Vec3.dot p p = 1) :
    random_unit_vector lib fuel g = some (Vec3.normalize lib.inversesqrt p, g2) ∧
    Vec3.lengthSquared (Vec3.normalize lib.inversesqrt p) = 1 := by
  constructor
  · simp [random_unit_vector, h]
  · simp only [Vec3.lengthSquared, Vec3.normalize, Vec3.scale, Vec3.dot] at hinv ⊢
    linear_combination hinv

/-- C24 at its failing input.  On the three draws `1/2, 1/2, 1/2`, all in `[0, 1)`, the
rejection loop accepts the zero vector, whose squared length `0` is below `1`; the
normalisation then divides by the length `0` (it multiplies by `inversesqrt(0)`), and
whatever value `inversesqrt` has there the vector returned by `random_unit_vector` is
the zero vector of the model, of squared length `0` and not `1`. -/
theorem random_unit_vector_zero_point :
    (∀ k, 0 ≤ exRng.stream k ∧ exRng.stream k < 1) ∧
    random_in_unit_sphere 1 exRng = some (⟨0, 0, 0⟩, exGens 1) ∧
    Vec3.lengthSquared (⟨0, 0, 0⟩ : Vec3 ℚ) = 0 ∧
    ∀ lib : MathLib ℚ,
      random_unit_vector lib 1 exRng
        = some (Vec3.scale ⟨0, 0, 0⟩ (lib.inversesqrt 0), exGens 1) ∧
      Vec3.scale (⟨0, 0, 0⟩ : Vec3 ℚ) (lib.inversesqrt 0) = ⟨0, 0, 0⟩ ∧
      Vec3.lengthSquared (Vec3.scale (⟨0, 0, 0⟩ : Vec3 ℚ) (lib.inversesqrt 0)) ≠ 1 := by
  have hp : random_in_unit_sphere 1 exRng = some ((⟨0, 0, 0⟩ : Vec3 ℚ), exGens 1) := by
    simp [random_in_unit_sphere, randomVec3, random_float_range, random_float,
      Vec3.lengthSquared, Vec3.dot, exRng, exGens]
    norm_num
  refine ⟨?_, hp, by simp [Vec3.lengthSquared, Vec3.dot], ?_⟩
  · intro k
    simp only [exRng]
    norm_num
  · intro lib
    refine ⟨?_, by simp [Vec3.scale], by simp [Vec3.lengthSquared, Vec3.dot, Vec3.scale]⟩
    simp [random_unit_vector, hp, Vec3.normalize, Vec3.dot]

end SamplingTheorems

/-! ## Theorems: colour range and alpha of the path integrator -/

section RangeTheorems

variable {F : Type} [LinearOrderedField F]

/-- When `TriangleTrace`, called with the default payload, leaves a payload that
references a triangle, the colour it leaves is the `OverrideColor` of a command. -/
theorem TriangleTrace_hit_color (cmds : List (RenderCommand F)) (ray : PathTracingRay F)
    (hc0 : Vec3 F)
    (h : (TriangleTrace cmds ray (PathTracePayload.default F) hc0).2.1.Triangle ≠ none) :
    ∃ c ∈ cmds, (TriangleTrace cmds ray (PathTracePayload.default F) hc0).2.2
      = c.OverrideColor := by
  unfold TriangleTrace at h ⊢
  rcases TriangleTrace_fold_cases ray cmds (false, PathTracePayload.default F, hc0) with
    ⟨heq, _⟩ | ⟨pre, c, post, hl, _, _, hres, _, _⟩
  · rw [heq] at h
    exact absurd rfl h
  · refine ⟨c, ?_, ?_⟩
    · rw [hl]; simp
    · rw [hres]

/-- When every acceleration structure reports, with a hit, a triangle and a finite
distance, a call of `TriangleTrace` with the default payload that returns `true` leaves
a payload with a triangle and a finite distance. -/
theorem TriangleTrace_hit_payload (cmds : List (RenderCommand F)) (ray : PathTracingRay F)
    (hc0 : Vec3 F)
    (hhits : ∀ c ∈ cmds, ∀ r : PathTracingRay F, (c.AccStructure.Trace r).1 = true →
      (c.AccStructure.Trace r).2.Triangle ≠ none ∧ (c.AccStructure.Trace r).2.Distance ≠ ⊤)
    (h : (TriangleTrace cmds ray (PathTracePayload.default F) hc0).1 = true) :
    (TriangleTrace cmds ray (PathTracePayload.default F) hc0).2.1.Triangle ≠ none ∧
    (TriangleTrace cmds ray (PathTracePayload.default F) hc0).2.1.Distance ≠ ⊤ := by
  unfold TriangleTrace at h ⊢
  rcases TriangleTrace_fold_cases ray cmds (false, PathTracePayload.default F, hc0) with
    ⟨_, hall⟩ | ⟨pre, c, post, hl, hc, _, hres, _, _⟩
  · rcases (TriangleTrace_fold_flag ray cmds _).mp h with h0 | ⟨c, hc, hch⟩
    · simp at h0
    · have hnot := hall c hc hch
      have htop : ReportedDistance ray c = ⊤ := by
        simpa [PathTracePayload.default] using hnot
      exact absurd htop (hhits c hc ray hch.2).2
  · have hmem : c ∈ cmds := by rw [hl]; simp
    rw [hres]
    exact hhits c hmem ray hc.2

/-- The clamped cosine lies between `0.1` and `1`. -/
theorem cosNLightDir_bounds (n L : Vec3 F) :
    1 / 10 ≤ cosNLightDir n L ∧ cosNLightDir n L ≤ 1 := by
  unfold cosNLightDir clamp
  constructor
  · exact le_min (le_max_right _ _) (by norm_num)
  · exact min_le_right _ _

/-- The bounce loop and its exit, branch by branch.  From a colour with alpha `0`: a
loop that does not return has no result; the exit of the branch `i == 0` gives opaque
black after one trace; the exit behind the loop gives opaque black after all remaining
traces; and the exit `return color` after `k` hits gives, one trace after the hits, a
colour whose alpha is `pow(0, 1 / 2.2)`. -/
theorem PerPixelLoop_exit_cases (lib : MathLib F) (fuel : Nat)
    (cmds : List (RenderCommand F)) (L hc0 : Vec3 F) :
    ∀ (n i : Nat) (color : Vec4 F) (ray : PathTracingRay F) (g : Rng F) (t : Nat),
      color.w = 0 →
      (PerPixelLoopExit lib fuel cmds hc0 n i ray g = PerPixelExit.NoReturn →
        (PerPixelLoop lib fuel cmds L hc0 n i color ray g t).result = none) ∧
      (PerPixelLoopExit lib fuel cmds hc0 n i ray g = PerPixelExit.PrimaryMiss →
        i = 0 ∧ (TriangleTrace cmds ray (PathTracePayload.default F) hc0).1 = false ∧
        PerPixelLoop lib fuel cmds L hc0 n i color ray g t
          = ⟨t + 1, some (⟨0, 0, 0, 1⟩, g)⟩) ∧
      (PerPixelLoopExit lib fuel cmds hc0 n i ray g = PerPixelExit.BudgetExhausted →
        ∃ g2, PerPixelLoop lib fuel cmds L hc0 n i color ray g t
          = ⟨t + n, some (⟨0, 0, 0, 1⟩, g2)⟩) ∧
      (∀ k, PerPixelLoopExit lib fuel cmds hc0 n i ray g = PerPixelExit.MissAfterHits k →
        1 ≤ k ∧ i ≤ k ∧ k < i + n ∧
        ∃ c g2, PerPixelLoop lib fuel cmds L hc0 n i color ray g t
            = ⟨t + (k - i) + 1, some (c, g2)⟩ ∧
          c.w = lib.pow 0 (1 / (22 / 10))) := by
  intro n
  induction n with
  | zero =>
    intro i color ray g t _
    simp [PerPixelLoopExit, PerPixelLoop]
  | succ n ih =>
    intro i color ray g t hw
    rw [PerPixelLoopExit, PerPixelLoop]
    by_cases hmiss : (TriangleTrace cmds ray (PathTracePayload.default F) hc0).1 = false
    · by_cases hi : i = 0
      · simp [hmiss, hi]
      · have hi1 : 1 ≤ i := Nat.one_le_iff_ne_zero.mpr hi
        simp [hmiss, hi, hi1, Vec4.pow, Vec4.scale, Vec4.splat, hw]
    · simp only [hmiss, if_false]
      cases htri : (TriangleTrace cmds ray (PathTracePayload.default F) hc0).2.1.Triangle with
      | none => simp
      | some tri =>
        rcases @Option.eq_none_or_eq_some F
          (TriangleTrace cmds ray (PathTracePayload.default F) hc0).2.1.Distance with
          hd | ⟨d, hd⟩
        · simp [hd]
        · simp only [hd]
          cases hs : scatter lib fuel ray tri.WSNormalNormalized d g with
          | none => simp
          | some next =>
            simp only
            have hw2 : (Vec4.add color (Vec4.scale (Vec4.scale
                ⟨(TriangleTrace cmds ray (PathTracePayload.default F) hc0).2.2.x,
                  (TriangleTrace cmds ray (PathTracePayload.default F) hc0).2.2.y,
                  (TriangleTrace cmds ray (PathTracePayload.default F) hc0).2.2.z, 0⟩
                (cosNLightDir tri.WSNormalNormalized L)) 1)).w = 0 := by
              simp [Vec4.add, Vec4.scale, hw]
            obtain ⟨h1, h2, h3, h4⟩ := ih (i + 1) _ next.1 next.2 (t + 1) hw2
            refine ⟨h1, ?_, ?_, ?_⟩
            · intro h
              exact absurd (h2 h).1 (by omega)
            · intro h
              obtain ⟨g2, hg2⟩ := h3 h
              have ht : t + 1 + n = t + (n + 1) := by omega
              exact ⟨g2, by rw [hg2, ht]; simp⟩
            · intro k h
              obtain ⟨hk1, hk2, hk3, c, g2, hrun, hcw⟩ := h4 k h
              have ht : t + 1 + (k - (i + 1)) + 1 = t + (k - i) + 1 := by omega
              refine ⟨hk1, by omega, by omega, c, g2, ?_, hcw⟩
              rw [hrun, ht]
              simp

/-- C22 (alpha channel of the path integrator).  With `pow(0, 1 / 2.2) = 0`, as for the
real power function: `PerPixel` returns unless its exit is `NoReturn`; the exit is the
primary miss exactly when the trace of the primary ray misses; the exit behind the loop
is reached after five traces and the exit after `k` hits, `1 ≤ k ≤ 4`, after `k + 1`;
and the alpha of the returned colour is `1` exactly for the primary miss and the
exhausted budget, and `0` exactly for a miss after at least one hit. -/
theorem PerPixel_alpha (lib : MathLib F) (fuel : Nat)
    (MainCommands : List (RenderCommand F)) (L hitColor0 : Vec3 F)
    (x y Width Height : Nat) (inInvProj inInvView : Mat4 F) (inCamPos : Vec3 F) (g : Rng F)
    (hpow0 : lib.pow 0 (1 / (22 / 10)) = 0) :
    ((PerPixel lib fuel MainCommands L hitColor0 x y Width Height inInvProj inInvView
        inCamPos g).result = none ↔
      PerPixelExitPoint lib fuel MainCommands hitColor0 x y Width Height inInvProj
        inInvView inCamPos g = PerPixelExit.NoReturn) ∧
    (PerPixelExitPoint lib fuel MainCommands hitColor0 x y Width Height inInvProj
        inInvView inCamPos g = PerPixelExit.PrimaryMiss ↔
      (TriangleTrace MainCommands
        (primaryRay lib x y Width Height inInvProj inInvView inCamPos)
        (PathTracePayload.default F) hitColor0).1 = false) ∧
    (PerPixelExitPoint lib fuel MainCommands hitColor0 x y Width Height inInvProj
        inInvView inCamPos g = PerPixelExit.BudgetExhausted →
      (PerPixel lib fuel MainCommands L hitColor0 x y Width Height inInvProj inInvView
        inCamPos g).traces = 5) ∧
    (∀ k, PerPixelExitPoint lib fuel MainCommands hitColor0 x y Width Height inInvProj
        inInvView inCamPos g = PerPixelExit.MissAfterHits k →
      1 ≤ k ∧ k ≤ 4 ∧
      (PerPixel lib fuel MainCommands L hitColor0 x y Width Height inInvProj inInvView
        inCamPos g).traces = k + 1) ∧
    (∀ c g2, (PerPixel lib fuel MainCommands L hitColor0 x y Width Height inInvProj
        inInvView inCamPos g).result = some (c, g2) →
      (c.w = 1 ↔
        (PerPixelExitPoint lib fuel MainCommands hitColor0 x y Width Height inInvProj
            inInvView inCamPos g = PerPixelExit.PrimaryMiss ∨
          PerPixelExitPoint lib fuel MainCommands hitColor0 x y Width Height inInvProj
            inInvView inCamPos g = PerPixelExit.BudgetExhausted)) ∧
      (c.w = 0 ↔
        ∃ k, PerPixelExitPoint lib fuel MainCommands hitColor0 x y Width Height inInvProj
          inInvView inCamPos g = PerPixelExit.MissAfterHits k)) ∧
    Real.rpow 0 (1 / (22 / 10)) = 0 := by
  obtain ⟨h1, h2, h3, h4⟩ := PerPixelLoop_exit_cases lib fuel MainCommands L hitColor0 5 0
    ⟨0, 0, 0, 0⟩ (primaryRay lib x y Width Height inInvProj inInvView inCamPos) g 0 rfl
  have hreal : Real.rpow 0 (1 / (22 / 10)) = 0 := by
    have hne : ((1 : ℝ) / (22 / 10)) ≠ 0 := by norm_num
    simp only [Real.rpow_eq_pow, Real.zero_rpow hne]
  unfold PerPixelExitPoint PerPixel
  cases hex : PerPixelLoopExit lib fuel MainCommands hitColor0 5 0
      (primaryRay lib x y Width Height inInvProj inInvView inCamPos) g with
  | NoReturn =>
    have hn := h1 hex
    refine ⟨by simp [hn], ?_, by simp, by simp, ?_, hreal⟩
    · constructor
      · intro h; simp at h
      · intro hmiss
        rw [PerPixelLoopExit] at hex
        simp [hmiss] at hex
    · intro c g2 hres
      rw [hn] at hres
      simp at hres
  | PrimaryMiss =>
    obtain ⟨_, hmiss, hrun⟩ := h2 hex
    refine ⟨by simp [hrun], by simp [hmiss], by simp, by simp, ?_, hreal⟩
    intro c g2 hres
    rw [hrun] at hres
    simp only [Option.some.injEq, Prod.mk.injEq] at hres
    rw [← hres.1]
    simp
  | BudgetExhausted =>
    obtain ⟨g3, hrun⟩ := h3 hex
    refine ⟨by simp [hrun], ?_, by simp [hrun], by simp, ?_, hreal⟩
    · constructor
      · intro h; simp at h
      · intro hmiss
        rw [PerPixelLoopExit] at hex
        simp [hmiss] at hex
    · intro c g2 hres
      rw [hrun] at hres
      simp only [Option.some.injEq, Prod.mk.injEq] at hres
      rw [← hres.1]
      simp
  | MissAfterHits k =>
    obtain ⟨hk1, _, hk3, c0, g3, hrun, hcw⟩ := h4 k hex
    refine ⟨by simp [hrun], ?_, by simp, ?_, ?_, hreal⟩
    · constructor
      · intro h; simp at h
      · intro hmiss
        rw [PerPixelLoopExit] at hex
        simp [hmiss] at hex
    · intro k2 hk2
      have hkk : k = k2 := by simpa using hk2
      subst hkk
      refine ⟨hk1, by omega, ?_⟩
      rw [hrun]
      simp
    · intro c g2 hres
      rw [hrun] at hres
      simp only [Option.some.injEq, Prod.mk.injEq] at hres
      rw [← hres.1, hcw, hpow0]
      simp

/-- A colour component in `[0, 1]` times a clamped cosine stays in `[0, 1]`. -/
theorem contribution_bounds (a b : F) (ha : 0 ≤ a ∧ a ≤ 1) (hb : 1 / 10 ≤ b ∧ b ≤ 1) :
    0 ≤ a * b * 1 ∧ a * b * 1 ≤ 1 := by
  have hb0 : 0 ≤ b := le_trans (by norm_num) hb.1
  constructor
  · rw [mul_one]; exact mul_nonneg ha.1 hb0
  · rw [mul_one]; exact mul_le_one₀ ha.2 hb0 hb.2

/-- A sum of at most `i` contributions, `i ≥ 1`, scaled by `1 / i` lies in `[0, 1]`. -/
theorem scaled_bounds (v : F) (i : Nat) (hi : i ≠ 0) (hv : 0 ≤ v ∧ v ≤ (i : F)) :
    0 ≤ v * (1 / (i : F)) ∧ v * (1 / (i : F)) ≤ 1 := by
  have hpos : (0 : F) < (i : F) := Nat.cast_pos.mpr (Nat.pos_of_ne_zero hi)
  rw [mul_one_div]
  exact ⟨div_nonneg hv.1 hpos.le, (div_le_one hpos).mpr hv.2⟩

/-- Range invariant of the bounce loop.  With override colours in `[0, 1]` and a power
function that maps `[0, 1]` into itself, from a colour whose channels lie between `0`
and the loop index and whose alpha is `0`, every colour the loop returns has its four
channels in `[0, 1]`. -/
theorem PerPixelLoop_range (lib : MathLib F) (fuel : Nat)
    (cmds : List (RenderCommand F)) (L hc0 : Vec3 F)
    (hcol : ∀ c ∈ cmds, (0 ≤ c.OverrideColor.x ∧ c.OverrideColor.x ≤ 1) ∧
      (0 ≤ c.OverrideColor.y ∧ c.OverrideColor.y ≤ 1) ∧
      (0 ≤ c.OverrideColor.z ∧ c.OverrideColor.z ≤ 1))
    (hpow : ∀ v : F, 0 ≤ v → v ≤ 1 →
      0 ≤ lib.pow v (1 / (22 / 10)) ∧ lib.pow v (1 / (22 / 10)) ≤ 1) :
    ∀ (n i : Nat) (color : Vec4 F) (ray : PathTracingRay F) (g : Rng F) (t : Nat),
      (0 ≤ color.x ∧ color.x ≤ (i : F)) → (0 ≤ color.y ∧ color.y ≤ (i : F)) →
      (0 ≤ color.z ∧ color.z ≤ (i : F)) → color.w = 0 →
      ∀ (c : Vec4 F) (g2 : Rng F),
        (PerPixelLoop lib fuel cmds L hc0 n i color ray g t).result = some (c, g2) →
        (0 ≤ c.x ∧ c.x ≤ 1) ∧ (0 ≤ c.y ∧ c.y ≤ 1) ∧ (0 ≤ c.z ∧ c.z ≤ 1) ∧
        (0 ≤ c.w ∧ c.w ≤ 1) := by
  intro n
  induction n with
  | zero =>
    intro i color ray g t _ _ _ _ c g2 h
    simp only [PerPixelLoop, Option.some.injEq, Prod.mk.injEq] at h
    rw [← h.1]
    norm_num
  | succ n ih =>
    intro i color ray g t hx hy hz hw c g2 h
    rw [PerPixelLoop] at h
    by_cases hmiss : (TriangleTrace cmds ray (PathTracePayload.default F) hc0).1 = false
    · by_cases hi : i = 0
      · simp only [hmiss, hi, if_true, Option.some.injEq, Prod.mk.injEq] at h
        rw [← h.1]
        norm_num
      · simp only [hmiss, hi, if_true, if_false, Option.some.injEq, Prod.mk.injEq] at h
        rw [← h.1]
        simp only [Vec4.pow, Vec4.scale, Vec4.splat]
        obtain ⟨hx0, hx1⟩ := scaled_bounds color.x i hi hx
        obtain ⟨hy0, hy1⟩ := scaled_bounds color.y i hi hy
        obtain ⟨hz0, hz1⟩ := scaled_bounds color.z i hi hz
        refine ⟨hpow _ hx0 hx1, hpow _ hy0 hy1, hpow _ hz0 hz1, ?_⟩
        rw [hw, zero_mul]
        exact hpow 0 (le_refl 0) zero_le_one
    · simp only [hmiss, if_false] at h
      cases htri : (TriangleTrace cmds ray (PathTracePayload.default F) hc0).2.1.Triangle with
      | none => simp [htri] at h
      | some tri =>
        rcases @Option.eq_none_or_eq_some F
          (TriangleTrace cmds ray (PathTracePayload.default F) hc0).2.1.Distance with
          hd | ⟨d, hd⟩
        · simp [htri, hd] at h
        · simp only [htri, hd] at h
          cases hs : scatter lib fuel ray tri.WSNormalNormalized d g with
          | none => simp [hs] at h
          | some next =>
            simp only [hs] at h
            obtain ⟨cmd, hcmd, hcolor⟩ := TriangleTrace_hit_color cmds ray hc0
              (by rw [htri]; simp)
            obtain ⟨hcx, hcy, hcz⟩ := hcol cmd hcmd
            rw [← hcolor] at hcx hcy hcz
            have hcos := cosNLightDir_bounds tri.WSNormalNormalized L
            obtain ⟨ax0, ax1⟩ := contribution_bounds _ _ hcx hcos
            obtain ⟨ay0, ay1⟩ := contribution_bounds _ _ hcy hcos
            obtain ⟨az0, az1⟩ := contribution_bounds _ _ hcz hcos
            have hx2 : 0 ≤ (Vec4.add color (Vec4.scale (Vec4.scale
                ⟨(TriangleTrace cmds ray (PathTracePayload.default F) hc0).2.2.x,
                  (TriangleTrace cmds ray (PathTracePayload.default F) hc0).2.2.y,
                  (TriangleTrace cmds ray (PathTracePayload.default F) hc0).2.2.z, 0⟩
                (cosNLightDir tri.WSNormalNormalized L)) 1)).x ∧
                (Vec4.add color (Vec4.scale (Vec4.scale
                ⟨(TriangleTrace cmds ray (PathTracePayload.default F) hc0).2.2.x,
                  (TriangleTrace cmds ray (PathTracePayload.default F) hc0).2.2.y,
                  (TriangleTrace cmds ray (PathTracePayload.default F) hc0).2.2.z, 0⟩
                (cosNLightDir tri.WSNormalNormalized L)) 1)).x ≤ ((i + 1 : Nat) : F) := by
              simp only [Vec4.add, Vec4.scale]
              push_cast
              exact ⟨by linarith [hx.1], by linarith [hx.2]⟩
            have hy2 : 0 ≤ (Vec4.add color (Vec4.scale (Vec4.scale
                ⟨(TriangleTrace cmds ray (PathTracePayload.default F) hc0).2.2.x,
                  (TriangleTrace cmds ray (PathTracePayload.default F) hc0).2.2.y,
                  (TriangleTrace cmds ray (PathTracePayload.default F) hc0).2.2.z, 0⟩
                (cosNLightDir tri.WSNormalNormalized L)) 1)).y ∧
                (Vec4.add color (Vec4.scale (Vec4.scale
                ⟨(TriangleTrace cmds ray (PathTracePayload.default F) hc0).2.2.x,
                  (TriangleTrace cmds ray (PathTracePayload.default F) hc0).2.2.y,
                  (TriangleTrace cmds ray (PathTracePayload.default F) hc0).2.2.z, 0⟩
                (cosNLightDir tri.WSNormalNormalized L)) 1)).y ≤ ((i + 1 : Nat) : F) := by
              simp only [Vec4.add, Vec4.scale]
              push_cast
              exact ⟨by linarith [hy.1], by linarith [hy.2]⟩
            have hz2 : 0 ≤ (Vec4.add color (Vec4.scale (Vec4.scale
                ⟨(TriangleTrace cmds ray (PathTracePayload.default F) hc0).2.2.x,
                  (TriangleTrace cmds ray (PathTracePayload.default F) hc0).2.2.y,
                  (TriangleTrace cmds ray (PathTracePayload.default F) hc0).2.2.z, 0⟩
                (cosNLightDir tri.WSNormalNormalized L)) 1)).z ∧
                (Vec4.add color (Vec4.scale (Vec4.scale
                ⟨(TriangleTrace cmds ray (PathTracePayload.default F) hc0).2.2.x,
                  (TriangleTrace cmds ray (PathTracePayload.default F) hc0).2.2.y,
                  (TriangleTrace cmds ray (PathTracePayload.default F) hc0).2.2.z, 0⟩
                (cosNLightDir tri.WSNormalNormalized L)) 1)).z ≤ ((i + 1 : Nat) : F) := by
              simp only [Vec4.add, Vec4.scale]
              push_cast
              exact ⟨by linarith [hz.1], by linarith [hz.2]⟩
            have hw2 : (Vec4.add color (Vec4.scale (Vec4.scale
                ⟨(TriangleTrace cmds ray (PathTracePayload.default F) hc0).2.2.x,
                  (TriangleTrace cmds ray (PathTracePayload.default F) hc0).2.2.y,
                  (TriangleTrace cmds ray (PathTracePayload.default F) hc0).2.2.z, 0⟩
                (cosNLightDir tri.WSNormalNormalized L)) 1)).w = 0 := by
              simp [Vec4.add, Vec4.scale, hw]
            exact ih (i + 1) _ next.1 next.2 (t + 1) hx2 hy2 hz2 hw2 c g2 (by simpa using h)

/-- The rejection loop leaves the stream of the generator as it is. -/
theorem random_in_unit_sphere_stream : ∀ (fuel : Nat) (g g2 : Rng F) (p : Vec3 F),
    random_in_unit_sphere fuel g = some (p, g2) → g2.stream = g.stream := by
  intro fuel
  induction fuel with
  | zero => intro g g2 p h; simp [random_in_unit_sphere] at h
  | succ fuel ih =>
    intro g g2 p h
    rw [random_in_unit_sphere] at h
    by_cases hlt : Vec3.lengthSquared (randomVec3 (-1) 1 g).1 < 1
    · simp only [hlt, if_true, Option.some.injEq] at h
      have hg2 : g2 = (randomVec3 (-1) 1 g).2 := by rw [h]
      rw [hg2]
      rfl
    · simp only [hlt, if_false] at h
      rw [ih _ g2 p h]
      rfl

/-- The bounce loop returns.  When the rejection loop ends within the budget from every
position of the stream, and every acceleration structure reports, with a hit, a
triangle and a finite distance, the bounce loop has a result. -/
theorem PerPixelLoop_returns (lib : MathLib F) (fuel : Nat)
    (cmds : List (RenderCommand F)) (L hc0 : Vec3 F) (stream : Nat → F)
    (hfuel : ∀ pos, random_in_unit_sphere fuel (⟨stream, pos⟩ : Rng F) ≠ none)
    (hhits : ∀ c ∈ cmds, ∀ r : PathTracingRay F, (c.AccStructure.Trace r).1 = true →
      (c.AccStructure.Trace r).2.Triangle ≠ none ∧
      (c.AccStructure.Trace r).2.Distance ≠ ⊤) :
    ∀ (n i : Nat) (color : Vec4 F) (ray : PathTracingRay F) (g : Rng F) (t : Nat),
      g.stream = stream →
      (PerPixelLoop lib fuel cmds L hc0 n i color ray g t).result ≠ none := by
  intro n
  induction n with
  | zero => intro i color ray g t _; simp [PerPixelLoop]
  | succ n ih =>
    intro i color ray g t hg
    rw [PerPixelLoop]
    by_cases hmiss : (TriangleTrace cmds ray (PathTracePayload.default F) hc0).1 = false
    · by_cases hi : i = 0
      · simp [hmiss, hi]
      · simp [hmiss, hi]
    · have hflag : (TriangleTrace cmds ray (PathTracePayload.default F) hc0).1 = true := by
        simpa using hmiss
      obtain ⟨ht, hdist⟩ := TriangleTrace_hit_payload cmds ray hc0 hhits hflag
      simp only [hmiss, if_false]
      cases htri : (TriangleTrace cmds ray (PathTracePayload.default F) hc0).2.1.Triangle with
      | none => exact absurd htri ht
      | some tri =>
        rcases @Option.eq_none_or_eq_some F
          (TriangleTrace cmds ray (PathTracePayload.default F) hc0).2.1.Distance with
          hd | ⟨d, hd⟩
        · exact absurd hd hdist
        · simp only [hd]
          have hgen : g = ⟨stream, g.pos⟩ := by rw [← hg]
          cases hp : random_in_unit_sphere fuel g with
          | none =>
            rw [hgen] at hp
            exact absurd hp (hfuel g.pos)
          | some p =>
            have hstream : p.2.stream = stream := by
              rw [random_in_unit_sphere_stream fuel g p.2 p.1 hp, hg]
            have hs : scatter lib fuel ray tri.WSNormalNormalized d g
                = some ({ Origin := Vec3.add (Vec3.add ray.Origin (Vec3.scale ray.Direction d))
                            (Vec3.scale tri.WSNormalNormalized (1 / 10000))
                          Direction :=
                            if near_zero (Vec3.add tri.WSNormalNormalized
                                (Vec3.normalize lib.inversesqrt p.1)) = true
                            then tri.WSNormalNormalized
                            else Vec3.add tri.WSNormalNormalized
                              (Vec3.normalize lib.inversesqrt p.1) }, p.2) := by
              simp [scatter, random_unit_vector, hp]
            simp only [hs]
            exact ih _ _ _ _ _ hstream

/-- The run of `PerPixel` on pixel `(0, 0)` of a `1 x 1` image over `exFloor`, lit
from above: one hit, then a miss, after two traces. -/
theorem exFloor_PerPixel :
    PerPixel exLib 1 [exFloor] ⟨0, 0, -1⟩ ⟨0, 0, 0⟩ 0 0 1 1 exIdentity exIdentity
        ⟨0, 0, 0⟩ exRng
      = ⟨2, some (⟨1, 1 / 2, 0, 0⟩, exGens 1)⟩ := by
  have hray : primaryRay exLib 0 0 1 1 exIdentity exIdentity ⟨0, 0, 0⟩ = exRays 0 := by
    simp [exRays, primaryRay, Mat4.mulVec, Vec4.add, Vec4.scale, Vec4.div, Vec4.splat,
      Vec3.normalize, Vec3.scale, exLib, exIdentity]
  have hhit : TriangleTrace [exFloor] (exRays 0) (PathTracePayload.default ℚ) ⟨0, 0, 0⟩
      = (true, ⟨((2 : ℚ) : WithTop ℚ), some exTriangle⟩, exFloor.OverrideColor) := by
    simp [TriangleTrace, TriangleTraceStep, exFloor, exRays, PathTracePayload.default]
  have hnext : scatter exLib 1 (exRays 0) exTriangle.WSNormalNormalized 2 (exGens 0)
      = some (exRays (0 + 1), exGens (0 + 1)) := by
    simp only [scatter, exGens, exRng_unit_vector]
    simp [exRays, exTriangle, Vec3.add, Vec3.scale, near_zero]
    norm_num
  have hmiss : (TriangleTrace [exFloor] (exRays (0 + 1)) (PathTracePayload.default ℚ)
      ⟨0, 0, 0⟩).1 = false := by
    simp [TriangleTrace, TriangleTraceStep, exFloor, exRays, PathTracePayload.default]
  unfold PerPixel
  rw [hray, show exRng = exGens 0 from rfl,
    PerPixelLoop_hit exLib 1 [exFloor] ⟨0, 0, -1⟩ ⟨0, 0, 0⟩ 4 0 ⟨0, 0, 0, 0⟩ (exRays 0)
      (exRays (0 + 1)) (exGens 0) (exGens (0 + 1)) 0 2 exTriangle exFloor.OverrideColor
      hhit hnext,
    PerPixelLoop_miss exLib 1 [exFloor] ⟨0, 0, -1⟩ ⟨0, 0, 0⟩ 3 (0 + 1) _ (exRays (0 + 1))
      (exGens (0 + 1)) (0 + 1) hmiss]
  simp [Vec4.pow, Vec4.scale, Vec4.add, Vec4.splat, exLib, exFloor, exTriangle,
    cosNLightDir, clamp, Vec3.dot, Vec3.neg]

theorem PerPixel_alpha_witness :
    (PerPixel exLib 1 [exFloor] ⟨0, 0, -1⟩ ⟨0, 0, 0⟩ 0 0 1 1 exIdentity exIdentity
        ⟨0, 0, 0⟩ exRng).result = some (⟨1, 1 / 2, 0, 0⟩, exGens 1) ∧
    ((⟨1, 1 / 2, 0, 0⟩ : Vec4 ℚ).w = 0 ↔
      ∃ k, PerPixelExitPoint exLib 1 [exFloor] ⟨0, 0, 0⟩ 0 0 1 1 exIdentity exIdentity
        ⟨0, 0, 0⟩ exRng = PerPixelExit.MissAfterHits k) :=
  ⟨by rw [exFloor_PerPixel],
    ((PerPixel_alpha exLib 1 [exFloor] ⟨0, 0, -1⟩ ⟨0, 0, 0⟩ 0 0 1 1 exIdentity exIdentity
      ⟨0, 0, 0⟩ exRng rfl).2.2.2.2.1 ⟨1, 1 / 2, 0, 0⟩ (exGens 1)
      (by rw [exFloor_PerPixel])).2⟩

end RangeTheorems

section ColourTheorems

variable {F : Type} [LinearOrderedField F] [FloorRing F]

/-- C21 (colour range).  When every command's `OverrideColor` has its components in
`[0, 1]` and the power function maps `[0, 1]` into itself for the exponent `1 / 2.2`,
as the real power function does: every colour `PerPixel` returns has its four channels
in `[0, 1]`; the four conversions of `ConvertToRGBA` then receive values in
`[0, 255]` and yield their floors, at most `255`; in a frame whose counter is `1` the
colour handed to `ConvertToRGBA` is that colour; and `PerPixel` does return when the
rejection loop ends within its budget from every position of the stream and the
acceleration structures report a triangle and a finite distance with every hit. -/
theorem PerPixel_colour_range (lib : MathLib F) (fuel : Nat)
    (MainCommands : List (RenderCommand F)) (L hitColor0 : Vec3 F)
    (x y Width Height : Nat) (inInvProj inInvView : Mat4 F) (inCamPos : Vec3 F) (g : Rng F)
    (hcol : ∀ c ∈ MainCommands, (0 ≤ c.OverrideColor.x ∧ c.OverrideColor.x ≤ 1) ∧
      (0 ≤ c.OverrideColor.y ∧ c.OverrideColor.y ≤ 1) ∧
      (0 ≤ c.OverrideColor.z ∧ c.OverrideColor.z ≤ 1))
    (hpow : ∀ v : F, 0 ≤ v → v ≤ 1 →
      0 ≤ lib.pow v (1 / (22 / 10)) ∧ lib.pow v (1 / (22 / 10)) ≤ 1) :
    (∀ (c : Vec4 F) (g2 : Rng F),
      (PerPixel lib fuel MainCommands L hitColor0 x y Width Height inInvProj inInvView
        inCamPos g).result = some (c, g2) →
      ((0 ≤ c.x ∧ c.x ≤ 1) ∧ (0 ≤ c.y ∧ c.y ≤ 1) ∧ (0 ≤ c.z ∧ c.z ≤ 1) ∧
        (0 ≤ c.w ∧ c.w ≤ 1)) ∧
      ((0 ≤ c.x * 255 ∧ c.x * 255 ≤ 255) ∧ (0 ≤ c.y * 255 ∧ c.y * 255 ≤ 255) ∧
        (0 ≤ c.z * 255 ∧ c.z * 255 ≤ 255) ∧ (0 ≤ c.w * 255 ∧ c.w * 255 ≤ 255)) ∧
      ((toUInt8 (c.x * 255) = Int.toNat ⌊c.x * 255⌋ ∧ Int.toNat ⌊c.x * 255⌋ ≤ 255) ∧
        (toUInt8 (c.y * 255) = Int.toNat ⌊c.y * 255⌋ ∧ Int.toNat ⌊c.y * 255⌋ ≤ 255) ∧
        (toUInt8 (c.z * 255) = Int.toNat ⌊c.z * 255⌋ ∧ Int.toNat ⌊c.z * 255⌋ ≤ 255) ∧
        (toUInt8 (c.w * 255) = Int.toNat ⌊c.w * 255⌋ ∧ Int.toNat ⌊c.w * 255⌋ ≤ 255)) ∧
      ∀ old : Vec4 F,
        Vec4.div (accumulatedPixel 1 (fun _ _ => c) old 0 0) (Vec4.splat ((1 : Nat) : F))
          = c) ∧
    ((∀ pos, random_in_unit_sphere fuel (⟨g.stream, pos⟩ : Rng F) ≠ none) →
      (∀ c ∈ MainCommands, ∀ r : PathTracingRay F, (c.AccStructure.Trace r).1 = true →
        (c.AccStructure.Trace r).2.Triangle ≠ none ∧
        (c.AccStructure.Trace r).2.Distance ≠ ⊤) →
      ∃ c g2, (PerPixel lib fuel MainCommands L hitColor0 x y Width Height inInvProj
        inInvView inCamPos g).result = some (c, g2)) ∧
    (∀ v : ℝ, 0 ≤ v → v ≤ 1 →
      0 ≤ Real.rpow v (1 / (22 / 10)) ∧ Real.rpow v (1 / (22 / 10)) ≤ 1) := by
  refine ⟨?_, ?_, ?_⟩
  · intro c g2 hres
    have hr := PerPixelLoop_range lib fuel MainCommands L hitColor0 hcol hpow 5 0
      ⟨0, 0, 0, 0⟩ (primaryRay lib x y Width Height inInvProj inInvView inCamPos) g 0
      (by simp) (by simp) (by simp) rfl c g2 hres
    obtain ⟨hx, hy, hz, hw⟩ := hr
    refine ⟨⟨hx, hy, hz, hw⟩, ⟨?_, ?_, ?_, ?_⟩,
      ⟨toUInt8_of_unit c.x hx.1 hx.2, toUInt8_of_unit c.y hy.1 hy.2,
        toUInt8_of_unit c.z hz.1 hz.2, toUInt8_of_unit c.w hw.1 hw.2⟩, ?_⟩
    · exact ⟨by linarith [hx.1], by linarith [hx.2]⟩
    · exact ⟨by linarith [hy.1], by linarith [hy.2]⟩
    · exact ⟨by linarith [hz.1], by linarith [hz.2]⟩
    · exact ⟨by linarith [hw.1], by linarith [hw.2]⟩
    · intro old
      simp [accumulatedPixel, Vec4.add, Vec4.div, Vec4.splat]
  · intro hfuel hhits
    have hne := PerPixelLoop_returns lib fuel MainCommands L hitColor0 g.stream hfuel hhits
      5 0 ⟨0, 0, 0, 0⟩ (primaryRay lib x y Width Height inInvProj inInvView inCamPos) g 0
      rfl
    unfold PerPixel
    cases hres : (PerPixelLoop lib fuel MainCommands L hitColor0 5 0 ⟨0, 0, 0, 0⟩
        (primaryRay lib x y Width Height inInvProj inInvView inCamPos) g 0).result with
    | none => exact absurd hres hne
    | some r => exact ⟨r.1, r.2, rfl⟩
  · intro v h0 h1
    simp only [Real.rpow_eq_pow]
    exact ⟨Real.rpow_nonneg h0 _, Real.rpow_le_one h0 h1 (by norm_num)⟩

theorem PerPixel_colour_range_witness :
    (PerPixel exLib 1 [exFloor] ⟨0, 0, -1⟩ ⟨0, 0, 0⟩ 0 0 1 1 exIdentity exIdentity
        ⟨0, 0, 0⟩ exRng).result = some (⟨1, 1 / 2, 0, 0⟩, exGens 1) ∧
    ((0 ≤ (⟨1, 1 / 2, 0, 0⟩ : Vec4 ℚ).x ∧ (⟨1, 1 / 2, 0, 0⟩ : Vec4 ℚ).x ≤ 1) ∧
      (0 ≤ (⟨1, 1 / 2, 0, 0⟩ : Vec4 ℚ).y ∧ (⟨1, 1 / 2, 0, 0⟩ : Vec4 ℚ).y ≤ 1) ∧
      (0 ≤ (⟨1, 1 / 2, 0, 0⟩ : Vec4 ℚ).z ∧ (⟨1, 1 / 2, 0, 0⟩ : Vec4 ℚ).z ≤ 1) ∧
      (0 ≤ (⟨1, 1 / 2, 0, 0⟩ : Vec4 ℚ).w ∧ (⟨1, 1 / 2, 0, 0⟩ : Vec4 ℚ).w ≤ 1)) :=
  ⟨by rw [exFloor_PerPixel],
    ((PerPixel_colour_range exLib 1 [exFloor] ⟨0, 0, -1⟩ ⟨0, 0, 0⟩ 0 0 1 1 exIdentity
      exIdentity ⟨0, 0, 0⟩ exRng
      (by
        intro c hc
        have hc2 : c = exFloor := by simpa using hc
        subst hc2
        simp only [exFloor]
        norm_num)
      (by
        intro v h0 h1
        exact ⟨h0, h1⟩)).1 ⟨1, 1 / 2, 0, 0⟩ (exGens 1) (by rw [exFloor_PerPixel])).1⟩

end ColourTheorems

end PathTracer
